import Mathlib

/-! # WorkoutTracker: the server's controllers, embedded and verified

A shallow embedding of the Express/Mongoose controllers of the server
(`server/src/controllers/{exercises,workouts,progress}.js`) and of the schemas they
use (`server/src/models`).

Conventions of the embedding.

* A JavaScript string is a `List Char`; human-readable messages are `String`s.
* A collection is the list of its documents; a handler takes the collection and the
  request and returns its reply together with the collection afterwards.
* A JavaScript number is an IEEE 754 double: `Double` for the Number paths of the
  schemas, `JsInt` for the whole numbers of the pagination, both rounding as JavaScript
  rounds. A date is its integer of milliseconds, a length a natural number.
* The schema validators that Mongoose runs on `save` and on `findByIdAndUpdate` with
  `runValidators` are a parameter `valid` of the handlers that write.
-/

set_option autoImplicit false

namespace WorkoutTracker

/-! ## Identifiers -/

/-- A MongoDB ObjectId: twelve bytes, kept as the 24 hexadecimal digits of its string. -/
structure ObjectId where
  digits : List (Fin 16)
  size : digits.length = 24
  deriving DecidableEq, Repr

/-- The lower-case hexadecimal digit of a nibble. -/
def hexDigitChar (d : Fin 16) : Char :=
  "0123456789abcdef".toList.getD d.val '0'

/-- The method `ObjectId.prototype.toString`; `req.user.id` is this string for the caller. -/
def ObjectId.toString (o : ObjectId) : List Char :=
  o.digits.map hexDigitChar

/-- The value of a hexadecimal digit, either case. -/
def hexDigitValue (c : Char) : Option (Fin 16) :=
  let n := c.toNat
  if 48 ≤ n ∧ n ≤ 57 then some (Fin.ofNat (n - 48))
  else if 97 ≤ n ∧ n ≤ 102 then some (Fin.ofNat (n - 87))
  else if 65 ≤ n ∧ n ≤ 70 then some (Fin.ofNat (n - 55))
  else none

/-- The values of a string of hexadecimal digits. -/
def hexDigits : List Char → Option (List (Fin 16))
  | [] => some []
  | c :: cs =>
    match hexDigitValue c, hexDigits cs with
    | some d, some ds => some (d :: ds)
    | _, _ => none

/-- The cast Mongoose applies to an id given as a string: a string of 24 hexadecimal
digits is an ObjectId, any other string raises a CastError (`none`). -/
def castObjectId (s : List Char) : Option ObjectId :=
  match hexDigits s with
  | some ds => if h : ds.length = 24 then some ⟨ds, h⟩ else none
  | none => none

/-- The ObjectId whose 24 digits are all `d`; used in examples. -/
def ObjectId.ofDigit (d : Fin 16) : ObjectId :=
  ⟨List.replicate 24 d, List.length_replicate 24 d⟩

/-! ## Replies -/

/-- Modelled from the spec: `utils/errorResponse` and `middleware/error` are not among the
sources. A failure is handed to the centralized error step as a message together with
the HTTP status the controller chose. -/
structure ErrorResponse where
  message : String
  statusCode : Nat
  deriving DecidableEq, Repr

/-- An exception that the `catch` block of a handler forwards with `next(err)`. -/
inductive Thrown where
  /-- The id of the route does not cast to an ObjectId. -/
  | castError
  /-- A schema validator rejected the document. -/
  | validationError
  /-- A property of `undefined` was read. -/
  | typeError
  /-- The database refused the query. -/
  | databaseError
  /-- The text given to `JSON.parse` is not JSON. -/
  | syntaxError
  deriving DecidableEq, Repr

/-- What a single-resource handler does with the request. -/
inductive Reply (α : Type) where
  /-- The call `res.status(status).json({ success: true, data })`. -/
  | json (status : Nat) (data : α)
  /-- The call `res.status(200).json({ success: true, data: {} })`. -/
  | jsonEmpty
  /-- The call `res.status(400).json({ errors })` after the checks of the route. -/
  | invalid
  /-- The call `next(new ErrorResponse(message, statusCode))`. -/
  | error (e : ErrorResponse)
  /-- The call `next(err)` of the `catch` block. -/
  | thrown (t : Thrown)
  deriving DecidableEq, Repr

/-- The status of the reply when it is an error built by the controller. -/
def Reply.errorStatus {α : Type} : Reply α → Option Nat
  | .error e => some e.statusCode
  | _ => none

/-- The record a reply carries, if any. -/
def Reply.data? {α : Type} : Reply α → Option α
  | .json _ d => some d
  | _ => none

/-- The parts of a request a single-resource handler reads: the authenticated user set by
`protect`, the `:id` of the route, and the body. -/
structure Request (β : Type) where
  user : ObjectId
  paramsId : List Char
  body : β

/-- The string `req.user.id`. -/
def Request.userId {β : Type} (req : Request β) : List Char :=
  req.user.toString

/-! ## Numbers

A JavaScript number is an IEEE 754 double. The arithmetic on doubles is the exact
arithmetic followed by the rounding to the nearest double, of two nearest to the one with
the even mantissa. -/

/-- The search of the bit length between `lo` and `hi` by halving the interval. -/
def bisect : Nat → Nat → Nat → Nat → Nat
  | 0, _, hi, _ => hi
  | fuel + 1, lo, hi, n =>
    if n < 1 <<< ((lo + hi) / 2) then bisect fuel lo ((lo + hi) / 2) n
    else bisect fuel ((lo + hi) / 2) hi n

/-- The bit length by halving the number. -/
def bitLength : Nat → Nat → Nat
  | 0, _ => 0
  | fuel + 1, n => if n = 0 then 0 else bitLength fuel (n / 2) + 1

/-- The bit length of a natural number: the least `k` with `n < 2 ^ k`. -/
def bits (n : Nat) : Nat :=
  if n = 0 then 0
  else if n < 1 <<< 8192 then bisect 13 0 8192 n
  else bitLength n n

/-- The rounding of the magnitude `p` to 53 significant bits, to the nearest and of two
nearest to the one with the even mantissa, where no bit below the bit `minShift` is kept;
the result counts in units of `2 ^ minShift`. -/
def roundBits (p minShift : Nat) : Nat :=
  if max (bits p - 53) minShift = 0 then p
  else
    let shift := max (bits p - 53) minShift
    let q := p >>> shift
    let r := p - (q <<< shift)
    let half := 1 <<< (shift - 1)
    (if half < r ∨ (r = half ∧ q % 2 = 1) then q + 1 else q) <<< (shift - minShift)

/-- A double: not a number, an infinity, or a finite value, which is a whole number of
units of `2 ^ -1074`, the least positive double. The doubles are the values of at most 53
significant bits below `2 ^ 1024`, and the operations round to them. The two zeros of
IEEE 754, which compare equal and serialize alike, are the one value `finite 0`. -/
inductive Double where
  | nan
  | negInf
  | finite (units : Int)
  | posInf
  deriving DecidableEq, Repr

/-- The double of a sign and a rounded magnitude in units: from `2 ^ 1024` on it is an
infinity. -/
def Double.ofMagnitude (negative : Bool) (units : Nat) : Double :=
  if 1 <<< 2098 ≤ units then (if negative then .negInf else .posInf)
  else .finite (if negative then -(units : Int) else (units : Int))

/-- The double nearest to an integer. -/
def Double.ofInt (n : Int) : Double :=
  Double.ofMagnitude (decide (n < 0)) (roundBits (n.natAbs <<< 1074) 0)

instance (n : Nat) : OfNat Double n := ⟨Double.ofInt n⟩

/-- The sum `a + b` of JavaScript. -/
def Double.add (a b : Double) : Double :=
  match a, b with
  | .nan, _ => .nan
  | .negInf, .nan => .nan
  | .negInf, .posInf => .nan
  | .negInf, _ => .negInf
  | .posInf, .nan => .nan
  | .posInf, .negInf => .nan
  | .posInf, _ => .posInf
  | .finite _, .nan => .nan
  | .finite _, .negInf => .negInf
  | .finite _, .posInf => .posInf
  | .finite x, .finite y =>
    if x = 0 then .finite y
    else if y = 0 then .finite x
    else Double.ofMagnitude (decide (x + y < 0)) (roundBits (x + y).natAbs 0)

/-- The product `a * b` of JavaScript. -/
def Double.mul (a b : Double) : Double :=
  match a, b with
  | .nan, _ => .nan
  | .negInf, .nan => .nan
  | .negInf, .negInf => .posInf
  | .negInf, .posInf => .negInf
  | .negInf, .finite y => if y = 0 then .nan else if y < 0 then .posInf else .negInf
  | .posInf, .nan => .nan
  | .posInf, .negInf => .negInf
  | .posInf, .posInf => .posInf
  | .posInf, .finite y => if y = 0 then .nan else if y < 0 then .negInf else .posInf
  | .finite _, .nan => .nan
  | .finite x, .negInf => if x = 0 then .nan else if x < 0 then .posInf else .negInf
  | .finite x, .posInf => if x = 0 then .nan else if x < 0 then .negInf else .posInf
  | .finite x, .finite y =>
    Double.ofMagnitude (decide (x < 0) != decide (y < 0))
      (roundBits (x.natAbs * y.natAbs) 1074)

/-- The comparison `a < b` of JavaScript: false when an operand is not a number. -/
def Double.lt (a b : Double) : Bool :=
  match a, b with
  | .nan, _ => false
  | .negInf, .nan => false
  | .negInf, .negInf => false
  | .negInf, _ => true
  | .posInf, _ => false
  | .finite _, .nan => false
  | .finite _, .negInf => false
  | .finite _, .posInf => true
  | .finite x, .finite y => decide (x < y)

/-- Whether a number is truthy: neither zero nor NaN. -/
def Double.truthy : Double → Bool
  | .nan => false
  | .finite x => decide (x ≠ 0)
  | _ => true

instance : Add Double := ⟨Double.add⟩

instance : Mul Double := ⟨Double.mul⟩

/-- A JavaScript number that is whole, infinite or NaN: what `parseInt` returns, and what
the sums, differences and products of such numbers are. A finite one is the integer
itself, and the integers that occur are those a double holds: `JsInt.ofInt` rounds. -/
inductive JsInt where
  | nan
  | negInf
  | finite (n : Int)
  | posInf
  deriving DecidableEq, Repr

/-- The number of a sign and a rounded magnitude: from `2 ^ 1024` on it is an infinity. -/
def JsInt.ofMagnitude (negative : Bool) (n : Nat) : JsInt :=
  if 1 <<< 1024 ≤ n then (if negative then .negInf else .posInf)
  else .finite (if negative then -(n : Int) else (n : Int))

/-- The double nearest to an integer. -/
def JsInt.ofInt (n : Int) : JsInt :=
  JsInt.ofMagnitude (decide (n < 0)) (roundBits n.natAbs 0)

/-- The sum `a + b` of JavaScript. -/
def JsInt.add (a b : JsInt) : JsInt :=
  match a, b with
  | .nan, _ => .nan
  | .negInf, .nan => .nan
  | .negInf, .posInf => .nan
  | .negInf, _ => .negInf
  | .posInf, .nan => .nan
  | .posInf, .negInf => .nan
  | .posInf, _ => .posInf
  | .finite _, .nan => .nan
  | .finite _, .negInf => .negInf
  | .finite _, .posInf => .posInf
  | .finite x, .finite y => JsInt.ofInt (x + y)

/-- The difference `a - b` of JavaScript. -/
def JsInt.sub (a b : JsInt) : JsInt :=
  match a, b with
  | .nan, _ => .nan
  | .negInf, .nan => .nan
  | .negInf, .negInf => .nan
  | .negInf, _ => .negInf
  | .posInf, .nan => .nan
  | .posInf, .posInf => .nan
  | .posInf, _ => .posInf
  | .finite _, .nan => .nan
  | .finite _, .negInf => .posInf
  | .finite _, .posInf => .negInf
  | .finite x, .finite y => JsInt.ofInt (x - y)

/-- The product `a * b` of JavaScript. -/
def JsInt.mul (a b : JsInt) : JsInt :=
  match a, b with
  | .nan, _ => .nan
  | .negInf, .nan => .nan
  | .negInf, .negInf => .posInf
  | .negInf, .posInf => .negInf
  | .negInf, .finite y => if y = 0 then .nan else if y < 0 then .posInf else .negInf
  | .posInf, .nan => .nan
  | .posInf, .negInf => .negInf
  | .posInf, .posInf => .posInf
  | .posInf, .finite y => if y = 0 then .nan else if y < 0 then .negInf else .posInf
  | .finite _, .nan => .nan
  | .finite x, .negInf => if x = 0 then .nan else if x < 0 then .posInf else .negInf
  | .finite x, .posInf => if x = 0 then .nan else if x < 0 then .negInf else .posInf
  | .finite x, .finite y => JsInt.ofInt (x * y)

/-- The negation `-a` of JavaScript. -/
def JsInt.neg : JsInt → JsInt
  | .nan => .nan
  | .negInf => .posInf
  | .finite x => .finite (-x)
  | .posInf => .negInf

/-- The comparison `a < b` of JavaScript: false when an operand is not a number. -/
def JsInt.lt (a b : JsInt) : Bool :=
  match a, b with
  | .nan, _ => false
  | .negInf, .nan => false
  | .negInf, .negInf => false
  | .negInf, _ => true
  | .posInf, _ => false
  | .finite _, .nan => false
  | .finite _, .negInf => false
  | .finite _, .posInf => true
  | .finite x, .finite y => decide (x < y)

/-- The comparison `a <= b` of JavaScript: false when an operand is not a number. -/
def JsInt.le (a b : JsInt) : Bool :=
  match a, b with
  | .nan, _ => false
  | .negInf, .nan => false
  | .negInf, _ => true
  | .posInf, .posInf => true
  | .posInf, _ => false
  | .finite _, .nan => false
  | .finite _, .negInf => false
  | .finite _, .posInf => true
  | .finite x, .finite y => decide (x ≤ y)

instance (n : Nat) : OfNat JsInt n := ⟨JsInt.ofInt n⟩

instance : Neg JsInt := ⟨JsInt.neg⟩

instance : Add JsInt := ⟨JsInt.add⟩

instance : Sub JsInt := ⟨JsInt.sub⟩

instance : Mul JsInt := ⟨JsInt.mul⟩

instance : LT JsInt := ⟨fun a b => JsInt.lt a b = true⟩

instance : LE JsInt := ⟨fun a b => JsInt.le a b = true⟩

instance (a b : JsInt) : Decidable (a < b) :=
  inferInstanceAs (Decidable (JsInt.lt a b = true))

instance (a b : JsInt) : Decidable (a ≤ b) :=
  inferInstanceAs (Decidable (JsInt.le a b = true))

/-! ## Schemas -/

/-- A Number path of a schema as a handler reads it: not set, set to `null`, or a number,
which is a double. -/
inductive JsNumber where
  | undefined
  | null
  | num (d : Double)
  deriving DecidableEq, Repr

/-- The Exercise schema (`models/Exercise.js`): the paths the controllers decide on, with
`name` and `category` standing for the descriptive paths. -/
structure Exercise where
  _id : ObjectId
  name : List Char
  category : List Char
  isCustom : Bool
  user : Option ObjectId
  deriving DecidableEq, Repr

/-- A request body for an exercise: each path may be given or not. -/
structure ExerciseBody where
  name : Option (List Char)
  category : Option (List Char)
  isCustom : Option Bool
  user : Option ObjectId
  deriving DecidableEq, Repr

/-- One set of a workout exercise (`models/Workout.js`, lines 22-63). -/
structure WorkoutSet where
  setNumber : JsNumber
  reps : JsNumber
  weight : JsNumber
  duration : JsNumber
  distance : JsNumber
  completed : Bool
  deriving DecidableEq, Repr

/-- One exercise of a workout: the referenced exercise and its sets. -/
structure WorkoutExercise where
  exercise : ObjectId
  sets : List WorkoutSet
  deriving DecidableEq, Repr

/-- The Workout schema (`models/Workout.js`). -/
structure Workout where
  _id : ObjectId
  name : List Char
  exercises : List WorkoutExercise
  isTemplate : Bool
  isCompleted : Bool
  user : ObjectId
  deriving DecidableEq, Repr

/-- A request body for a workout. -/
structure WorkoutBody where
  name : Option (List Char)
  exercises : Option (List WorkoutExercise)
  isTemplate : Option Bool
  isCompleted : Option Bool
  user : Option ObjectId
  deriving DecidableEq, Repr

/-- The weight of a progress entry: Mongoose always materialises this nested path, and
`unit` has the default `kg`. -/
structure WeightMetric where
  value : JsNumber
  unit : List Char
  deriving DecidableEq, Repr

/-- The five body measurements of a progress entry. -/
structure Measurements where
  chest : JsNumber
  waist : JsNumber
  hips : JsNumber
  biceps : JsNumber
  thighs : JsNumber
  deriving DecidableEq, Repr

/-- The nested path `metrics` of a progress entry. -/
structure Metrics where
  weight : WeightMetric
  bodyFat : JsNumber
  measurements : Measurements
  deriving DecidableEq, Repr

/-- A personal record embedded in a progress entry (`models/Progress.js`, lines 45-61):
no path of it is required. Dates are milliseconds since the epoch. -/
structure PersonalRecord where
  exercise : Option ObjectId
  value : JsNumber
  unit : Option (List Char)
  date : Option Int
  deriving DecidableEq, Repr

/-- The Progress schema (`models/Progress.js`). -/
structure Progress where
  _id : ObjectId
  user : ObjectId
  date : Int
  metrics : Metrics
  personalRecords : List PersonalRecord
  notes : Option (List Char)
  deriving DecidableEq, Repr

/-- A request body for a progress entry. -/
structure ProgressBody where
  user : Option ObjectId
  date : Option Int
  metrics : Option Metrics
  personalRecords : Option (List PersonalRecord)
  notes : Option (List Char)
  deriving DecidableEq, Repr

/-! ## Collections -/

/-- The query `Model.findById(id)`: the stored document with this `_id`. -/
def findById {α : Type} (idOf : α → ObjectId) (store : List α) (id : ObjectId) : Option α :=
  store.find? (fun d => decide (idOf d = id))

/-- The write of `findByIdAndUpdate`: the first document with this `_id` is replaced. -/
def replaceById {α : Type} (idOf : α → ObjectId) (id : ObjectId) (d : α) : List α → List α
  | [] => []
  | x :: xs => if idOf x = id then d :: xs else x :: replaceById idOf id d xs

/-- The write of `doc.deleteOne()`: the first document with this `_id` is removed. -/
def deleteById {α : Type} (idOf : α → ObjectId) (id : ObjectId) : List α → List α
  | [] => []
  | x :: xs => if idOf x = id then xs else x :: deleteById idOf id xs

/-- The paths of the body written over the stored exercise by `findByIdAndUpdate`. -/
def Exercise.applyBody (e : Exercise) (b : ExerciseBody) : Exercise :=
  { e with
    name := b.name.getD e.name
    category := b.category.getD e.category
    isCustom := b.isCustom.getD e.isCustom
    user := match b.user with
      | some u => some u
      | none => e.user }

/-- The paths of the body written over the stored workout by `findByIdAndUpdate`. -/
def Workout.applyBody (w : Workout) (b : WorkoutBody) : Workout :=
  { w with
    name := b.name.getD w.name
    exercises := b.exercises.getD w.exercises
    isTemplate := b.isTemplate.getD w.isTemplate
    isCompleted := b.isCompleted.getD w.isCompleted
    user := b.user.getD w.user }

/-- The paths of the body written over the stored progress entry by `findByIdAndUpdate`. -/
def Progress.applyBody (p : Progress) (b : ProgressBody) : Progress :=
  { p with
    user := b.user.getD p.user
    date := b.date.getD p.date
    metrics := b.metrics.getD p.metrics
    personalRecords := b.personalRecords.getD p.personalRecords
    notes := match b.notes with
      | some n => some n
      | none => p.notes }

/-! ## Single-resource handlers of the exercises controller -/

/-- The test `exercise.isCustom && exercise.user.toString() !== req.user.id`; reading
`toString` of a missing `user` raises a TypeError. -/
def Exercise.customOfOther (exercise : Exercise) (userId : List Char) : Except Thrown Bool :=
  if exercise.isCustom then
    match exercise.user with
    | none => .error .typeError
    | some owner => .ok (decide (owner.toString ≠ userId))
  else .ok false

/-- The handler `exports.updateExercise` (`controllers/exercises.js`, lines 141-171). -/
def updateExercise (valid : Exercise → Bool) (store : List Exercise)
    (req : Request ExerciseBody) : Reply Exercise × List Exercise :=
  match castObjectId req.paramsId with
  | none => (.thrown .castError, store)
  | some id =>
    match findById Exercise._id store id with
    | none =>
      (.error ⟨"Exercise not found with id of " ++ String.mk req.paramsId, 404⟩, store)
    | some exercise =>
      match exercise.customOfOther req.userId with
      | .error t => (.thrown t, store)
      | .ok true => (.error ⟨"Not authorized to update this exercise", 401⟩, store)
      | .ok false =>
        if !exercise.isCustom then
          (.error ⟨"Cannot update public exercises", 401⟩, store)
        else
          let updated := exercise.applyBody req.body
          if valid updated then
            (.json 200 updated, replaceById Exercise._id id updated store)
          else (.thrown .validationError, store)

/-- The handler `exports.deleteExercise` (`controllers/exercises.js`, lines 176-203). -/
def deleteExercise (store : List Exercise)
    (req : Request Unit) : Reply Exercise × List Exercise :=
  match castObjectId req.paramsId with
  | none => (.thrown .castError, store)
  | some id =>
    match findById Exercise._id store id with
    | none =>
      (.error ⟨"Exercise not found with id of " ++ String.mk req.paramsId, 404⟩, store)
    | some exercise =>
      match exercise.customOfOther req.userId with
      | .error t => (.thrown t, store)
      | .ok true => (.error ⟨"Not authorized to delete this exercise", 401⟩, store)
      | .ok false =>
        if !exercise.isCustom then
          (.error ⟨"Cannot delete public exercises", 401⟩, store)
        else (.jsonEmpty, deleteById Exercise._id exercise._id store)

/-! ## Single-resource handlers of the workouts controller -/

/-- The query `Exercise.find({ _id: { $in: ids }, $or: [{ user }, { isCustom: false }] })`
of `createWorkout` and `updateWorkout`. -/
def accessibleExercises (exercises : List Exercise) (ids : List ObjectId)
    (user : ObjectId) : List Exercise :=
  exercises.filter (fun e =>
    decide (e._id ∈ ids) && (decide (e.user = some user) || decide (e.isCustom = false)))

/-- The check of lines 128-143 and 172-187 of `controllers/workouts.js`: `true` when the
handler answers that an exercise was not found or is not accessible. -/
def exercisesRejected (exercises : List Exercise) (body : Option (List WorkoutExercise))
    (user : ObjectId) : Bool :=
  match body with
  | none => false
  | some exs =>
    if exs.length > 0 then
      let exerciseIds := exs.map WorkoutExercise.exercise
      decide ((accessibleExercises exercises exerciseIds user).length ≠ exerciseIds.length)
    else false

/-- The handler `exports.getWorkout` (`controllers/workouts.js`, lines 90-113); the
population of the exercise references decorates the reply and is left out. -/
def getWorkout (store : List Workout) (req : Request Unit) : Reply Workout × List Workout :=
  match castObjectId req.paramsId with
  | none => (.thrown .castError, store)
  | some id =>
    match findById Workout._id store id with
    | none =>
      (.error ⟨"Workout not found with id of " ++ String.mk req.paramsId, 404⟩, store)
    | some workout =>
      if workout.user.toString ≠ req.userId then
        (.error ⟨"User not authorized to access this workout", 401⟩, store)
      else (.json 200 workout, store)

/-- The handler `exports.updateWorkout` (`controllers/workouts.js`, lines 159-201). -/
def updateWorkout (valid : Workout → Bool) (exercises : List Exercise) (store : List Workout)
    (req : Request WorkoutBody) : Reply Workout × List Workout :=
  match castObjectId req.paramsId with
  | none => (.thrown .castError, store)
  | some id =>
    match findById Workout._id store id with
    | none =>
      (.error ⟨"Workout not found with id of " ++ String.mk req.paramsId, 404⟩, store)
    | some workout =>
      if workout.user.toString ≠ req.userId then
        (.error ⟨"User not authorized to update this workout", 401⟩, store)
      else if exercisesRejected exercises req.body.exercises req.user then
        (.error ⟨"One or more exercises not found or not accessible", 404⟩, store)
      else
        let updated := workout.applyBody req.body
        if valid updated then
          (.json 200 updated, replaceById Workout._id id updated store)
        else (.thrown .validationError, store)

/-- The handler `exports.deleteWorkout` (`controllers/workouts.js`, lines 206-228). -/
def deleteWorkout (store : List Workout) (req : Request Unit) : Reply Workout × List Workout :=
  match castObjectId req.paramsId with
  | none => (.thrown .castError, store)
  | some id =>
    match findById Workout._id store id with
    | none =>
      (.error ⟨"Workout not found with id of " ++ String.mk req.paramsId, 404⟩, store)
    | some workout =>
      if workout.user.toString ≠ req.userId then
        (.error ⟨"User not authorized to delete this workout", 401⟩, store)
      else (.jsonEmpty, deleteById Workout._id workout._id store)

/-- The handler `exports.toggleWorkoutComplete` (`controllers/workouts.js`, lines 233-257). -/
def toggleWorkoutComplete (valid : Workout → Bool) (store : List Workout)
    (req : Request Unit) : Reply Workout × List Workout :=
  match castObjectId req.paramsId with
  | none => (.thrown .castError, store)
  | some id =>
    match findById Workout._id store id with
    | none =>
      (.error ⟨"Workout not found with id of " ++ String.mk req.paramsId, 404⟩, store)
    | some workout =>
      if workout.user.toString ≠ req.userId then
        (.error ⟨"User not authorized to update this workout", 401⟩, store)
      else
        let toggled := { workout with isCompleted := !workout.isCompleted }
        if valid toggled then
          (.json 200 toggled, replaceById Workout._id toggled._id toggled store)
        else (.thrown .validationError, store)

/-! ## Single-resource handlers of the progress controller -/

/-- The handler `exports.getProgressEntry` (`controllers/progress.js`, lines 89-112); the
population of the exercise references decorates the reply and is left out. -/
def getProgressEntry (store : List Progress)
    (req : Request Unit) : Reply Progress × List Progress :=
  match castObjectId req.paramsId with
  | none => (.thrown .castError, store)
  | some id =>
    match findById Progress._id store id with
    | none =>
      (.error ⟨"Progress entry not found with id of " ++ String.mk req.paramsId, 404⟩, store)
    | some progressEntry =>
      if progressEntry.user.toString ≠ req.userId then
        (.error ⟨"User not authorized to access this progress entry", 401⟩, store)
      else (.json 200 progressEntry, store)

/-- The handler `exports.updateProgressEntry` (`controllers/progress.js`, lines 141-166). -/
def updateProgressEntry (valid : Progress → Bool) (store : List Progress)
    (req : Request ProgressBody) : Reply Progress × List Progress :=
  match castObjectId req.paramsId with
  | none => (.thrown .castError, store)
  | some id =>
    match findById Progress._id store id with
    | none =>
      (.error ⟨"Progress entry not found with id of " ++ String.mk req.paramsId, 404⟩, store)
    | some progressEntry =>
      if progressEntry.user.toString ≠ req.userId then
        (.error ⟨"User not authorized to update this progress entry", 401⟩, store)
      else
        let updated := progressEntry.applyBody req.body
        if valid updated then
          (.json 200 updated, replaceById Progress._id id updated store)
        else (.thrown .validationError, store)

/-- The handler `exports.deleteProgressEntry` (`controllers/progress.js`, lines 171-193). -/
def deleteProgressEntry (store : List Progress)
    (req : Request Unit) : Reply Progress × List Progress :=
  match castObjectId req.paramsId with
  | none => (.thrown .castError, store)
  | some id =>
    match findById Progress._id store id with
    | none =>
      (.error ⟨"Progress entry not found with id of " ++ String.mk req.paramsId, 404⟩, store)
    | some progressEntry =>
      if progressEntry.user.toString ≠ req.userId then
        (.error ⟨"User not authorized to delete this progress entry", 401⟩, store)
      else (.jsonEmpty, deleteById Progress._id progressEntry._id store)

/-! ## JSON values and JavaScript objects

`req.query`, as the query-string parser of Express builds it, holds strings, arrays and
nested objects; the handlers add strings and the Boolean `false`. Numbers and `null`
do not occur in it and are not part of the model. -/

mutual
/-- A value of `req.query` or of a database filter. -/
inductive JVal where
  | str (s : List Char)
  | bool (b : Bool)
  | arr (xs : JList)
  | obj (ms : JMembers)
/-- The elements of an array. -/
inductive JList where
  | nil
  | cons (v : JVal) (rest : JList)
/-- The properties of an object, in property order. -/
inductive JMembers where
  | nil
  | cons (k : List Char) (v : JVal) (rest : JMembers)
end

/-- The read `obj[k]`: the value of the property `k`, if the object has it. -/
def JMembers.lookup (k : List Char) : JMembers → Option JVal
  | .nil => none
  | .cons k2 v rest => if k2 = k then some v else JMembers.lookup k rest

/-- The write `obj[k] = v`: an existing property keeps its place, a new one goes last. -/
def JMembers.set (k : List Char) (v : JVal) : JMembers → JMembers
  | .nil => .cons k v .nil
  | .cons k2 v2 rest =>
    if k2 = k then .cons k v rest else .cons k2 v2 (JMembers.set k v rest)

/-- The statement `delete obj[k]`. -/
def JMembers.delete (k : List Char) : JMembers → JMembers
  | .nil => .nil
  | .cons k2 v rest =>
    if k2 = k then JMembers.delete k rest else .cons k2 v (JMembers.delete k rest)

/-- The properties of `src` defined one after the other on `acc`: the spread
`{ ...src }` is `assign nil src`, and `JSON.parse` builds an object this way, so that of
two members with one key the later one stays. -/
def JMembers.assign : JMembers → JMembers → JMembers
  | acc, .nil => acc
  | acc, .cons k v rest => JMembers.assign (acc.set k v) rest

/-- The keys of an object, in property order. -/
def JMembers.keys : JMembers → List (List Char)
  | .nil => []
  | .cons k _ rest => k :: rest.keys

/-- The members of an object as a list of pairs. -/
def JMembers.toList : JMembers → List (List Char × JVal)
  | .nil => []
  | .cons k v rest => (k, v) :: rest.toList

/-! ### `JSON.stringify` -/

/-- The escape of one character in a JSON string (QuoteJSONString of ECMAScript). -/
def escapeChar (c : Char) : List Char :=
  if c = '"' then ['\\', '"']
  else if c = '\\' then ['\\', '\\']
  else if c.toNat = 8 then ['\\', 'b']
  else if c.toNat = 9 then ['\\', 't']
  else if c.toNat = 10 then ['\\', 'n']
  else if c.toNat = 12 then ['\\', 'f']
  else if c.toNat = 13 then ['\\', 'r']
  else if c.toNat < 32 then
    ['\\', 'u', '0', '0', hexDigitChar (Fin.ofNat (c.toNat / 16)),
      hexDigitChar (Fin.ofNat (c.toNat % 16))]
  else [c]

/-- The escaped body of a JSON string. -/
def escapeString : List Char → List Char
  | [] => []
  | c :: cs => escapeChar c ++ escapeString cs

/-- A string as JSON text. -/
def quote (s : List Char) : List Char := '"' :: (escapeString s ++ ['"'])

mutual
/-- The JSON text of a value, with `q` giving the text of a string. -/
def JVal.serialize (q : List Char → List Char) : JVal → List Char
  | .str s => q s
  | .bool true => ['t', 'r', 'u', 'e']
  | .bool false => ['f', 'a', 'l', 's', 'e']
  | .arr xs => '[' :: (xs.serialize q ++ [']'])
  | .obj ms => '{' :: (ms.serialize q ++ ['}'])
/-- The JSON text of the elements of an array, separated by commas. -/
def JList.serialize (q : List Char → List Char) : JList → List Char
  | .nil => []
  | .cons v .nil => v.serialize q
  | .cons v (.cons w rest) => v.serialize q ++ ',' :: (JList.cons w rest).serialize q
/-- The JSON text of the members of an object, separated by commas. -/
def JMembers.serialize (q : List Char → List Char) : JMembers → List Char
  | .nil => []
  | .cons k v .nil => q k ++ ':' :: v.serialize q
  | .cons k v (.cons k2 v2 rest) =>
    q k ++ ':' :: (v.serialize q ++ ',' :: (JMembers.cons k2 v2 rest).serialize q)
end

/-- The function `JSON.stringify`. -/
def JVal.stringify (v : JVal) : List Char := v.serialize quote

/-! ### The replacement `queryStr.replace(/\b(gt|gte|lt|lte|in)\b/g, match => '$' + match)` -/

/-- The class `\w` of a regular expression without the unicode flag. -/
def isWordChar (c : Char) : Bool := c.isAlphanum || c == '_'

/-- Whether the text starts with a word character; the end of the text does not. -/
def nextIsWord : List Char → Bool
  | [] => false
  | c :: _ => isWordChar c

/-- The alternatives of the regular expression, in its order. -/
def operatorWords : List (List Char) :=
  [['g', 't'], ['g', 't', 'e'], ['l', 't'], ['l', 't', 'e'], ['i', 'n']]

/-- The literal `w` followed by the closing `\b`. -/
def matchWord : List Char → List Char → Bool
  | [], rest => !nextIsWord rest
  | _ :: _, [] => false
  | w :: ws, c :: cs => w == c && matchWord ws cs

/-- A match of the regular expression at the start of `cs`, when the character before
is a word character or not as `prevWord` says: the opening `\b`, then the first
alternative that is followed by the closing `\b`. The result is the length matched. -/
def matchOperator (prevWord : Bool) (cs : List Char) : Option Nat :=
  if prevWord != nextIsWord cs then
    (operatorWords.find? (fun w => matchWord w cs)).map List.length
  else none

/-- The global replacement, from left to right: `skip` counts the characters of the
current match still to copy, after which the search resumes. -/
def replaceFrom : Bool → Nat → List Char → List Char
  | _, _, [] => []
  | _, k + 1, c :: cs => c :: replaceFrom (isWordChar c) k cs
  | prevWord, 0, c :: cs =>
    match matchOperator prevWord (c :: cs) with
    | some len => '$' :: c :: replaceFrom (isWordChar c) (len - 1) cs
    | none => c :: replaceFrom (isWordChar c) 0 cs

/-- The replacement applied to a whole string. -/
def replaceOperators (s : List Char) : List Char := replaceFrom false 0 s

/-- The test `/\b(gt|gte|lt|lte|in)\b/.test(s)` continued after a character:
whether the regular expression matches somewhere. -/
def operatorWordFrom : Bool → List Char → Bool
  | _, [] => false
  | prevWord, c :: cs =>
    (matchOperator prevWord (c :: cs)).isSome || operatorWordFrom (isWordChar c) cs

/-- Whether the JSON text of the string `s` holds one of the words `gt`, `gte`, `lt`,
`lte`, `in` as a whole word. -/
def hasOperatorWord (s : List Char) : Bool := operatorWordFrom false (escapeString s)

/-! ### `JSON.parse` -/

/-- JSON white space. -/
def isJsonWhitespace (c : Char) : Bool :=
  c == ' ' || c == '\t' || c == '\n' || c == '\r'

/-- The text after leading white space. -/
def skipWhitespace : List Char → List Char
  | [] => []
  | c :: cs => if isJsonWhitespace c then skipWhitespace cs else c :: cs

/-- The character of `\uXXXX`. A surrogate code unit is not a `Char` and is refused. -/
def decodeHex4 (a b c d : Char) : Option Char :=
  match hexDigitValue a, hexDigitValue b, hexDigitValue c, hexDigitValue d with
  | some x, some y, some z, some w =>
    let n := ((x.val * 16 + y.val) * 16 + z.val) * 16 + w.val
    if 0xD800 ≤ n ∧ n ≤ 0xDFFF then none else some (Char.ofNat n)
  | _, _, _, _ => none

/-- The character of a one-letter escape. -/
def unescapeChar (e : Char) : Option Char :=
  if e = '"' then some '"'
  else if e = '\\' then some '\\'
  else if e = '/' then some '/'
  else if e = 'b' then some (Char.ofNat 8)
  else if e = 'f' then some (Char.ofNat 12)
  else if e = 'n' then some (Char.ofNat 10)
  else if e = 'r' then some (Char.ofNat 13)
  else if e = 't' then some (Char.ofNat 9)
  else none

/-- The body of a JSON string up to its closing quote: the string read (collected in
reverse in `acc`) and the text after the quote. -/
def parseStringBody : List Char → List Char → Option (List Char × List Char)
  | [], _ => none
  | c :: rest, acc =>
    if c = '"' then some (acc.reverse, rest)
    else if c = '\\' then
      match rest with
      | [] => none
      | e :: rest2 =>
        if e = 'u' then
          match rest2 with
          | h1 :: h2 :: h3 :: h4 :: rest3 =>
            match decodeHex4 h1 h2 h3 h4 with
            | some ch => parseStringBody rest3 (ch :: acc)
            | none => none
          | _ => none
        else
          match unescapeChar e with
          | some ch => parseStringBody rest2 (ch :: acc)
          | none => none
    else if c.toNat < 32 then none
    else parseStringBody rest (c :: acc)

mutual
/-- A JSON value at the start of the text, and the text after it. -/
def parseValue : Nat → List Char → Option (JVal × List Char)
  | 0, _ => none
  | fuel + 1, cs =>
    match skipWhitespace cs with
    | [] => none
    | c :: rest =>
      if c = '"' then
        match parseStringBody rest [] with
        | some (s, rest2) => some (.str s, rest2)
        | none => none
      else if c = '[' then
        if (skipWhitespace rest).head? = some ']' then
          some (.arr .nil, (skipWhitespace rest).tail)
        else
          match parseElements fuel rest with
          | some (xs, rest2) => some (.arr xs, rest2)
          | none => none
      else if c = '{' then
        if (skipWhitespace rest).head? = some '}' then
          some (.obj .nil, (skipWhitespace rest).tail)
        else
          match parseMembers fuel rest with
          | some (ms, rest2) => some (.obj (JMembers.assign .nil ms), rest2)
          | none => none
      else if ['t', 'r', 'u', 'e'].isPrefixOf (c :: rest) then some (.bool true, rest.drop 3)
      else if ['f', 'a', 'l', 's', 'e'].isPrefixOf (c :: rest) then
        some (.bool false, rest.drop 4)
      else none
/-- The elements of a non-empty array up to its closing bracket. -/
def parseElements : Nat → List Char → Option (JList × List Char)
  | 0, _ => none
  | fuel + 1, cs =>
    match parseValue fuel cs with
    | none => none
    | some (v, rest) =>
      match skipWhitespace rest with
      | [] => none
      | c :: rest2 =>
        if c = ',' then
          match parseElements fuel rest2 with
          | some (xs, rest3) => some (.cons v xs, rest3)
          | none => none
        else if c = ']' then some (.cons v .nil, rest2)
        else none
/-- The members of a non-empty object up to its closing brace, in the order of the text. -/
def parseMembers : Nat → List Char → Option (JMembers × List Char)
  | 0, _ => none
  | fuel + 1, cs =>
    match skipWhitespace cs with
    | [] => none
    | q :: rest =>
      if q = '"' then
        match parseStringBody rest [] with
        | none => none
        | some (k, rest2) =>
          match skipWhitespace rest2 with
          | [] => none
          | colon :: rest3 =>
            if colon = ':' then
              match parseValue fuel rest3 with
              | none => none
              | some (v, rest4) =>
                match skipWhitespace rest4 with
                | [] => none
                | c :: rest5 =>
                  if c = ',' then
                    match parseMembers fuel rest5 with
                    | some (ms, rest6) => some (.cons k v ms, rest6)
                    | none => none
                  else if c = '}' then some (.cons k v .nil, rest5)
                  else none
            else none
      else none
end

/-- The function `JSON.parse` on the values of the model; `none` is its SyntaxError. The
nesting of a text is below its length, which is the fuel of the descent. -/
def jsonParse (text : List Char) : Option JVal :=
  match parseValue (text.length + 1) text with
  | some (v, rest) => if skipWhitespace rest = [] then some v else none
  | none => none

/-! ## The list handlers: the filter -/

/-- The three collections with a list endpoint. -/
inductive Resource where
  | exercises
  | workouts
  | progress
  deriving DecidableEq, Repr

/-- The array `excludeFields` of the three list handlers. -/
def excludeFields : List (List Char) :=
  ["select".toList, "sort".toList, "page".toList, "limit".toList]

/-- The statement `excludeFields.forEach(param => delete queryObj[param])`. -/
def deleteExcluded (queryObj : JMembers) : JMembers :=
  excludeFields.foldl (fun obj param => obj.delete param) queryObj

/-- The array `[{ user: req.user.id }, { isCustom: false }]` of `getExercises`. -/
def visibleClause (userId : List Char) : JVal :=
  .arr (.cons (.obj (.cons "user".toList (.str userId) .nil))
    (.cons (.obj (.cons "isCustom".toList (.bool false) .nil)) .nil))

/-- The object `queryObj` when the handler serializes it: the copy of `req.query` without
the excluded fields, with `$or` set by `getExercises` (lines 11-21) and `user` set by
`getWorkouts` and `getProgressEntries` (lines 12-19 and 11-18). -/
def queryObj (r : Resource) (query : JMembers) (user : ObjectId) : JMembers :=
  let copied := JMembers.assign .nil query
  let stripped := deleteExcluded copied
  match r with
  | .exercises => stripped.set "$or".toList (visibleClause user.toString)
  | .workouts => stripped.set "user".toList (.str user.toString)
  | .progress => stripped.set "user".toList (.str user.toString)

/-- The string `queryStr` after the replacement. -/
def queryStr (r : Resource) (query : JMembers) (user : ObjectId) : List Char :=
  replaceOperators (JVal.obj (queryObj r query user)).stringify

/-- The filter `JSON.parse(queryStr)` handed to `find` and `countDocuments`; `none` when
`JSON.parse` throws. -/
def buildFilter (r : Resource) (query : JMembers) (user : ObjectId) : Option JVal :=
  jsonParse (queryStr r query user)

/-! ## The list handlers: the database -/

/-- The two paths of a schema that the clauses added by the handlers read: the owner of
a document and its visibility flag, where the schema has them. -/
structure Paths (α : Type) where
  owner : α → Option ObjectId
  isCustom : α → Option Bool

/-- The paths of the Exercise schema. -/
def exercisePaths : Paths Exercise :=
  { owner := Exercise.user, isCustom := fun e => some e.isCustom }

/-- The paths of the Workout schema. -/
def workoutPaths : Paths Workout :=
  { owner := fun w => some w.user, isCustom := fun _ => none }

/-- The paths of the Progress schema. -/
def progressPaths : Paths Progress :=
  { owner := fun p => some p.user, isCustom := fun _ => none }

/-- What a list handler uses of a Mongoose model, beside the paths above: the stored
documents, and, left open, whether Mongoose casts a filter and the database runs it, the
test of a clause on any other path, the order of `Query.sort` and the projection of
`Query.select`. -/
structure Collection (α : Type) where
  docs : List α
  accepts : JVal → Bool
  clause : List Char → JVal → α → Bool
  sort : List Char → List α → List α
  sort_perm : ∀ (spec : List Char) (l : List α), (sort spec l).Perm l
  select : List Char → α → α

/-- Whether a document satisfies one clause of a filter document, `anyOf` being the
outcome of the filter documents of a `$or`. A clause `user` with a string is the equality
with the ObjectId it casts to, a clause `isCustom` with a Boolean the equality with it,
and any other clause is the collection's. -/
def clauseHolds {α : Type} (paths : Paths α) (coll : Collection α) (d : α)
    (k : List Char) (v : JVal) (anyOf : Bool) : Bool :=
  if k = "$or".toList then anyOf
  else if k = "user".toList then
    match v with
    | .str s =>
      match castObjectId s with
      | some id => decide (paths.owner d = some id)
      | none => false
    | _ => coll.clause k v d
  else if k = "isCustom".toList then
    match v with
    | .bool b => decide (paths.isCustom d = some b)
    | _ => coll.clause k v d
  else coll.clause k v d

mutual
/-- Whether a document satisfies a filter document: all of its clauses hold. -/
def matchesFilter {α : Type} (paths : Paths α) (coll : Collection α) (d : α) : JVal → Bool
  | .obj ms => matchesAll paths coll d ms
  | _ => false
/-- Whether a document satisfies every clause of a filter document. -/
def matchesAll {α : Type} (paths : Paths α) (coll : Collection α) (d : α) : JMembers → Bool
  | .nil => true
  | .cons k v rest =>
    clauseHolds paths coll d k v (matchesOr paths coll d v) && matchesAll paths coll d rest
/-- Whether a document satisfies one of the filter documents of the array of a `$or`. -/
def matchesOr {α : Type} (paths : Paths α) (coll : Collection α) (d : α) : JVal → Bool
  | .arr xs => matchesAny paths coll d xs
  | _ => false
/-- Whether a document satisfies one of the filter documents listed. -/
def matchesAny {α : Type} (paths : Paths α) (coll : Collection α) (d : α) : JList → Bool
  | .nil => false
  | .cons v rest => matchesFilter paths coll d v || matchesAny paths coll d rest
end

/-- The documents `Model.find(filter)` selects. -/
def findMatching {α : Type} (paths : Paths α) (coll : Collection α) (filter : JVal) :
    List α :=
  coll.docs.filter (fun d => matchesFilter paths coll d filter)

/-! ## The list handlers: select, sort, page and limit -/

/-- The expression `field.split(',').join(' ')`. -/
def commasToSpaces (s : List Char) : List Char :=
  s.map (fun c => if c = ',' then ' ' else c)

/-- The reading of `req.query.select` and of `req.query.sort`: a missing or empty string
is falsy and skipped, a string is split and joined, and an array or an object has no
function `split`, which raises a TypeError. -/
def fieldList (param : Option JVal) : Except Thrown (Option (List Char)) :=
  match param with
  | none => .ok none
  | some (.str s) => if s = [] then .ok none else .ok (some (commasToSpaces s))
  | some (.bool false) => .ok none
  | some _ => .error .typeError

/-- The fields of `req.query.select` (lines 33-36). -/
def selectParam (query : JMembers) : Except Thrown (Option (List Char)) :=
  fieldList (query.lookup "select".toList)

/-- The fields of `req.query.sort` (lines 39-41). -/
def sortParam (query : JMembers) : Except Thrown (Option (List Char)) :=
  fieldList (query.lookup "sort".toList)

/-- The sort a list handler falls back to. -/
def defaultSort : Resource → List Char
  | .exercises => "-createdAt".toList
  | .workouts => "-createdAt".toList
  | .progress => "-date".toList

mutual
/-- The conversion ToString of JavaScript on a value of `req.query`. -/
def JVal.toJsString : JVal → List Char
  | .str s => s
  | .bool true => "true".toList
  | .bool false => "false".toList
  | .arr xs => xs.joinComma
  | .obj _ => "[object Object]".toList
/-- The elements of an array converted and joined by commas. -/
def JList.joinComma : JList → List Char
  | .nil => []
  | .cons v .nil => v.toJsString
  | .cons v (.cons w rest) => v.toJsString ++ ',' :: (JList.cons w rest).joinComma
end

/-- The white space `parseInt` skips (StrWhiteSpaceChar of ECMAScript). -/
def isStrWhiteSpace (c : Char) : Bool :=
  let n := c.toNat
  n == 9 || n == 10 || n == 11 || n == 12 || n == 13 || n == 32 || n == 160 || n == 5760
    || (8192 ≤ n && n ≤ 8202) || n == 8232 || n == 8233 || n == 8239 || n == 8287
    || n == 12288 || n == 65279

/-- The value of the leading decimal digits of a text, and whether there is one. -/
def leadingDigits : List Char → Nat → Bool → Option Nat
  | [], acc, seen => if seen then some acc else none
  | c :: cs, acc, seen =>
    if 48 ≤ c.toNat ∧ c.toNat ≤ 57 then leadingDigits cs (10 * acc + (c.toNat - 48)) true
    else if seen then some acc else none

/-- The call `parseInt(s, 10)`: the integer of the leading digits as a double, which is
rounded from 2^53 on and infinite from 2^1024 on, and NaN where no digit leads. -/
def parseInt (s : List Char) : JsInt :=
  match s.dropWhile isStrWhiteSpace with
  | '-' :: rest =>
    match leadingDigits rest 0 false with
    | some n => JsInt.ofInt (-(n : Int))
    | none => .nan
  | '+' :: rest =>
    match leadingDigits rest 0 false with
    | some n => JsInt.ofInt (n : Int)
    | none => .nan
  | rest =>
    match leadingDigits rest 0 false with
    | some n => JsInt.ofInt (n : Int)
    | none => .nan

/-- The expression `parseInt(param, 10) || fallback`: a missing parameter converts to
the text `undefined`, and NaN and zero are falsy. -/
def intParam (param : Option JVal) (fallback : JsInt) : JsInt :=
  match param with
  | none => fallback
  | some v =>
    match parseInt v.toJsString with
    | .nan => fallback
    | .finite n => if n = 0 then fallback else .finite n
    | .negInf => .negInf
    | .posInf => .posInf

/-- The constant `page` of a list handler. -/
def pageOf (query : JMembers) : JsInt := intParam (query.lookup "page".toList) 1

/-- The constant `limit` of a list handler. -/
def limitOf (query : JMembers) : JsInt := intParam (query.lookup "limit".toList) 10

/-- An entry of the object `pagination`. -/
structure PageRef where
  page : JsInt
  limit : JsInt
  deriving DecidableEq, Repr

/-- The object `pagination` of a list reply. -/
structure Pagination where
  next : Option PageRef
  prev : Option PageRef
  deriving DecidableEq, Repr

/-- The body `{ success, count, pagination, data }` of a list reply. -/
structure ListBody (α : Type) where
  success : Bool
  count : Nat
  pagination : Pagination
  data : List α
  deriving DecidableEq, Repr

/-- What a list handler does with the request. -/
inductive ListReply (α : Type) where
  /-- The call `res.status(200).json(body)`. -/
  | json (body : ListBody α)
  /-- The call `next(err)` of the `catch` block. -/
  | thrown (t : Thrown)
  deriving DecidableEq, Repr

/-- The object `pagination` as lines 58-73 build it, in the arithmetic of JavaScript;
`total` is the number `countDocuments` gives. -/
def buildPagination (page limit : JsInt) (total : Nat) : Pagination :=
  let startIndex := (page - 1) * limit
  let endIndex := page * limit
  { next := if endIndex < JsInt.ofInt total then some { page := page + 1, limit := limit }
      else none
    prev := if 0 < startIndex then some { page := page - 1, limit := limit } else none }

/-- The documents `limit(limit)` leaves of those given: the driver sends a negative limit
as its absolute value, and a limit of zero, which the handlers never pass, and an infinite
one leave all. -/
def limitDocs {α : Type} (limit : JsInt) (docs : List α) : List α :=
  match limit with
  | .finite l => if l = 0 then docs else docs.take l.natAbs
  | _ => docs

/-- The execution of `query.skip(startIndex).limit(limit)` on the documents the query
selects, in its order. The database refuses a negative skip; it takes a skip that is NaN
for zero, and one past every document, the infinite one included, leaves none. -/
def skipLimit {α : Type} (startIndex limit : JsInt) (ordered : List α) : Option (List α) :=
  match startIndex with
  | .nan => some (limitDocs limit ordered)
  | .negInf => none
  | .finite s => if s < 0 then none else some (limitDocs limit (ordered.drop s.toNat))
  | .posInf => some []

/-- Lines 46-80 of a list handler: the page of the documents the query selects, `total`
being the count of `countDocuments` for the same filter. -/
def listPage {α : Type} (page limit : JsInt) (total : Nat) (ordered : List α) :
    ListReply α :=
  match skipLimit ((page - 1) * limit) limit ordered with
  | none => .thrown .databaseError
  | some results =>
    .json { success := true
            count := results.length
            pagination := buildPagination page limit total
            data := results }

/-- The documents the query of a list handler selects before `skip` and `limit`, in the
order of the sort and projected on the selected fields (lines 27-45). -/
def orderedDocs {α : Type} (r : Resource) (paths : Paths α) (coll : Collection α)
    (filter : JVal) (fields sortBy : Option (List Char)) : List α :=
  let sorted := coll.sort (sortBy.getD (defaultSort r)) (findMatching paths coll filter)
  match fields with
  | some f => sorted.map (coll.select f)
  | none => sorted

/-- A list handler as a whole: the three handlers run the same statements, on their own
model and with their own owner clause and default sort. -/
def listHandler {α : Type} (r : Resource) (paths : Paths α) (coll : Collection α)
    (query : JMembers) (user : ObjectId) : ListReply α :=
  match buildFilter r query user with
  | none => .thrown .syntaxError
  | some filter =>
    match selectParam query with
    | .error t => .thrown t
    | .ok fields =>
      match sortParam query with
      | .error t => .thrown t
      | .ok sortBy =>
        if coll.accepts filter then
          listPage (pageOf query) (limitOf query) (findMatching paths coll filter).length
            (orderedDocs r paths coll filter fields sortBy)
        else .thrown .castError

/-- The handler `exports.getExercises` (`controllers/exercises.js`, lines 8-84). -/
def getExercises (coll : Collection Exercise) (query : JMembers) (user : ObjectId) :
    ListReply Exercise :=
  listHandler .exercises exercisePaths coll query user

/-- The handler `exports.getWorkouts` (`controllers/workouts.js`, lines 9-85). -/
def getWorkouts (coll : Collection Workout) (query : JMembers) (user : ObjectId) :
    ListReply Workout :=
  listHandler .workouts workoutPaths coll query user

/-- The handler `exports.getProgressEntries` (`controllers/progress.js`, lines 8-84). -/
def getProgressEntries (coll : Collection Progress) (query : JMembers) (user : ObjectId) :
    ListReply Progress :=
  listHandler .progress progressPaths coll query user

/-! ## The statistics of `getProgressStats` -/

/-- Whether a Number path is truthy: a number other than zero and NaN. -/
def JsNumber.truthy : JsNumber → Bool
  | .num d => d.truthy
  | _ => false

/-- The conversion ToNumber of an arithmetic operation or a comparison: `undefined` is
NaN and `null` is zero. -/
def JsNumber.toNumber : JsNumber → Double
  | .undefined => .nan
  | .null => .finite 0
  | .num d => d

/-- The comparison `a > b` of JavaScript: false when an operand converts to NaN. -/
def jsGreater (a b : JsNumber) : Bool :=
  Double.lt b.toNumber a.toNumber

/-- An item `{ date, weight, unit }` of `weightProgress`. -/
structure WeightItem where
  date : Int
  weight : JsNumber
  unit : List Char
  deriving DecidableEq, Repr

/-- An item `{ date, bodyFat }` of `bodyFatProgress`. -/
structure BodyFatItem where
  date : Int
  bodyFat : JsNumber
  deriving DecidableEq, Repr

/-- An item `{ date, value }` of a series of `measurementsProgress`. -/
structure MeasurementItem where
  date : Int
  value : JsNumber
  deriving DecidableEq, Repr

/-- An item `{ date, exercise, value, unit }` of `allRecords` and of `personalRecords`. -/
structure RecordItem where
  date : Int
  exercise : Option ObjectId
  value : JsNumber
  unit : Option (List Char)
  deriving DecidableEq, Repr

/-- The object `measurementsProgress`. -/
structure MeasurementsProgress where
  chest : List MeasurementItem
  waist : List MeasurementItem
  hips : List MeasurementItem
  biceps : List MeasurementItem
  thighs : List MeasurementItem
  deriving DecidableEq, Repr

/-- The object `stats`. -/
structure Stats where
  weightProgress : List WeightItem
  bodyFatProgress : List BodyFatItem
  measurementsProgress : MeasurementsProgress
  personalRecords : List RecordItem
  deriving DecidableEq, Repr

/-- Lines 214-218: `entry.metrics.weight` is a nested path with a default inside, an object
and so truthy for every entry; the item takes its `value` and `unit`, and the filter drops
the items whose weight is `null`. -/
def weightProgress (entries : List Progress) : List WeightItem :=
  (entries.map (fun entry =>
    ({ date := entry.date
       weight := entry.metrics.weight.value
       unit := entry.metrics.weight.unit } : WeightItem))).filter
    (fun item => decide (item.weight ≠ .null))

/-- Lines 220-223: `entry.metrics.bodyFat || null`, then the filter on `null`. -/
def bodyFatProgress (entries : List Progress) : List BodyFatItem :=
  (entries.map (fun entry =>
    ({ date := entry.date
       bodyFat := if entry.metrics.bodyFat.truthy then entry.metrics.bodyFat else .null }
      : BodyFatItem))).filter
    (fun item => decide (item.bodyFat ≠ .null))

/-- One series of lines 237-277: the entries whose measurement is truthy. -/
def measurementSeries (pick : Measurements → JsNumber) (entries : List Progress) :
    List MeasurementItem :=
  entries.filterMap (fun entry =>
    if (pick entry.metrics.measurements).truthy then
      some { date := entry.date, value := pick entry.metrics.measurements }
    else none)

/-- Lines 225-231 and 237-277: the five series. -/
def measurementsProgress (entries : List Progress) : MeasurementsProgress :=
  { chest := measurementSeries Measurements.chest entries
    waist := measurementSeries Measurements.waist entries
    hips := measurementSeries Measurements.hips entries
    biceps := measurementSeries Measurements.biceps entries
    thighs := measurementSeries Measurements.thighs entries }

/-- Lines 280-292: every personal record of every entry, in order, dated by its own date
or else by the date of its entry. -/
def allRecords (entries : List Progress) : List RecordItem :=
  entries.flatMap (fun entry =>
    entry.personalRecords.map (fun record =>
      ({ date := record.date.getD entry.date
         exercise := record.exercise
         value := record.value
         unit := record.unit } : RecordItem)))

/-- The object `exerciseMap`: its properties in the order they were created. -/
abbrev ExerciseMap := List (ObjectId × RecordItem)

/-- The read `exerciseMap[exerciseId]`. -/
def ExerciseMap.get (m : ExerciseMap) (id : ObjectId) : Option RecordItem :=
  (m.find? (fun p => decide (p.1 = id))).map Prod.snd

/-- The write `exerciseMap[exerciseId] = record`. -/
def ExerciseMap.put (id : ObjectId) (r : RecordItem) : ExerciseMap → ExerciseMap
  | [] => [(id, r)]
  | p :: rest => if p.1 = id then (id, r) :: rest else p :: ExerciseMap.put id r rest

/-- The body of the loop of lines 296-301 for one record: reading `_id` of a missing
`exercise` raises a TypeError. -/
def groupStep (m : ExerciseMap) (record : RecordItem) : Except Thrown ExerciseMap :=
  match record.exercise with
  | none => .error .typeError
  | some exerciseId =>
    match ExerciseMap.get m exerciseId with
    | none => .ok (ExerciseMap.put exerciseId record m)
    | some best =>
      if jsGreater record.value best.value then .ok (ExerciseMap.put exerciseId record m)
      else .ok m

/-- The loop of lines 295-301. -/
def groupRecords : ExerciseMap → List RecordItem → Except Thrown ExerciseMap
  | m, [] => .ok m
  | m, record :: rest =>
    match groupStep m record with
    | .error t => .error t
    | .ok m2 => groupRecords m2 rest

/-- Lines 280-304: `Object.values(exerciseMap)` after the loop. -/
def personalRecords (entries : List Progress) : Except Thrown (List RecordItem) :=
  match groupRecords [] (allRecords entries) with
  | .error t => .error t
  | .ok m => .ok (m.map Prod.snd)

/-- Lines 212-304: the statistics of the entries fetched. -/
def compileStats (entries : List Progress) : Except Thrown Stats :=
  match personalRecords entries with
  | .error t => .error t
  | .ok records =>
    .ok { weightProgress := weightProgress entries
          bodyFatProgress := bodyFatProgress entries
          measurementsProgress := measurementsProgress entries
          personalRecords := records }

/-- The query parameters of `GET /api/progress/stats` as the route documents them, each a
date in milliseconds when given. -/
structure StatsQuery where
  startDate : Option Int
  endDate : Option Int
  deriving DecidableEq, Repr

/-- Thirty days in milliseconds. -/
def thirtyDays : Int := 30 * 24 * 60 * 60 * 1000

/-- Lines 201-210: the entries of the caller from `startDate` to `endDate`, by ascending
date. The handler sets `endDate` to the current time `now` and reads only
`req.query.startDate`. -/
def statsEntries (store : List Progress) (user : ObjectId) (query : StatsQuery)
    (now : Int) : List Progress :=
  let endDate := now
  let startDate := match query.startDate with
    | some d => d
    | none => endDate - thirtyDays
  (store.filter (fun e =>
    decide (e.user = user) && decide (startDate ≤ e.date) && decide (e.date ≤ endDate))).insertionSort
    (fun a b => a.date ≤ b.date)

/-- The handler `exports.getProgressStats` (`controllers/progress.js`, lines 198-313). -/
def getProgressStats (store : List Progress) (user : ObjectId) (query : StatsQuery)
    (now : Int) : Reply Stats :=
  match compileStats (statsEntries store user query now) with
  | .error t => .thrown t
  | .ok stats => .json 200 stats

/-! ## The virtuals and the required predicates of the Workout schema -/

/-- The body of the inner loop of the virtual `totalVolume` (lines 121-125). -/
def volumeStep (volume : Double) (set : WorkoutSet) : Double :=
  if set.weight.truthy && set.reps.truthy && set.completed then
    volume + set.weight.toNumber * set.reps.toNumber
  else volume

/-- The virtual `totalVolume` (`models/Workout.js`, lines 118-128). -/
def Workout.totalVolume (w : Workout) : Double :=
  w.exercises.foldl (fun volume exercise => exercise.sets.foldl volumeStep volume)
    (.finite 0)

/-- The virtual `completedSets` (`models/Workout.js`, lines 131-141). -/
def Workout.completedSets (w : Workout) : Nat :=
  w.exercises.foldl (fun completed exercise =>
    exercise.sets.foldl (fun c set => if set.completed then c + 1 else c) completed) 0

/-- The virtual `totalSets` (`models/Workout.js`, lines 144-150). -/
def Workout.totalSets (w : Workout) : Nat :=
  w.exercises.foldl (fun total exercise => total + exercise.sets.length) 0

/-- The sets of a workout, over all its exercises. -/
def Workout.allSets (w : Workout) : List WorkoutSet :=
  w.exercises.flatMap WorkoutExercise.sets

/-- What a set adds to the total volume in the words of the specification: weight times
reps, and zero for a set that lacks weight or reps, where a value that is missing, zero or
NaN is lacking. -/
def WorkoutSet.volume (set : WorkoutSet) : Double :=
  if set.weight.truthy && set.reps.truthy then set.weight.toNumber * set.reps.toNumber
  else .finite 0

/-- The total volume in the words of the specification: the sum, set after set, of what
the completed sets add. -/
def Workout.specVolume (w : Workout) : Double :=
  (w.allSets.filter (fun s => s.completed)).foldl (fun volume s => volume + s.volume)
    (.finite 0)

/-- The read `this.exercise` inside a required function of a set: Mongoose calls the
function on the set subdocument, whose schema (lines 22-63) has no path `exercise`, so the
read is `undefined`. -/
def WorkoutSet.thisExercise (_ : WorkoutSet) : Option Exercise := none

/-- The read `this.exercise.category`; on `undefined` it raises a TypeError. -/
def WorkoutSet.thisCategory (set : WorkoutSet) : Except Thrown (List Char) :=
  match set.thisExercise with
  | none => .error .typeError
  | some exercise => .ok exercise.category

/-- The required function of `reps` (lines 29-31). -/
def repsRequired (set : WorkoutSet) : Except Thrown Bool :=
  match set.thisCategory with
  | .error t => .error t
  | .ok category => .ok (decide (category ≠ "cardio".toList))

/-- The required function of `weight` (lines 35-37). -/
def weightRequired (set : WorkoutSet) : Except Thrown Bool :=
  match set.thisCategory with
  | .error t => .error t
  | .ok category => .ok (decide (category = "strength".toList))

/-- The required function of `duration` (lines 41-43). -/
def durationRequired (set : WorkoutSet) : Except Thrown Bool :=
  match set.thisCategory with
  | .error t => .error t
  | .ok category =>
    .ok (decide (category = "cardio".toList) || decide (category = "flexibility".toList))

/-- The required function of `distance` (lines 47-49). -/
def distanceRequired (set : WorkoutSet) : Except Thrown Bool :=
  match set.thisCategory with
  | .error t => .error t
  | .ok category => .ok (decide (category = "cardio".toList))

/-! ## The handlers that create -/

/-- The check `check('name', 'Name is required').not().isEmpty()` of the route
`POST /api/workouts`. -/
def workoutRouteValid (body : WorkoutBody) : Bool :=
  match body.name with
  | none => false
  | some n => decide (n ≠ [])

/-- The handler `exports.createWorkout` (`controllers/workouts.js`, lines 118-154); `newId`
is the `_id` the database gives the document. -/
def createWorkout (valid : Workout → Bool) (newId : ObjectId) (exercises : List Exercise)
    (store : List Workout) (req : Request WorkoutBody) : Reply Workout × List Workout :=
  if !workoutRouteValid req.body then (.invalid, store)
  else if exercisesRejected exercises req.body.exercises req.user then
    (.error ⟨"One or more exercises not found or not accessible", 404⟩, store)
  else
    let workout : Workout :=
      { _id := newId
        name := req.body.name.getD []
        exercises := req.body.exercises.getD []
        isTemplate := req.body.isTemplate.getD false
        isCompleted := req.body.isCompleted.getD false
        user := req.user }
    if valid workout then (.json 201 workout, store ++ [workout])
    else (.thrown .validationError, store)

/-- The metrics of an entry created without any. -/
def emptyMetrics : Metrics :=
  { weight := { value := .undefined, unit := "kg".toList }
    bodyFat := .undefined
    measurements :=
      { chest := .undefined, waist := .undefined, hips := .undefined
        biceps := .undefined, thighs := .undefined } }

/-- The handler `exports.createProgressEntry` (`controllers/progress.js`, lines 117-136):
the route declares no check, the body gets `user`, and `Progress.create` stores it; a
missing `date` takes the current time `now`. -/
def createProgressEntry (valid : Progress → Bool) (newId : ObjectId) (now : Int)
    (store : List Progress) (req : Request ProgressBody) : Reply Progress × List Progress :=
  let entry : Progress :=
    { _id := newId
      user := req.user
      date := req.body.date.getD now
      metrics := req.body.metrics.getD emptyMetrics
      personalRecords := req.body.personalRecords.getD []
      notes := req.body.notes }
  if valid entry then (.json 201 entry, store ++ [entry])
  else (.thrown .validationError, store)


/-! ## The other handlers of the exercises controller -/

/-- The handler `exports.getExercise` (`controllers/exercises.js`, lines 89-109). -/
def getExercise (store : List Exercise) (req : Request Unit) : Reply Exercise × List Exercise :=
  match castObjectId req.paramsId with
  | none => (.thrown .castError, store)
  | some id =>
    match findById Exercise._id store id with
    | none =>
      (.error ⟨"Exercise not found with id of " ++ String.mk req.paramsId, 404⟩, store)
    | some exercise =>
      match exercise.customOfOther req.userId with
      | .error t => (.thrown t, store)
      | .ok true => (.error ⟨"Not authorized to access this exercise", 401⟩, store)
      | .ok false => (.json 200 exercise, store)

/-- The checks `check('name', …).not().isEmpty()` and `check('category', …).not().isEmpty()`
of the route `POST /api/exercises`. -/
def exerciseRouteValid (body : ExerciseBody) : Bool :=
  (match body.name with
    | none => false
    | some n => decide (n ≠ []))
  && (match body.category with
    | none => false
    | some c => decide (c ≠ []))

/-- The handler `exports.createExercise` (`controllers/exercises.js`, lines 114-136): the
statements `req.body.user = req.user.id` and `req.body.isCustom = true` overwrite what the
body carries; `newId` is the `_id` the database gives the document. -/
def createExercise (valid : Exercise → Bool) (newId : ObjectId) (store : List Exercise)
    (req : Request ExerciseBody) : Reply Exercise × List Exercise :=
  if !exerciseRouteValid req.body then (.invalid, store)
  else
    let exercise : Exercise :=
      { _id := newId
        name := req.body.name.getD []
        category := req.body.category.getD []
        isCustom := true
        user := some req.user }
    if valid exercise then (.json 201 exercise, store ++ [exercise])
    else (.thrown .validationError, store)

/-- The public exercises of the collection. -/
def publicExercises (store : List Exercise) : List Exercise :=
  store.filter (fun e => !e.isCustom)

/-! ## The client: the resource slices

The slices `workoutSlice.js`, `exerciseSlice.js` and `progressSlice.js` hold the documents
of the last list reply, the selected document and the `pagination` of the reply. A
document is whatever the server sent; the reducers read its `_id`, a string, through
`idOf`. -/

/-- The object `state.pagination` that a fulfilled list request stores:
`{ count: payload.count, ...payload.pagination }`. -/
structure SlicePagination where
  count : Nat
  next : Option PageRef
  prev : Option PageRef
  deriving DecidableEq, Repr

/-- The pagination of a list body as a slice stores it. -/
def SlicePagination.ofBody {α : Type} (payload : ListBody α) : SlicePagination :=
  { count := payload.count
    next := payload.pagination.next
    prev := payload.pagination.prev }

/-- The state of `workoutSlice` (`workoutSlice.js`, lines 5-16). -/
structure WorkoutsState (α : Type) where
  workouts : List α
  workout : Option α
  pagination : Option SlicePagination
  loading : Bool
  error : Option String
  filterIsTemplate : List Char
  filterIsCompleted : List Char
  filterSearch : List Char
  deriving DecidableEq, Repr

/-- The state of `exerciseSlice` (`exerciseSlice.js`, lines 5-17). -/
structure ExercisesState (α : Type) where
  exercises : List α
  exercise : Option α
  pagination : Option SlicePagination
  loading : Bool
  error : Option String
  filterCategory : List Char
  filterMuscleGroups : List Char
  filterEquipmentNeeded : List Char
  filterSearch : List Char
  deriving DecidableEq, Repr

/-- The state of `progressSlice` (`progressSlice.js`, lines 5-16); `stats` is left to the
type `σ`. -/
structure ProgressState (α σ : Type) where
  progressEntries : List α
  progressEntry : Option α
  pagination : Option SlicePagination
  stats : Option σ
  loading : Bool
  error : Option String
  startDate : List Char
  endDate : List Char
  deriving DecidableEq, Repr

/-- The statement `if (state.x && state.x._id === action.payload) state.x = null` of the
three reducers that delete. -/
def clearIfDeleted {α : Type} (idOf : α → List Char) (selected : Option α)
    (id : List Char) : Option α :=
  match selected with
  | none => none
  | some x => if idOf x = id then none else some x

/-- The initial state of `workoutSlice`. -/
def workoutSlice.initialState {α : Type} : WorkoutsState α :=
  { workouts := [], workout := none, pagination := none, loading := false, error := none
    filterIsTemplate := [], filterIsCompleted := [], filterSearch := [] }

/-- The case `getWorkouts.fulfilled` (`workoutSlice.js`, lines 177-184). -/
def workoutSlice.getWorkoutsFulfilled {α : Type} (state : WorkoutsState α)
    (payload : ListBody α) : WorkoutsState α :=
  { state with
    loading := false
    workouts := payload.data
    pagination := some (SlicePagination.ofBody payload) }

/-- The case `createWorkout.fulfilled` (`workoutSlice.js`, lines 209-213). -/
def workoutSlice.createWorkoutFulfilled {α : Type} (state : WorkoutsState α)
    (data : α) : WorkoutsState α :=
  { state with
    loading := false
    workouts := data :: state.workouts
    workout := some data }

/-- The case `deleteWorkout.fulfilled` (`workoutSlice.js`, lines 262-270). -/
def workoutSlice.deleteWorkoutFulfilled {α : Type} (idOf : α → List Char)
    (state : WorkoutsState α) (id : List Char) : WorkoutsState α :=
  { state with
    loading := false
    workouts := state.workouts.filter (fun workout => decide (idOf workout ≠ id))
    workout := clearIfDeleted idOf state.workout id }

/-- The initial state of `exerciseSlice`. -/
def exerciseSlice.initialState {α : Type} : ExercisesState α :=
  { exercises := [], exercise := none, pagination := none, loading := false, error := none
    filterCategory := [], filterMuscleGroups := [], filterEquipmentNeeded := []
    filterSearch := [] }

/-- The case `getExercises.fulfilled` (`exerciseSlice.js`, lines 161-168). -/
def exerciseSlice.getExercisesFulfilled {α : Type} (state : ExercisesState α)
    (payload : ListBody α) : ExercisesState α :=
  { state with
    loading := false
    exercises := payload.data
    pagination := some (SlicePagination.ofBody payload) }

/-- The case `createExercise.fulfilled` (`exerciseSlice.js`, lines 193-196). -/
def exerciseSlice.createExerciseFulfilled {α : Type} (state : ExercisesState α)
    (data : α) : ExercisesState α :=
  { state with
    loading := false
    exercises := data :: state.exercises }

/-- The case `deleteExercise.fulfilled` (`exerciseSlice.js`, lines 226-234). -/
def exerciseSlice.deleteExerciseFulfilled {α : Type} (idOf : α → List Char)
    (state : ExercisesState α) (id : List Char) : ExercisesState α :=
  { state with
    loading := false
    exercises := state.exercises.filter (fun exercise => decide (idOf exercise ≠ id))
    exercise := clearIfDeleted idOf state.exercise id }

/-- The case `createProgressEntry.fulfilled` (`progressSlice.js`, lines 223-227). -/
def progressSlice.createProgressEntryFulfilled {α σ : Type} (state : ProgressState α σ)
    (data : α) : ProgressState α σ :=
  { state with
    loading := false
    progressEntries := data :: state.progressEntries
    progressEntry := some data }

/-- The case `deleteProgressEntry.fulfilled` (`progressSlice.js`, lines 257-265). -/
def progressSlice.deleteProgressEntryFulfilled {α σ : Type} (idOf : α → List Char)
    (state : ProgressState α σ) (id : List Char) : ProgressState α σ :=
  { state with
    loading := false
    progressEntries := state.progressEntries.filter (fun entry => decide (idOf entry ≠ id))
    progressEntry := clearIfDeleted idOf state.progressEntry id }

/-! ## What the replacement does to a value

The handlers replace inside the JSON text; the definitions below describe the outcome on
the value itself, and the theorems relate the two. -/

/-- The JSON text of a string after the replacement. -/
def quoteReplaced (s : List Char) : List Char :=
  '"' :: (replaceOperators (escapeString s) ++ ['"'])

/-- The first letters of the alternatives of the regular expression. -/
def isOperatorStart (c : Char) : Bool := c == 'g' || c == 'l' || c == 'i'

/-- The relation of a text to the same text with `$` put in front of some of its letters
`g`, `l`, `i`. -/
inductive Inserted : List Char → List Char → Prop
  | nil : Inserted [] []
  | keep (c : Char) {x y : List Char} : Inserted x y → Inserted (c :: x) (c :: y)
  | mark (c : Char) {x y : List Char} :
      isOperatorStart c = true → Inserted x y → Inserted (c :: x) ('$' :: c :: y)

/-- The string that `JSON.parse` reads back after the replacement ran over the JSON text
of the string `s`. -/
def rewriteString (s : List Char) : List Char :=
  match parseStringBody (replaceOperators (escapeString s) ++ ['"']) [] with
  | some (r, _) => r
  | none => s

mutual
/-- The value with every key and every string rewritten, and every object rebuilt from
its rewritten members. -/
def JVal.rewrite : JVal → JVal
  | .str s => .str (rewriteString s)
  | .bool b => .bool b
  | .arr xs => .arr xs.rewrite
  | .obj ms => .obj (JMembers.assign .nil ms.rewrite)
/-- The elements rewritten. -/
def JList.rewrite : JList → JList
  | .nil => .nil
  | .cons v rest => .cons v.rewrite rest.rewrite
/-- The members rewritten, in their order. -/
def JMembers.rewrite : JMembers → JMembers
  | .nil => .nil
  | .cons k v rest => .cons (rewriteString k) v.rewrite rest.rewrite
end

mutual
/-- A bound on the fuel the descent needs for a value. -/
def JVal.cost : JVal → Nat
  | .str _ => 1
  | .bool _ => 1
  | .arr xs => 1 + xs.cost
  | .obj ms => 1 + ms.cost
/-- A bound on the fuel the descent needs for the elements of an array. -/
def JList.cost : JList → Nat
  | .nil => 0
  | .cons v rest => 1 + v.cost + rest.cost
/-- A bound on the fuel the descent needs for the members of an object. -/
def JMembers.cost : JMembers → Nat
  | .nil => 0
  | .cons _ v rest => 1 + v.cost + rest.cost
end

/-- The first character of a serialized value. -/
def isValueStart (c : Char) : Bool :=
  c == '"' || c == '[' || c == '{' || c == 't' || c == 'f'

mutual
/-- Whether no key and no string of the value holds one of the operator words, and the
keys of every object in it are distinct. -/
def JVal.plain : JVal → Bool
  | .str s => !hasOperatorWord s
  | .bool _ => true
  | .arr xs => xs.plain
  | .obj ms => ms.plain && decide ms.keys.Nodup
/-- The same for the elements of an array. -/
def JList.plain : JList → Bool
  | .nil => true
  | .cons v rest => v.plain && rest.plain
/-- The same for the members of an object. -/
def JMembers.plain : JMembers → Bool
  | .nil => true
  | .cons k v rest => !hasOperatorWord k && v.plain && rest.plain
end

/-- The value of the last member with the key `k`. -/
def JMembers.last (k : List Char) : JMembers → Option JVal
  | .nil => none
  | .cons k2 v rest =>
    match JMembers.last k rest with
    | some w => some w
    | none => if k2 = k then some v else none

/-- The members of one object followed by those of another. -/
def JMembers.append : JMembers → JMembers → JMembers
  | .nil, ms => ms
  | .cons k v rest, ms => .cons k v (JMembers.append rest ms)

/-- The key of the clause a list handler sets itself. -/
def ownerKey : Resource → List Char
  | .exercises => "$or".toList
  | .workouts => "user".toList
  | .progress => "user".toList

/-- The count `total` of a list handler: the documents its filter selects. -/
def matchingCount {α : Type} (r : Resource) (paths : Paths α) (coll : Collection α)
    (query : JMembers) (user : ObjectId) : Nat :=
  match buildFilter r query user with
  | some filter => (findMatching paths coll filter).length
  | none => 0

/-- The documents a list handler pages through, when its query is built. -/
def matchingDocs {α : Type} (r : Resource) (paths : Paths α) (coll : Collection α)
    (query : JMembers) (user : ObjectId) : List α :=
  match buildFilter r query user, selectParam query, sortParam query with
  | some filter, .ok fields, .ok sortBy => orderedDocs r paths coll filter fields sortBy
  | _, _, _ => []

/-- Whether the statements of a list handler before the pagination go through: `select`
and `sort` are strings when given, and the database accepts the filter. -/
def queryRuns {α : Type} (r : Resource) (coll : Collection α) (query : JMembers)
    (user : ObjectId) : Bool :=
  match buildFilter r query user, selectParam query, sortParam query with
  | some filter, .ok _, .ok _ => coll.accepts filter
  | _, _, _ => false

/-! ## Sample data -/

/-- A workout of the user `11…1`, with the id of the digit `d`. -/
def sampleWorkout (d : Fin 16) : Workout :=
  { _id := ObjectId.ofDigit d
    name := "Leg day".toList
    exercises := []
    isTemplate := false
    isCompleted := false
    user := ObjectId.ofDigit 1 }

/-- A collection of three workouts whose database accepts every filter, holds every other
clause true, and keeps the stored order and the whole document. -/
def sampleWorkouts : Collection Workout :=
  { docs := [sampleWorkout 2, sampleWorkout 3, sampleWorkout 4]
    accepts := fun _ => true
    clause := fun _ _ _ => true
    sort := fun _ l => l
    sort_perm := fun _ l => List.Perm.refl l
    select := fun _ d => d }

/-- The query string `?page=<page>&limit=<limit>`. -/
def pageQuery (page limit : String) : JMembers :=
  .cons "page".toList (.str page.toList) (.cons "limit".toList (.str limit.toList) .nil)

/-- A progress entry of the user `11…1` with the given date, metrics and records. -/
def sampleEntry (d : Fin 16) (date : Int) (metrics : Metrics)
    (records : List PersonalRecord) : Progress :=
  { _id := ObjectId.ofDigit d
    user := ObjectId.ofDigit 1
    date := date
    metrics := metrics
    personalRecords := records
    notes := none }

/-! ## The client: the list requests and the Dashboard -/

/-- The argument `params` of the thunks `getWorkouts`, `getExercises` and
`getProgressEntries`: numbers for `page` and `limit`, a string for `sort`. -/
structure ListParams where
  page : Option Nat
  limit : Option Nat
  sort : Option (List Char)
  deriving DecidableEq, Repr

/-- The query that Express reads from the string of a `URLSearchParams`: the pairs
appended, in their order, each value a string. -/
def queryOfPairs : List (List Char × List Char) → JMembers
  | [] => .nil
  | (k, v) :: rest => .cons k (.str v) (queryOfPairs rest)

/-- The pair of a statement `if (value) queryParams.append(key, value)` on a string: the
empty string is falsy. -/
def stringPair (key : String) (value : List Char) : List (List Char × List Char) :=
  if value = [] then [] else [(key.toList, value)]

/-- The pair of a statement `if (params?.key) queryParams.append(key, params.key)` on a
number: a missing number and zero are falsy, and `append` converts to the decimal string. -/
def numberPair (key : String) (value : Option Nat) : List (List Char × List Char) :=
  match value with
  | none => []
  | some n => if n = 0 then [] else [(key.toList, (Nat.repr n).toList)]

/-- The pairs for `page`, `limit` and `sort` that the three thunks append alike. -/
def paramPairs (params : ListParams) : List (List Char × List Char) :=
  numberPair "page" params.page ++ numberPair "limit" params.limit
    ++ stringPair "sort" (params.sort.getD [])

/-- The query of the thunk `getExercises` (`exerciseSlice.js`, lines 26-41). -/
def exerciseSlice.getExercisesQuery {α : Type} (state : ExercisesState α)
    (params : ListParams) : JMembers :=
  queryOfPairs (stringPair "category" state.filterCategory
    ++ stringPair "muscleGroups" state.filterMuscleGroups
    ++ stringPair "equipmentNeeded" state.filterEquipmentNeeded
    ++ paramPairs params)

/-- The query of the thunk `getWorkouts` (`workoutSlice.js`, lines 25-39): the filters are
appended unless they are the empty string. -/
def workoutSlice.getWorkoutsQuery {α : Type} (state : WorkoutsState α)
    (params : ListParams) : JMembers :=
  queryOfPairs (stringPair "isTemplate" state.filterIsTemplate
    ++ stringPair "isCompleted" state.filterIsCompleted
    ++ paramPairs params)

/-- The query of the thunk `getProgressEntries` (`progressSlice.js`, lines 25-39): the
date range of the slice goes out as `startDate` and `endDate`. -/
def progressSlice.getProgressEntriesQuery {α σ : Type} (state : ProgressState α σ)
    (params : ListParams) : JMembers :=
  queryOfPairs (stringPair "startDate" state.startDate
    ++ stringPair "endDate" state.endDate
    ++ paramPairs params)

/-- The case `getExercises.pending`, and alike for the other requests. -/
def exerciseSlice.getExercisesPending {α : Type} (state : ExercisesState α) :
    ExercisesState α :=
  { state with loading := true, error := none }

/-- The case `getExercises.rejected`: the payload is the message of the reply or else
`Failed to fetch exercises`. -/
def exerciseSlice.getExercisesRejected {α : Type} (state : ExercisesState α)
    (message : String) : ExercisesState α :=
  { state with loading := false, error := some message }

/-- The case `getWorkouts.pending`. -/
def workoutSlice.getWorkoutsPending {α : Type} (state : WorkoutsState α) : WorkoutsState α :=
  { state with loading := true, error := none }

/-- The case `getWorkouts.rejected`. -/
def workoutSlice.getWorkoutsRejected {α : Type} (state : WorkoutsState α)
    (message : String) : WorkoutsState α :=
  { state with loading := false, error := some message }

/-- The dispatch `getExercises({ limit: 1 })` of the effect of `Dashboard.js` (line 162)
run to its end against the server: the thunk builds the query, the handler answers, and
the slice takes the fulfilled or the rejected case. -/
def Dashboard.loadExercises (coll : Collection Exercise) (user : ObjectId)
    (state : ExercisesState Exercise) : ExercisesState Exercise :=
  let query := exerciseSlice.getExercisesQuery state
    { page := none, limit := some 1, sort := none }
  let pending := exerciseSlice.getExercisesPending state
  match getExercises coll query user with
  | .json body => exerciseSlice.getExercisesFulfilled pending body
  | .thrown _ => exerciseSlice.getExercisesRejected pending "Failed to fetch exercises"

/-- The dispatch `getWorkouts({ limit: 10, sort: '-updatedAt' })` of the effect of
`Dashboard.js` (line 160) run to its end against the server. -/
def Dashboard.loadWorkouts (coll : Collection Workout) (user : ObjectId)
    (state : WorkoutsState Workout) : WorkoutsState Workout :=
  let query := workoutSlice.getWorkoutsQuery state
    { page := none, limit := some 10, sort := some "-updatedAt".toList }
  let pending := workoutSlice.getWorkoutsPending state
  match getWorkouts coll query user with
  | .json body => workoutSlice.getWorkoutsFulfilled pending body
  | .thrown _ => workoutSlice.getWorkoutsRejected pending "Failed to fetch workouts"

/-- The value `exercisesPagination?.count || 0` of the card `Total Exercises`
(`Dashboard.js`, lines 320-327). -/
def Dashboard.totalExercises {α : Type} (state : ExercisesState α) : Nat :=
  match state.pagination with
  | none => 0
  | some p => p.count

/-- The value `workoutsPagination?.count || 0` of the card `Total Workouts`
(`Dashboard.js`, lines 312-319). -/
def Dashboard.totalWorkouts {α : Type} (state : WorkoutsState α) : Nat :=
  match state.pagination with
  | none => 0
  | some p => p.count

/-! ## The client: the auth slice -/

/-- The payload of a token as `jwt_decode` returns it: the id of the user and the expiry
`exp` in seconds, which a token may lack. -/
structure JwtPayload where
  id : List Char
  exp : Option Int
  deriving DecidableEq, Repr

/-- The state of `authSlice` (`authSlice.js`, lines 27-33). -/
structure AuthState where
  token : Option (List Char)
  isAuthenticated : Bool
  user : Option JwtPayload
  loading : Bool
  error : Option String
  deriving DecidableEq, Repr

/-- The test `user.exp < currentTime` of line 16, with `currentTime = Date.now() / 1000`
and `now` the milliseconds of `Date.now()`; a missing `exp` compares false. -/
def JwtPayload.expired (user : JwtPayload) (now : Int) : Bool :=
  match user.exp with
  | none => false
  | some exp => decide (exp * 1000 < now)

/-- The variable `user` of lines 7-25: `stored` is `localStorage.getItem('token')`, and
`decode` is `jwt_decode`, `none` where it throws. An empty token is falsy. -/
def authSlice.storedUser (decode : List Char → Option JwtPayload)
    (stored : Option (List Char)) (now : Int) : Option JwtPayload :=
  match stored with
  | none => none
  | some token =>
    if token = [] then none
    else
      match decode token with
      | none => none
      | some user => if user.expired now then none else some user

/-- The initial state of `authSlice` (lines 5-33): `token` is the string read from the
storage, whatever became of `user`. -/
def authSlice.initialState (decode : List Char → Option JwtPayload)
    (stored : Option (List Char)) (now : Int) : AuthState :=
  { token := match stored with
      | none => none
      | some token => if token = [] then none else some token
    isAuthenticated := (authSlice.storedUser decode stored now).isSome
    user := authSlice.storedUser decode stored now
    loading := false
    error := none }

/-- The reducer `loginSuccess` (lines 148-154); `none` when `jwt_decode` throws. -/
def authSlice.loginSuccess (decode : List Char → Option JwtPayload) (state : AuthState)
    (token : List Char) : Option AuthState :=
  match decode token with
  | none => none
  | some user =>
    some { state with
      token := some token, isAuthenticated := true, user := some user
      loading := false, error := none }

/-- The reducer `logout` (lines 155-162). -/
def authSlice.logout (_ : AuthState) : AuthState :=
  { token := none, isAuthenticated := false, user := none, loading := false, error := none }

/-- The cases `register.fulfilled`, `login.fulfilled` and `googleLogin.fulfilled`, which
run the same statements (lines 174-179, 190-195, 206-211). -/
def authSlice.loginFulfilled (decode : List Char → Option JwtPayload) (state : AuthState)
    (token : List Char) : Option AuthState :=
  match decode token with
  | none => none
  | some user =>
    some { state with
      loading := false, isAuthenticated := true, token := some token, user := some user }

/-- The case `updatePassword.fulfilled` (lines 250-254). -/
def authSlice.updatePasswordFulfilled (decode : List Char → Option JwtPayload)
    (state : AuthState) (token : List Char) : Option AuthState :=
  match decode token with
  | none => none
  | some user => some { state with loading := false, token := some token, user := some user }

/-- The rejected cases (lines 180-183 and alike). -/
def authSlice.rejected (state : AuthState) (message : String) : AuthState :=
  { state with loading := false, error := some message }

/-- The invariant in question: `token` is non-null exactly when `isAuthenticated` is true
and `user` is non-null. -/
def AuthState.consistent (state : AuthState) : Bool :=
  state.token.isSome == (state.isAuthenticated && state.user.isSome)

/-! ## More sample data -/

/-- An exercise with the id of the digit `d`. -/
def sampleExercise (d : Fin 16) (isCustom : Bool) (user : Option ObjectId) : Exercise :=
  { _id := ObjectId.ofDigit d
    name := "Squat".toList
    category := "strength".toList
    isCustom := isCustom
    user := user }

/-- A collection of exercises: two public ones, one of the user `11…1` and one of the
user `55…5`, whose database accepts every filter and holds every other clause true. -/
def sampleExercises : Collection Exercise :=
  { docs := [sampleExercise 2 false none, sampleExercise 3 false none,
      sampleExercise 4 true (some (ObjectId.ofDigit 1)),
      sampleExercise 6 true (some (ObjectId.ofDigit 5))]
    accepts := fun _ => true
    clause := fun _ _ _ => true
    sort := fun _ l => l
    sort_perm := fun _ l => List.Perm.refl l
    select := fun _ d => d }

/-- A collection of the workouts given, with the same database. -/
def workoutsOf (docs : List Workout) : Collection Workout :=
  { docs := docs
    accepts := fun _ => true
    clause := fun _ _ _ => true
    sort := fun _ l => l
    sort_perm := fun _ l => List.Perm.refl l
    select := fun _ d => d }

/-- Two progress entries of the user `11…1`, dated 2024-01-15 and 2024-03-01, in a
database whose outcome for a clause on a path the schema lacks is `other`: `true` where
Mongoose strips such a clause from the filter, `false` where the database looks for the
path in the documents. -/
def sampleProgress (other : Bool) : Collection Progress :=
  { docs := [sampleEntry 2 1705276800000 emptyMetrics [],
      sampleEntry 3 1709251200000 emptyMetrics []]
    accepts := fun _ => true
    clause := fun _ _ _ => other
    sort := fun _ l => l
    sort_perm := fun _ l => List.Perm.refl l
    select := fun _ d => d }

/-- Eleven workouts of the user `11…1`. -/
def elevenWorkouts : List Workout :=
  [0, 1, 2, 3, 4, 5, 6, 7, 8, 9, 10].map sampleWorkout

/-- The query `?startDate=2024-01-01&endDate=2024-01-31`. -/
def januaryQuery : JMembers :=
  queryOfPairs [("startDate".toList, "2024-01-01".toList),
    ("endDate".toList, "2024-01-31".toList)]

/-- A workout body that lists the exercises given and sets nothing else but a name. -/
def bodyListing (exercises : List WorkoutExercise) : WorkoutBody :=
  { name := some "Push".toList, exercises := some exercises
    isTemplate := none, isCompleted := none, user := none }

/-- The record `best` of the exercise `id` is the first of the greatest value among the
records of this exercise: each such record before it has a smaller value, and none after
it has a greater one. -/
def firstMaximum (records : List RecordItem) (id : ObjectId) (best : RecordItem) : Prop :=
  best.exercise = some id
    ∧ ∃ pre post, records = pre ++ best :: post
      ∧ (∀ x ∈ pre, x.exercise = some id → jsGreater best.value x.value = true)
      ∧ (∀ x ∈ post, x.exercise = some id → jsGreater x.value best.value = false)

/-! # Theorems -/

/-! ## The rounding to a double -/

theorem one_shiftLeft (k : Nat) : 1 <<< k = 2 ^ k := by
  rw [Nat.shiftLeft_eq, one_mul]

theorem bisect_spec : ∀ (fuel lo hi n : Nat), 2 ^ lo ≤ n → n < 2 ^ hi → hi - lo ≤ 2 ^ fuel →
    2 ^ (bisect fuel lo hi n - 1) ≤ n ∧ n < 2 ^ bisect fuel lo hi n ∧ 0 < bisect fuel lo hi n
  | 0, lo, hi, n, h1, h2, h3 => by
    have hlt : lo < hi := by
      by_contra hc
      have : 2 ^ hi ≤ 2 ^ lo := Nat.pow_le_pow_right (by norm_num) (by omega)
      omega
    have : hi = lo + 1 := by
      simp at h3
      omega
    subst this
    simp [bisect, h1, h2]
  | fuel + 1, lo, hi, n, h1, h2, h3 => by
    rw [pow_succ] at h3
    unfold bisect
    by_cases hm : n < 1 <<< ((lo + hi) / 2)
    · rw [if_pos hm]
      rw [Nat.shiftLeft_eq, one_mul] at hm
      apply bisect_spec fuel lo ((lo + hi) / 2) n h1 hm
      omega
    · rw [if_neg hm]
      rw [Nat.shiftLeft_eq, one_mul, not_lt] at hm
      apply bisect_spec fuel ((lo + hi) / 2) hi n hm h2
      have hlt : (lo + hi) / 2 < hi := by
        by_contra hc
        have : 2 ^ hi ≤ 2 ^ ((lo + hi) / 2) := Nat.pow_le_pow_right (by norm_num) (by omega)
        omega
      omega

theorem bitLength_spec : ∀ (fuel n : Nat), n ≤ fuel → n ≠ 0 →
    2 ^ (bitLength fuel n - 1) ≤ n ∧ n < 2 ^ bitLength fuel n ∧ 0 < bitLength fuel n
  | 0, n, h1, h2 => by omega
  | fuel + 1, n, h1, h2 => by
    unfold bitLength
    rw [if_neg h2]
    by_cases h : n / 2 = 0
    · have hn : n = 1 := by omega
      subst hn
      cases fuel <;> simp [bitLength]
    · obtain ⟨ha, hb, hc⟩ := bitLength_spec fuel (n / 2) (by omega) h
      refine ⟨?_, ?_, by omega⟩
      · simp only [Nat.add_sub_cancel]
        have : bitLength fuel (n / 2) = (bitLength fuel (n / 2) - 1) + 1 := by omega
        rw [this, pow_succ]
        omega
      · rw [pow_succ]
        omega

theorem bits_spec (n : Nat) (h : n ≠ 0) :
    2 ^ (bits n - 1) ≤ n ∧ n < 2 ^ bits n ∧ 0 < bits n := by
  unfold bits
  rw [if_neg h]
  by_cases hb : n < 1 <<< 8192
  · rw [if_pos hb]
    rw [one_shiftLeft] at hb
    have h13 : 8192 - 0 ≤ 2 ^ 13 := by norm_num
    exact bisect_spec 13 0 8192 n (by rw [pow_zero]; exact Nat.pos_of_ne_zero h) hb h13
  · rw [if_neg hb]
    exact bitLength_spec n n (le_refl n) h

theorem bits_zero : bits 0 = 0 := rfl

theorem bits_le_iff (n k : Nat) : bits n ≤ k ↔ n < 2 ^ k := by
  by_cases h : n = 0
  · subst h
    simp [bits_zero]
  · obtain ⟨ha, hb, hc⟩ := bits_spec n h
    constructor
    · intro hk
      exact lt_of_lt_of_le hb (Nat.pow_le_pow_right (by norm_num) hk)
    · intro hk
      by_contra hc2
      have : 2 ^ k ≤ 2 ^ (bits n - 1) := Nat.pow_le_pow_right (by norm_num) (by omega)
      omega

theorem bits_mono (n m : Nat) (h : n ≤ m) : bits n ≤ bits m := by
  rw [bits_le_iff]
  by_cases hm : m = 0
  · subst hm
    have : n = 0 := by omega
    subst this
    simp
  · exact lt_of_le_of_lt h (bits_spec m hm).2.1

theorem roundBits_small (n : Nat) (h : n < 2 ^ 53) : roundBits n 0 = n := by
  have hb : bits n - 53 = 0 := by
    have := (bits_le_iff n 53).2 h
    omega
  simp [roundBits, hb]

/-- The rounding spelled out with quotient and remainder. -/
theorem roundBits_large (n : Nat) (h : 2 ^ 53 ≤ n) :
    roundBits n 0
      = (if 2 ^ (bits n - 53 - 1) < n % 2 ^ (bits n - 53)
            ∨ (n % 2 ^ (bits n - 53) = 2 ^ (bits n - 53 - 1)
              ∧ n / 2 ^ (bits n - 53) % 2 = 1)
          then n / 2 ^ (bits n - 53) + 1 else n / 2 ^ (bits n - 53)) * 2 ^ (bits n - 53) := by
  have hb : ¬ bits n ≤ 53 := by
    rw [bits_le_iff]
    omega
  have hne : ¬ max (bits n - 53) 0 = 0 := by
    simp
    omega
  have hr : n - n / 2 ^ (bits n - 53) * 2 ^ (bits n - 53) = n % 2 ^ (bits n - 53) := by
    have := Nat.div_add_mod n (2 ^ (bits n - 53))
    rw [Nat.mul_comm] at this
    omega
  unfold roundBits
  rw [if_neg hne]
  simp only [Nat.max_zero, Nat.sub_zero, Nat.shiftRight_eq_div_pow, Nat.shiftLeft_eq, one_mul,
    hr]

/-- Where the rounded number lies. -/
theorem roundBits_bounds (n : Nat) (h : 2 ^ 53 ≤ n) :
    n / 2 ^ (bits n - 53) * 2 ^ (bits n - 53) ≤ roundBits n 0
      ∧ roundBits n 0 ≤ (n / 2 ^ (bits n - 53) + 1) * 2 ^ (bits n - 53)
      ∧ 2 ^ 52 ≤ n / 2 ^ (bits n - 53)
      ∧ n / 2 ^ (bits n - 53) < 2 ^ 53 := by
  have hn : n ≠ 0 := by
    have : 0 < 2 ^ 53 := by norm_num
    omega
  obtain ⟨ha, hb, hc⟩ := bits_spec n hn
  have hbig : 53 < bits n := by
    by_contra hc2
    have := (bits_le_iff n 53).1 (by omega)
    omega
  rw [roundBits_large n h]
  have e1 : bits n - 1 = 52 + (bits n - 53) := by omega
  have e2 : bits n = 53 + (bits n - 53) := by omega
  refine ⟨?_, ?_, ?_, ?_⟩
  · split
    · exact Nat.mul_le_mul_right _ (Nat.le_succ _)
    · exact le_refl _
  · split
    · exact le_refl _
    · exact Nat.mul_le_mul_right _ (Nat.le_succ _)
  · rw [Nat.le_div_iff_mul_le (by positivity), ← pow_add, ← e1]
    exact ha
  · rw [Nat.div_lt_iff_lt_mul (by positivity), ← pow_add, ← e2]
    exact hb

theorem roundBits_ge (n : Nat) (h : 2 ^ 53 ≤ n) :
    2 ^ (bits n - 1) ≤ roundBits n 0 ∧ roundBits n 0 ≤ 2 ^ bits n := by
  obtain ⟨h1, h2, h3, h4⟩ := roundBits_bounds n h
  have hbig : 53 < bits n := by
    by_contra hc2
    have := (bits_le_iff n 53).1 (by omega)
    omega
  have e1 : bits n - 1 = 52 + (bits n - 53) := by omega
  have e2 : bits n = 53 + (bits n - 53) := by omega
  constructor
  · calc 2 ^ (bits n - 1) = 2 ^ 52 * 2 ^ (bits n - 53) := by rw [← pow_add, ← e1]
      _ ≤ n / 2 ^ (bits n - 53) * 2 ^ (bits n - 53) := Nat.mul_le_mul_right _ h3
      _ ≤ roundBits n 0 := h1
  · calc roundBits n 0 ≤ (n / 2 ^ (bits n - 53) + 1) * 2 ^ (bits n - 53) := h2
      _ ≤ 2 ^ 53 * 2 ^ (bits n - 53) := Nat.mul_le_mul_right _ h4
      _ = 2 ^ bits n := by rw [← pow_add, ← e2]

theorem roundBits_mono (n m : Nat) (h : n ≤ m) : roundBits n 0 ≤ roundBits m 0 := by
  by_cases hn : n < 2 ^ 53
  · rw [roundBits_small n hn]
    by_cases hm : m < 2 ^ 53
    · rw [roundBits_small m hm]
      exact h
    · have hm2 : 2 ^ 53 ≤ m := by omega
      have hb : 53 < bits m := by
        by_contra hc
        have := (bits_le_iff m 53).1 (by omega)
        omega
      have := (roundBits_ge m hm2).1
      have h52 : 2 ^ 53 ≤ 2 ^ (bits m - 1) := Nat.pow_le_pow_right (by norm_num) (by omega)
      omega
  · have hn2 : 2 ^ 53 ≤ n := by omega
    have hm2 : 2 ^ 53 ≤ m := by omega
    have hbits := bits_mono n m h
    by_cases hs : bits n = bits m
    · have hq : n / 2 ^ (bits n - 53) ≤ m / 2 ^ (bits n - 53) := Nat.div_le_div_right h
      obtain ⟨a1, a2, _, _⟩ := roundBits_bounds n hn2
      obtain ⟨b1, b2, _, _⟩ := roundBits_bounds m hm2
      rw [← hs] at b1 b2
      by_cases hqq : n / 2 ^ (bits n - 53) = m / 2 ^ (bits n - 53)
      · rw [roundBits_large n hn2, roundBits_large m hm2, ← hs, ← hqq]
        have hr : n % 2 ^ (bits n - 53) ≤ m % 2 ^ (bits n - 53) := by
          have e1 := Nat.div_add_mod n (2 ^ (bits n - 53))
          have e2 := Nat.div_add_mod m (2 ^ (bits n - 53))
          rw [← hqq] at e2
          omega
        apply Nat.mul_le_mul_right
        split
        · next hup =>
          split
          · exact le_refl _
          · next hno =>
            exfalso
            apply hno
            rcases hup with hup | hup
            · left
              omega
            · rcases Nat.lt_or_ge (2 ^ (bits n - 53 - 1)) (m % 2 ^ (bits n - 53)) with hlt | hge
              · left
                exact hlt
              · right
                exact ⟨by omega, hup.2⟩
        · split
          · exact Nat.le_succ _
          · exact le_refl _
      · have hlt : n / 2 ^ (bits n - 53) + 1 ≤ m / 2 ^ (bits n - 53) := by omega
        calc roundBits n 0 ≤ (n / 2 ^ (bits n - 53) + 1) * 2 ^ (bits n - 53) := a2
          _ ≤ m / 2 ^ (bits n - 53) * 2 ^ (bits n - 53) := Nat.mul_le_mul_right _ hlt
          _ ≤ roundBits m 0 := b1
    · have hlt : bits n ≤ bits m - 1 := by omega
      calc roundBits n 0 ≤ 2 ^ bits n := (roundBits_ge n hn2).2
        _ ≤ 2 ^ (bits m - 1) := Nat.pow_le_pow_right (by norm_num) hlt
        _ ≤ roundBits m 0 := (roundBits_ge m hm2).1

theorem bits_eq (n k : Nat) (h1 : 2 ^ k ≤ n) (h2 : n < 2 ^ (k + 1)) : bits n = k + 1 := by
  have ha : bits n ≤ k + 1 := (bits_le_iff n (k + 1)).2 h2
  have hb : ¬ bits n ≤ k := by
    rw [bits_le_iff]
    omega
  omega

theorem roundBits_exact (q s : Nat) (h1 : 2 ^ 52 ≤ q) (h2 : q < 2 ^ 53) :
    roundBits (q * 2 ^ s) 0 = q * 2 ^ s := by
  by_cases hs : s = 0
  · subst hs
    rw [pow_zero, mul_one]
    exact roundBits_small q h2
  · have hb : bits (q * 2 ^ s) = 52 + s + 1 := by
      apply bits_eq
      · rw [pow_add]
        exact Nat.mul_le_mul_right _ h1
      · have : 52 + s + 1 = 53 + s := by omega
        rw [this, pow_add]
        exact Nat.mul_lt_mul_of_pos_right h2 (by positivity)
    have hbig : 2 ^ 53 ≤ q * 2 ^ s := by
      have : 2 ^ 53 ≤ 2 ^ (52 + s) := Nat.pow_le_pow_right (by norm_num) (by omega)
      calc 2 ^ 53 ≤ 2 ^ (52 + s) := this
        _ = 2 ^ 52 * 2 ^ s := pow_add _ _ _
        _ ≤ q * 2 ^ s := Nat.mul_le_mul_right _ h1
    have hsub : 52 + s + 1 - 53 = s := by omega
    rw [roundBits_large _ hbig, hb, hsub]
    have hmod : q * 2 ^ s % 2 ^ s = 0 := Nat.mul_mod_left _ _
    have hdiv : q * 2 ^ s / 2 ^ s = q := Nat.mul_div_cancel _ (by positivity)
    have hpos : 0 < 2 ^ (s - 1) := by positivity
    rw [hmod, hdiv]
    have hcond : ¬ (2 ^ (s - 1) < 0 ∨ (0 = 2 ^ (s - 1) ∧ q % 2 = 1)) := by
      rintro (h | h)
      · omega
      · omega
    rw [if_neg hcond]

theorem roundBits_idem (n : Nat) : roundBits (roundBits n 0) 0 = roundBits n 0 := by
  by_cases hn : n < 2 ^ 53
  · rw [roundBits_small n hn, roundBits_small n hn]
  · have hn2 : 2 ^ 53 ≤ n := by omega
    obtain ⟨_, _, h3, h4⟩ := roundBits_bounds n hn2
    rw [roundBits_large n hn2]
    split
    · by_cases hq : n / 2 ^ (bits n - 53) + 1 < 2 ^ 53
      · exact roundBits_exact _ _ (by omega) hq
      · have he : n / 2 ^ (bits n - 53) + 1 = 2 ^ 52 * 2 ^ 1 := by
          have : (2 : Nat) ^ 52 * 2 ^ 1 = 2 ^ 53 := by norm_num
          omega
        rw [he, mul_assoc, ← pow_add]
        exact roundBits_exact _ _ (le_refl _) (by norm_num)
    · exact roundBits_exact _ _ h3 h4

/-! ## Whole numbers as doubles -/

theorem ofMagnitude_le_pos (m1 m2 : Nat) (h : m1 ≤ m2) :
    JsInt.le (JsInt.ofMagnitude false m1) (JsInt.ofMagnitude false m2) = true := by
  unfold JsInt.ofMagnitude
  generalize 1 <<< 1024 = bound
  by_cases h1 : bound ≤ m1
  · have h2 : bound ≤ m2 := le_trans h1 h
    simp [h1, h2, JsInt.le]
  · by_cases h2 : bound ≤ m2
    · simp [h1, h2, JsInt.le]
    · simp [h1, h2, JsInt.le, h]

theorem ofMagnitude_le_neg (m1 m2 : Nat) (h : m2 ≤ m1) :
    JsInt.le (JsInt.ofMagnitude true m1) (JsInt.ofMagnitude true m2) = true := by
  unfold JsInt.ofMagnitude
  generalize 1 <<< 1024 = bound
  by_cases h1 : bound ≤ m1
  · by_cases h2 : bound ≤ m2
    · simp [h1, h2, JsInt.le]
    · simp [h1, h2, JsInt.le]
  · have h2 : ¬ bound ≤ m2 := fun e => h1 (le_trans e h)
    simp [h1, h2, JsInt.le, h]

theorem ofMagnitude_le_mixed (m1 m2 : Nat) :
    JsInt.le (JsInt.ofMagnitude true m1) (JsInt.ofMagnitude false m2) = true := by
  unfold JsInt.ofMagnitude
  generalize 1 <<< 1024 = bound
  by_cases h1 : bound ≤ m1 <;> by_cases h2 : bound ≤ m2 <;> simp [h1, h2, JsInt.le]
  omega

/-- The rounding keeps the order of the integers. -/
theorem ofInt_mono (a b : Int) (h : a ≤ b) :
    JsInt.le (JsInt.ofInt a) (JsInt.ofInt b) = true := by
  unfold JsInt.ofInt
  by_cases ha : a < 0
  · by_cases hb : b < 0
    · simp only [ha, hb, decide_True]
      exact ofMagnitude_le_neg _ _ (roundBits_mono _ _ (by omega))
    · simp only [ha, hb, decide_True, decide_False]
      exact ofMagnitude_le_mixed _ _
  · have hb : ¬ b < 0 := by omega
    simp only [ha, hb, decide_False]
    exact ofMagnitude_le_pos _ _ (roundBits_mono _ _ (by omega))

/-- A number that the rounding gives is kept by the rounding. -/
theorem ofInt_idem (a k : Int) (h : JsInt.ofInt a = .finite k) :
    JsInt.ofInt k = .finite k := by
  unfold JsInt.ofInt JsInt.ofMagnitude at h
  by_cases hb : 1 <<< 1024 ≤ roundBits a.natAbs 0
  · rw [if_pos hb] at h
    split at h <;> exact JsInt.noConfusion h
  · rw [if_neg hb] at h
    have hk : k.natAbs = roundBits a.natAbs 0 := by
      have := JsInt.finite.inj h
      split at this <;> omega
    have hidem : roundBits k.natAbs 0 = k.natAbs := by
      rw [hk, roundBits_idem]
    unfold JsInt.ofInt JsInt.ofMagnitude
    rw [hidem, hk, if_neg hb]
    congr 1
    have := JsInt.finite.inj h
    by_cases hneg : k < 0
    · simp only [hneg, decide_True, if_true]
      omega
    · simp only [hneg, decide_False]
      simp only [Bool.false_eq_true, if_false]
      omega

/-- An integer below 2^53 in magnitude is a double. -/
theorem ofInt_small (n : Int) (h : n.natAbs < 2 ^ 53) : JsInt.ofInt n = .finite n := by
  unfold JsInt.ofInt JsInt.ofMagnitude
  rw [roundBits_small _ h]
  have hpow : ∀ k : Nat, 53 ≤ k → ¬ 1 <<< k ≤ n.natAbs := by
    intro k hk
    rw [one_shiftLeft]
    exact Nat.not_le.mpr (lt_of_lt_of_le h (Nat.pow_le_pow_right (by norm_num) hk))
  rw [if_neg (hpow 1024 (by norm_num))]
  congr 1
  by_cases hneg : n < 0
  · simp only [hneg, decide_True, if_true]
    omega
  · simp only [hneg, decide_False, Bool.false_eq_true, if_false]
    omega

theorem jsInt_zero : (0 : JsInt) = .finite 0 := ofInt_small 0 (by norm_num)

theorem jsInt_one : (1 : JsInt) = .finite 1 := ofInt_small 1 (by norm_num)

theorem jsInt_two : (2 : JsInt) = .finite 2 := ofInt_small 2 (by norm_num)

theorem jsInt_ten : (10 : JsInt) = .finite 10 := ofInt_small 10 (by norm_num)

/-- What the rounding of an integer of at least `c`, itself a double, is. -/
theorem ofInt_ge (c n : Int) (hc : JsInt.ofInt c = .finite c) (h : c ≤ n) :
    JsInt.ofInt n = .posInf ∨ ∃ k, JsInt.ofInt n = .finite k ∧ c ≤ k := by
  have hm := ofInt_mono c n h
  rw [hc] at hm
  cases hn : JsInt.ofInt n with
  | nan => rw [hn] at hm; simp [JsInt.le] at hm
  | negInf => rw [hn] at hm; simp [JsInt.le] at hm
  | posInf => exact Or.inl rfl
  | finite k =>
    rw [hn] at hm
    exact Or.inr ⟨k, rfl, by simpa [JsInt.le] using hm⟩

/-- What the rounding of an integer of at most `c`, itself a double, is. -/
theorem ofInt_le (c n : Int) (hc : JsInt.ofInt c = .finite c) (h : n ≤ c) :
    JsInt.ofInt n = .negInf ∨ ∃ k, JsInt.ofInt n = .finite k ∧ k ≤ c := by
  have hm := ofInt_mono n c h
  rw [hc] at hm
  cases hn : JsInt.ofInt n with
  | nan => rw [hn] at hm; simp [JsInt.le] at hm
  | posInf => rw [hn] at hm; simp [JsInt.le] at hm
  | negInf => exact Or.inl rfl
  | finite k =>
    rw [hn] at hm
    exact Or.inr ⟨k, rfl, by simpa [JsInt.le] using hm⟩

theorem ofInt_ne_nan (n : Int) : JsInt.ofInt n ≠ .nan := by
  unfold JsInt.ofInt JsInt.ofMagnitude
  split
  · split <;> exact fun e => JsInt.noConfusion e
  · exact fun e => JsInt.noConfusion e

/-! ## The replacement and the parser -/

theorem matchWord_append (w a : List Char) (d : Char) (b : List Char)
    (hw : ∀ c ∈ w, isWordChar c = true) (hd : isWordChar d = false) :
    matchWord w (a ++ d :: b) = matchWord w a := by
  induction w generalizing a with
  | nil =>
    cases a with
    | nil => simp [matchWord, nextIsWord, hd]
    | cons x xs => simp [matchWord, nextIsWord]
  | cons c w ih =>
    cases a with
    | nil =>
      have hc : isWordChar c = true := hw c (by simp)
      have hne : (c == d) = false := by
        rw [beq_eq_false_iff_ne]
        intro h
        rw [h, hd] at hc
        exact Bool.false_ne_true hc
      simp [matchWord, hne]
    | cons x xs =>
      rw [List.cons_append]
      simp only [matchWord]
      rw [ih xs (fun c hc => hw c (by simp [hc]))]

theorem find?_congr_mem {α : Type} (l : List α) (f g : α → Bool)
    (h : ∀ x ∈ l, f x = g x) : l.find? f = l.find? g := by
  induction l with
  | nil => rfl
  | cons x xs ih =>
    simp only [List.find?_cons, h x (by simp)]
    rw [ih (fun y hy => h y (by simp [hy]))]

theorem operatorWords_word : ∀ w ∈ operatorWords, ∀ c ∈ w, isWordChar c = true := by
  decide

theorem matchWord_length (w a : List Char) (h : matchWord w a = true) : w.length ≤ a.length := by
  induction w generalizing a with
  | nil => simp
  | cons c w ih =>
    cases a with
    | nil => simp [matchWord] at h
    | cons x xs =>
      simp only [matchWord, Bool.and_eq_true] at h
      simpa using ih xs h.2

theorem matchOperator_append (p : Bool) (a : List Char) (d : Char) (b : List Char)
    (hd : isWordChar d = false) :
    matchOperator p (a ++ d :: b) = matchOperator p a := by
  have hfind : operatorWords.find? (fun w => matchWord w (a ++ d :: b))
      = operatorWords.find? (fun w => matchWord w a) := by
    apply find?_congr_mem
    intro w hw
    exact matchWord_append w a d b (operatorWords_word w hw) hd
  cases a with
  | nil =>
    have h1 : operatorWords.find? (fun w => matchWord w ([] : List Char)) = none := by decide
    simp only [List.nil_append] at hfind
    simp [matchOperator, hfind, h1]
  | cons x xs =>
    simp only [matchOperator, hfind]
    rfl

theorem matchOperator_bound (p : Bool) (a : List Char) (len : Nat)
    (h : matchOperator p a = some len) : 1 ≤ len ∧ len ≤ a.length := by
  unfold matchOperator at h
  split at h
  · cases hf : operatorWords.find? (fun w => matchWord w a) with
    | none => simp [hf] at h
    | some w =>
      rw [hf] at h
      simp only [Option.map_some', Option.some.injEq] at h
      have hmem := List.mem_of_find?_eq_some hf
      have hm := List.find?_some hf
      have hlen := matchWord_length w a hm
      subst h
      have hpos : ∀ w ∈ operatorWords, 1 ≤ w.length := by decide
      exact ⟨hpos w hmem, hlen⟩
  · simp at h

theorem replaceFrom_append (a : List Char) (d : Char) (b : List Char)
    (hd : isWordChar d = false) (p : Bool) (k : Nat) (hk : k ≤ a.length) :
    replaceFrom p k (a ++ d :: b) = replaceFrom p k a ++ d :: replaceFrom false 0 b := by
  induction a generalizing p k with
  | nil =>
    have hk0 : k = 0 := by simpa using hk
    subst hk0
    have hm : matchOperator p (d :: b) = none := by
      have := matchOperator_append p [] d b hd
      simp only [List.nil_append] at this
      rw [this]
      cases p <;> decide
    simp [replaceFrom, hm, hd]
  | cons c cs ih =>
    cases k with
    | succ k =>
      rw [List.cons_append]
      simp only [replaceFrom]
      rw [ih _ k (by simpa using hk)]
      rfl
    | zero =>
      rw [List.cons_append]
      simp only [replaceFrom]
      have hm := matchOperator_append p (c :: cs) d b hd
      rw [List.cons_append] at hm
      rw [hm]
      cases hmo : matchOperator p (c :: cs) with
      | none =>
        simp only [List.cons_append]
        rw [ih _ 0 (Nat.zero_le _)]
      | some len =>
        have hb := matchOperator_bound p (c :: cs) len hmo
        simp only [List.cons_append]
        rw [ih _ (len - 1) (by simp at hb; omega)]

theorem replaceOperators_cons (d : Char) (b : List Char) (hd : isWordChar d = false) :
    replaceOperators (d :: b) = d :: replaceOperators b := by
  have h := replaceFrom_append [] d b hd false 0 (Nat.le_refl _)
  simpa [replaceOperators, replaceFrom] using h

theorem replaceOperators_append (a rest : List Char) (hrest : nextIsWord rest = false) :
    replaceOperators (a ++ rest) = replaceOperators a ++ replaceOperators rest := by
  cases rest with
  | nil => simp [replaceOperators, replaceFrom]
  | cons d b =>
    have hd : isWordChar d = false := by simpa [nextIsWord] using hrest
    have h := replaceFrom_append a d b hd false 0 (Nat.zero_le _)
    rw [replaceOperators_cons d b hd]
    exact h

theorem nextIsWord_sep (d : Char) (rest : List Char) (hd : isWordChar d = false) :
    nextIsWord (d :: rest) = false := hd

theorem replaceOperators_quote (s rest : List Char) :
    replaceOperators (quote s ++ rest) = quoteReplaced s ++ replaceOperators rest := by
  have h1 : quote s ++ rest = '"' :: (escapeString s ++ '"' :: rest) := by simp [quote]
  rw [h1, replaceOperators_cons _ _ (by decide),
    replaceOperators_append _ _ (nextIsWord_sep _ _ (by decide)), replaceOperators_cons _ _ (by decide)]
  simp [quoteReplaced]

mutual
theorem replace_serialize_val : ∀ (v : JVal) (rest : List Char), nextIsWord rest = false →
    replaceOperators (v.serialize quote ++ rest)
      = v.serialize quoteReplaced ++ replaceOperators rest
  | .str s, rest, _ => by
    simp only [JVal.serialize]
    exact replaceOperators_quote s rest
  | .bool true, rest, h => by
    simp only [JVal.serialize]
    rw [replaceOperators_append _ _ h]
    rfl
  | .bool false, rest, h => by
    simp only [JVal.serialize]
    rw [replaceOperators_append _ _ h]
    rfl
  | .arr xs, rest, _ => by
    simp only [JVal.serialize, List.cons_append, List.append_assoc, List.singleton_append, List.nil_append]
    rw [replaceOperators_cons _ _ (by decide), replace_serialize_list xs _ (nextIsWord_sep _ _ (by decide)),
      replaceOperators_cons _ _ (by decide)]
  | .obj ms, rest, _ => by
    simp only [JVal.serialize, List.cons_append, List.append_assoc, List.singleton_append, List.nil_append]
    rw [replaceOperators_cons _ _ (by decide), replace_serialize_members ms _ (nextIsWord_sep _ _ (by decide)),
      replaceOperators_cons _ _ (by decide)]
theorem replace_serialize_list : ∀ (xs : JList) (rest : List Char), nextIsWord rest = false →
    replaceOperators (xs.serialize quote ++ rest)
      = xs.serialize quoteReplaced ++ replaceOperators rest
  | .nil, rest, _ => by simp [JList.serialize]
  | .cons v .nil, rest, h => by
    simp only [JList.serialize]
    exact replace_serialize_val v rest h
  | .cons v (.cons w more), rest, h => by
    simp only [JList.serialize, List.cons_append, List.append_assoc]
    rw [replace_serialize_val v _ (nextIsWord_sep _ _ (by decide)), replaceOperators_cons _ _ (by decide),
      replace_serialize_list (.cons w more) rest h]
theorem replace_serialize_members : ∀ (ms : JMembers) (rest : List Char),
    nextIsWord rest = false →
    replaceOperators (ms.serialize quote ++ rest)
      = ms.serialize quoteReplaced ++ replaceOperators rest
  | .nil, rest, _ => by simp [JMembers.serialize]
  | .cons k v .nil, rest, h => by
    simp only [JMembers.serialize, List.cons_append, List.append_assoc]
    rw [replaceOperators_quote, replaceOperators_cons _ _ (by decide),
      replace_serialize_val v rest h]
  | .cons k v (.cons k2 v2 more), rest, h => by
    simp only [JMembers.serialize, List.cons_append, List.append_assoc]
    rw [replaceOperators_quote, replaceOperators_cons _ _ (by decide),
      replace_serialize_val v _ (nextIsWord_sep _ _ (by decide)), replaceOperators_cons _ _ (by decide),
      replace_serialize_members (.cons k2 v2 more) rest h]
end

theorem matchWord_head (w : List Char) (c : Char) (cs : List Char) (hw : w ≠ [])
    (h : matchWord w (c :: cs) = true) : w.head? = some c := by
  cases w with
  | nil => exact absurd rfl hw
  | cons x xs =>
    simp only [matchWord, Bool.and_eq_true, beq_iff_eq] at h
    simp [h.1]

theorem matchOperator_start (p : Bool) (c : Char) (cs : List Char) (len : Nat)
    (h : matchOperator p (c :: cs) = some len) : isOperatorStart c = true := by
  unfold matchOperator at h
  split at h
  · cases hf : operatorWords.find? (fun w => matchWord w (c :: cs)) with
    | none => simp [hf] at h
    | some w =>
      have hmem := List.mem_of_find?_eq_some hf
      have hm := List.find?_some hf
      have hne : ∀ w ∈ operatorWords, w ≠ [] := by decide
      have hhead := matchWord_head w c cs (hne w hmem) hm
      have hall : ∀ w ∈ operatorWords, ∀ c, w.head? = some c → isOperatorStart c = true := by
        decide
      exact hall w hmem c hhead
  · simp at h

theorem inserted_replaceFrom (x : List Char) : ∀ (p : Bool) (k : Nat),
    Inserted x (replaceFrom p k x) := by
  induction x with
  | nil => intro p k; cases k <;> exact Inserted.nil
  | cons c cs ih =>
    intro p k
    cases k with
    | succ k => exact Inserted.keep c (ih _ _)
    | zero =>
      simp only [replaceFrom]
      cases hm : matchOperator p (c :: cs) with
      | none => exact Inserted.keep c (ih _ _)
      | some len => exact Inserted.mark c (matchOperator_start p c cs len hm) (ih _ _)

theorem inserted_append_inv (a b y : List Char) (h : Inserted (a ++ b) y) :
    ∃ a2 b2, y = a2 ++ b2 ∧ Inserted a a2 ∧ Inserted b b2 := by
  induction a generalizing y with
  | nil => exact ⟨[], y, rfl, Inserted.nil, h⟩
  | cons c cs ih =>
    rw [List.cons_append] at h
    cases h with
    | keep _ h2 =>
      obtain ⟨a2, b2, hy, ha, hb⟩ := ih _ h2
      exact ⟨c :: a2, b2, by rw [hy]; rfl, Inserted.keep c ha, hb⟩
    | mark _ hc h2 =>
      obtain ⟨a2, b2, hy, ha, hb⟩ := ih _ h2
      exact ⟨'$' :: c :: a2, b2, by rw [hy]; rfl, Inserted.mark c hc ha, hb⟩

theorem inserted_eq_of_no_start (x y : List Char) (h : Inserted x y)
    (hx : ∀ c ∈ x, isOperatorStart c = false) : y = x := by
  induction h with
  | nil => rfl
  | keep c _ ih => rw [ih (fun d hd => hx d (by simp [hd]))]
  | mark c hc _ _ =>
    have := hx c (by simp)
    rw [this] at hc
    exact absurd hc Bool.false_ne_true

theorem char_eq_ofNat (c : Char) (n : Nat) (h : c.toNat = n) : c = Char.ofNat n := by
  rw [← h, Char.ofNat_toNat]

theorem hexDigitChar_not_start : ∀ d : Fin 16, isOperatorStart (hexDigitChar d) = false := by
  decide

theorem decodeHex4_control : ∀ n : Fin 32,
    decodeHex4 '0' '0' (hexDigitChar (Fin.ofNat (n.val / 16)))
      (hexDigitChar (Fin.ofNat (n.val % 16))) = some (Char.ofNat n.val) := by
  decide

theorem parse_plain (c : Char) (rest acc : List Char) (h1 : c ≠ '"') (h2 : c ≠ '\\')
    (h3 : ¬ c.toNat < 32) :
    parseStringBody (c :: rest) acc = parseStringBody rest (c :: acc) := by
  rw [parseStringBody.eq_def]
  simp [h1, h2, h3]

theorem parse_quote (rest acc : List Char) :
    parseStringBody ('"' :: rest) acc = some (acc.reverse, rest) := by
  rw [parseStringBody.eq_def]
  simp

theorem parse_simple (e ch : Char) (rest acc : List Char) (hu : e ≠ 'u')
    (he : unescapeChar e = some ch) :
    parseStringBody ('\\' :: e :: rest) acc = parseStringBody rest (ch :: acc) := by
  rw [parseStringBody.eq_def]
  simp [hu, he]

theorem parse_unicode (h1 h2 h3 h4 ch : Char) (rest acc : List Char)
    (hd : decodeHex4 h1 h2 h3 h4 = some ch) :
    parseStringBody ('\\' :: 'u' :: h1 :: h2 :: h3 :: h4 :: rest) acc
      = parseStringBody rest (ch :: acc) := by
  rw [parseStringBody.eq_def]
  simp [hd]

theorem parse_escapeChar (c : Char) (e : List Char) (h : Inserted (escapeChar c) e) :
    (∀ rest acc, parseStringBody (e ++ rest) acc = parseStringBody rest (c :: acc))
    ∨ (isOperatorStart c = true
        ∧ ∀ rest acc, parseStringBody (e ++ rest) acc = parseStringBody rest (c :: '$' :: acc)) := by
  unfold escapeChar at h
  split at h
  · next hc =>
    left
    rw [inserted_eq_of_no_start _ _ h (by decide), hc]
    intro rest acc
    exact parse_simple _ _ rest acc (by decide) (by decide)
  split at h
  · next hc =>
    left
    rw [inserted_eq_of_no_start _ _ h (by decide), hc]
    intro rest acc
    exact parse_simple _ _ rest acc (by decide) (by decide)
  split at h
  · next hc =>
    left
    rw [inserted_eq_of_no_start _ _ h (by decide), char_eq_ofNat c 8 hc]
    intro rest acc
    exact parse_simple _ _ rest acc (by decide) (by decide)
  split at h
  · next hc =>
    left
    rw [inserted_eq_of_no_start _ _ h (by decide), char_eq_ofNat c 9 hc]
    intro rest acc
    exact parse_simple _ _ rest acc (by decide) (by decide)
  split at h
  · next hc =>
    left
    rw [inserted_eq_of_no_start _ _ h (by decide), char_eq_ofNat c 10 hc]
    intro rest acc
    exact parse_simple _ _ rest acc (by decide) (by decide)
  split at h
  · next hc =>
    left
    rw [inserted_eq_of_no_start _ _ h (by decide), char_eq_ofNat c 12 hc]
    intro rest acc
    exact parse_simple _ _ rest acc (by decide) (by decide)
  split at h
  · next hc =>
    left
    rw [inserted_eq_of_no_start _ _ h (by decide), char_eq_ofNat c 13 hc]
    intro rest acc
    exact parse_simple _ _ rest acc (by decide) (by decide)
  split at h
  · next hc =>
    left
    have hno : ∀ x ∈ ['\\', 'u', '0', '0', hexDigitChar (Fin.ofNat (c.toNat / 16)),
        hexDigitChar (Fin.ofNat (c.toNat % 16))], isOperatorStart x = false := by
      intro x hx
      simp only [List.mem_cons, List.mem_singleton, List.not_mem_nil, or_false] at hx
      rcases hx with h | h | h | h | h | h <;> rw [h]
      · decide
      · decide
      · decide
      · decide
      · exact hexDigitChar_not_start _
      · exact hexDigitChar_not_start _
    rw [inserted_eq_of_no_start _ _ h hno]
    intro rest acc
    have hd := decodeHex4_control ⟨c.toNat, hc⟩
    simp only at hd
    rw [Char.ofNat_toNat] at hd
    exact parse_unicode _ _ _ _ c rest acc hd
  · next h1 h2 h3 h4 h5 h6 h7 h8 =>
    cases h with
    | keep _ hrest =>
      cases hrest
      left
      intro rest acc
      exact parse_plain c rest acc h1 h2 h8
    | mark _ hstart hrest =>
      cases hrest
      right
      refine ⟨hstart, ?_⟩
      intro rest acc
      show parseStringBody ('$' :: c :: rest) acc = _
      rw [parse_plain '$' _ _ (by decide) (by decide) (by decide),
        parse_plain c rest _ h1 h2 h8]

theorem parse_inserted (s : List Char) : ∀ (x : List Char), Inserted (escapeString s) x →
    ∃ r, Inserted s r ∧ ∀ rest acc,
      parseStringBody (x ++ '"' :: rest) acc = some (acc.reverse ++ r, rest) := by
  induction s with
  | nil =>
    intro x hx
    cases hx
    exact ⟨[], Inserted.nil, by intro rest acc; simp [parse_quote]⟩
  | cons c cs ih =>
    intro x hx
    simp only [escapeString] at hx
    obtain ⟨e, x2, hxe, he, hx2⟩ := inserted_append_inv _ _ _ hx
    obtain ⟨r, hr, hparse⟩ := ih x2 hx2
    rcases parse_escapeChar c e he with h | ⟨hstart, h⟩
    · refine ⟨c :: r, Inserted.keep c hr, ?_⟩
      intro rest acc
      rw [hxe, List.append_assoc, h, hparse]
      simp
    · refine ⟨'$' :: c :: r, Inserted.mark c hstart hr, ?_⟩
      intro rest acc
      rw [hxe, List.append_assoc, h, hparse]
      simp

theorem parse_replaced (s : List Char) :
    Inserted s (rewriteString s) ∧ ∀ rest acc,
      parseStringBody (replaceOperators (escapeString s) ++ '"' :: rest) acc
        = some (acc.reverse ++ rewriteString s, rest) := by
  obtain ⟨r, hr, hparse⟩ := parse_inserted s _ (inserted_replaceFrom (escapeString s) false 0)
  have hrw : rewriteString s = r := by
    have h := hparse [] []
    simp only [List.reverse_nil, List.nil_append] at h
    unfold rewriteString
    rw [show replaceOperators (escapeString s) ++ ['"']
      = replaceFrom false 0 (escapeString s) ++ ['"'] from rfl, h]
  rw [hrw]
  exact ⟨hr, hparse⟩

theorem skipWhitespace_cons (c : Char) (cs : List Char) (h : isJsonWhitespace c = false) :
    skipWhitespace (c :: cs) = c :: cs := by
  simp [skipWhitespace, h]

theorem valueStart_cases (c : Char) (h : isValueStart c = true) :
    c = '"' ∨ c = '[' ∨ c = '{' ∨ c = 't' ∨ c = 'f' := by
  simpa [isValueStart, or_assoc] using h

theorem valueStart_not_whitespace (c : Char) (h : isValueStart c = true) :
    isJsonWhitespace c = false := by
  rcases valueStart_cases c h with h | h | h | h | h <;> rw [h] <;> decide

theorem valueStart_not_close (c : Char) (h : isValueStart c = true) :
    c ≠ ']' ∧ c ≠ '}' := by
  rcases valueStart_cases c h with h | h | h | h | h <;> rw [h] <;> decide

theorem serialize_head (v : JVal) (rest : List Char) :
    ∃ c tail, v.serialize quoteReplaced ++ rest = c :: tail ∧ isValueStart c = true := by
  cases v with
  | str s =>
    simp only [JVal.serialize, quoteReplaced, List.cons_append]
    exact ⟨_, _, rfl, by decide⟩
  | bool b =>
    cases b
    · simp only [JVal.serialize, List.cons_append]
      exact ⟨_, _, rfl, by decide⟩
    · simp only [JVal.serialize, List.cons_append]
      exact ⟨_, _, rfl, by decide⟩
  | arr xs =>
    simp only [JVal.serialize, List.cons_append]
    exact ⟨_, _, rfl, by decide⟩
  | obj ms =>
    simp only [JVal.serialize, List.cons_append]
    exact ⟨_, _, rfl, by decide⟩

theorem serialize_list_head (v : JVal) (xs : JList) (rest : List Char) :
    ∃ c tail, (JList.cons v xs).serialize quoteReplaced ++ rest = c :: tail
      ∧ isValueStart c = true := by
  cases xs with
  | nil =>
    simp only [JList.serialize]
    exact serialize_head v rest
  | cons w more =>
    simp only [JList.serialize, List.append_assoc]
    exact serialize_head v _

theorem serialize_members_head (k : List Char) (v : JVal) (ms : JMembers) (rest : List Char) :
    ∃ tail, (JMembers.cons k v ms).serialize quoteReplaced ++ rest = '"' :: tail := by
  cases ms with
  | nil =>
    simp only [JMembers.serialize, quoteReplaced, List.cons_append]
    exact ⟨_, rfl⟩
  | cons k2 v2 more =>
    simp only [JMembers.serialize, quoteReplaced, List.cons_append]
    exact ⟨_, rfl⟩

theorem parse_quoteReplaced (s rest : List Char) :
    parseStringBody (replaceOperators (escapeString s) ++ '"' :: rest) []
      = some (rewriteString s, rest) := by
  have h := (parse_replaced s).2 rest []
  simpa using h

theorem parseValue_cons (fuel : Nat) (c : Char) (rest : List Char)
    (h : isJsonWhitespace c = false) :
    parseValue (fuel + 1) (c :: rest) =
      if c = '"' then
        match parseStringBody rest [] with
        | some (s, rest2) => some (.str s, rest2)
        | none => none
      else if c = '[' then
        if (skipWhitespace rest).head? = some ']' then
          some (.arr .nil, (skipWhitespace rest).tail)
        else
          match parseElements fuel rest with
          | some (xs, rest2) => some (.arr xs, rest2)
          | none => none
      else if c = '{' then
        if (skipWhitespace rest).head? = some '}' then
          some (.obj .nil, (skipWhitespace rest).tail)
        else
          match parseMembers fuel rest with
          | some (ms, rest2) => some (.obj (JMembers.assign .nil ms), rest2)
          | none => none
      else if ['t', 'r', 'u', 'e'].isPrefixOf (c :: rest) then some (.bool true, rest.drop 3)
      else if ['f', 'a', 'l', 's', 'e'].isPrefixOf (c :: rest) then
        some (.bool false, rest.drop 4)
      else none := by
  rw [parseValue, skipWhitespace_cons c rest h]

theorem parseElements_succ (fuel : Nat) (cs : List Char) :
    parseElements (fuel + 1) cs =
      match parseValue fuel cs with
      | none => none
      | some (v, rest) =>
        match skipWhitespace rest with
        | [] => none
        | c :: rest2 =>
          if c = ',' then
            match parseElements fuel rest2 with
            | some (xs, rest3) => some (.cons v xs, rest3)
            | none => none
          else if c = ']' then some (.cons v .nil, rest2)
          else none := by
  rw [parseElements]

theorem parseMembers_quote (fuel : Nat) (rest : List Char) :
    parseMembers (fuel + 1) ('"' :: rest) =
      match parseStringBody rest [] with
      | none => none
      | some (k, rest2) =>
        match skipWhitespace rest2 with
        | [] => none
        | colon :: rest3 =>
          if colon = ':' then
            match parseValue fuel rest3 with
            | none => none
            | some (v, rest4) =>
              match skipWhitespace rest4 with
              | [] => none
              | c :: rest5 =>
                if c = ',' then
                  match parseMembers fuel rest5 with
                  | some (ms, rest6) => some (.cons k v ms, rest6)
                  | none => none
                else if c = '}' then some (.cons k v .nil, rest5)
                else none
          else none := by
  rw [parseMembers, skipWhitespace_cons _ _ (by decide)]
  simp

mutual
theorem parse_serialize_val : ∀ (v : JVal) (fuel : Nat) (rest : List Char), v.cost ≤ fuel →
    parseValue fuel (v.serialize quoteReplaced ++ rest) = some (v.rewrite, rest)
  | .str s, fuel, rest, h => by
    cases fuel with
    | zero => simp [JVal.cost] at h
    | succ fuel =>
      simp only [JVal.serialize, quoteReplaced, List.cons_append, List.append_assoc,
        List.singleton_append]
      rw [parseValue_cons _ _ _ (by decide)]
      simp [parse_quoteReplaced, JVal.rewrite]
  | .bool true, fuel, rest, h => by
    cases fuel with
    | zero => simp [JVal.cost] at h
    | succ fuel =>
      simp only [JVal.serialize, List.cons_append, List.nil_append]
      rw [parseValue_cons _ _ _ (by decide)]
      simp [JVal.rewrite, List.isPrefixOf]
  | .bool false, fuel, rest, h => by
    cases fuel with
    | zero => simp [JVal.cost] at h
    | succ fuel =>
      simp only [JVal.serialize, List.cons_append, List.nil_append]
      rw [parseValue_cons _ _ _ (by decide)]
      simp [JVal.rewrite, List.isPrefixOf]
  | .arr .nil, fuel, rest, h => by
    cases fuel with
    | zero => simp [JVal.cost] at h
    | succ fuel =>
      simp only [JVal.serialize, JList.serialize, List.cons_append, List.nil_append]
      rw [parseValue_cons _ _ _ (by decide), skipWhitespace_cons _ _ (by decide)]
      simp [JVal.rewrite, JList.rewrite]
  | .arr (.cons v xs), fuel, rest, h => by
    cases fuel with
    | zero => simp [JVal.cost] at h
    | succ fuel =>
      have hcost : (JList.cons v xs).cost ≤ fuel := by
        simp only [JVal.cost] at h
        omega
      have hp := parse_serialize_list (.cons v xs) fuel rest hcost
      obtain ⟨c, tail, htext, hc⟩ := serialize_list_head v xs (']' :: rest)
      simp only [JVal.serialize, List.cons_append, List.append_assoc, List.singleton_append]
      rw [parseValue_cons _ _ _ (by decide)]
      have hne : (skipWhitespace (JList.serialize quoteReplaced (JList.cons v xs)
          ++ ']' :: rest)).head? ≠ some ']' := by
        rw [htext, skipWhitespace_cons _ _ (valueStart_not_whitespace c hc)]
        simpa using (valueStart_not_close c hc).1
      simp [hne, hp, JVal.rewrite]
  | .obj .nil, fuel, rest, h => by
    cases fuel with
    | zero => simp [JVal.cost] at h
    | succ fuel =>
      simp only [JVal.serialize, JMembers.serialize, List.cons_append, List.nil_append]
      rw [parseValue_cons _ _ _ (by decide), skipWhitespace_cons _ _ (by decide)]
      simp [JVal.rewrite, JMembers.rewrite, JMembers.assign]
  | .obj (.cons k v ms), fuel, rest, h => by
    cases fuel with
    | zero => simp [JVal.cost] at h
    | succ fuel =>
      have hcost : (JMembers.cons k v ms).cost ≤ fuel := by
        simp only [JVal.cost] at h
        omega
      have hp := parse_serialize_members (.cons k v ms) fuel rest hcost
      obtain ⟨tail, htext⟩ := serialize_members_head k v ms ('}' :: rest)
      simp only [JVal.serialize, List.cons_append, List.append_assoc, List.singleton_append]
      rw [parseValue_cons _ _ _ (by decide)]
      have hne : (skipWhitespace (JMembers.serialize quoteReplaced (JMembers.cons k v ms)
          ++ '}' :: rest)).head? ≠ some '}' := by
        rw [htext, skipWhitespace_cons _ _ (by decide)]
        simp
      simp [hne, hp, JVal.rewrite]
theorem parse_serialize_list : ∀ (xs : JList) (fuel : Nat) (rest : List Char), xs.cost ≤ fuel →
    xs ≠ .nil →
    parseElements fuel (xs.serialize quoteReplaced ++ ']' :: rest) = some (xs.rewrite, rest)
  | .nil, _, _, _, hne => absurd rfl hne
  | .cons v .nil, fuel, rest, h, _ => by
    cases fuel with
    | zero => simp [JList.cost] at h
    | succ fuel =>
      have hv := parse_serialize_val v fuel (']' :: rest) (by simp only [JList.cost] at h; omega)
      simp only [JList.serialize]
      rw [parseElements_succ, hv]
      simp [skipWhitespace_cons, isJsonWhitespace, JList.rewrite]
  | .cons v (.cons w more), fuel, rest, h, _ => by
    cases fuel with
    | zero => simp [JList.cost] at h
    | succ fuel =>
      have hv := parse_serialize_val v fuel
        (',' :: ((JList.cons w more).serialize quoteReplaced ++ ']' :: rest))
        (by simp only [JList.cost] at h; omega)
      have hrest := parse_serialize_list (.cons w more) fuel rest
        (by simp only [JList.cost] at h ⊢; omega) (by simp)
      simp only [JList.serialize, List.append_assoc, List.cons_append]
      rw [parseElements_succ, hv]
      simp [skipWhitespace_cons, isJsonWhitespace, hrest, JList.rewrite]
theorem parse_serialize_members : ∀ (ms : JMembers) (fuel : Nat) (rest : List Char),
    ms.cost ≤ fuel → ms ≠ .nil →
    parseMembers fuel (ms.serialize quoteReplaced ++ '}' :: rest) = some (ms.rewrite, rest)
  | .nil, _, _, _, hne => absurd rfl hne
  | .cons k v .nil, fuel, rest, h, _ => by
    cases fuel with
    | zero => simp [JMembers.cost] at h
    | succ fuel =>
      have hv := parse_serialize_val v fuel ('}' :: rest)
        (by simp only [JMembers.cost] at h; omega)
      simp only [JMembers.serialize, quoteReplaced, List.append_assoc, List.cons_append,
        List.singleton_append, List.nil_append]
      rw [parseMembers_quote, parse_quoteReplaced]
      simp [skipWhitespace_cons, isJsonWhitespace, hv, JMembers.rewrite]
  | .cons k v (.cons k2 v2 more), fuel, rest, h, _ => by
    cases fuel with
    | zero => simp [JMembers.cost] at h
    | succ fuel =>
      have hv := parse_serialize_val v fuel
        (',' :: ((JMembers.cons k2 v2 more).serialize quoteReplaced ++ '}' :: rest))
        (by simp only [JMembers.cost] at h; omega)
      have hrest := parse_serialize_members (.cons k2 v2 more) fuel rest
        (by simp only [JMembers.cost] at h ⊢; omega) (by simp)
      simp only [JMembers.serialize, quoteReplaced, List.append_assoc, List.cons_append,
        List.singleton_append, List.nil_append]
      rw [parseMembers_quote, parse_quoteReplaced]
      simp [skipWhitespace_cons, isJsonWhitespace, hv, hrest, JMembers.rewrite]
end

mutual
theorem cost_le_val : ∀ (v : JVal), v.cost ≤ (v.serialize quoteReplaced).length
  | .str s => by simp [JVal.cost, JVal.serialize, quoteReplaced]
  | .bool true => by simp [JVal.cost, JVal.serialize]
  | .bool false => by simp [JVal.cost, JVal.serialize]
  | .arr xs => by
    have h := cost_le_list xs
    simp only [JVal.cost, JVal.serialize, List.length_cons, List.length_append,
      List.length_nil]
    omega
  | .obj ms => by
    have h := cost_le_members ms
    simp only [JVal.cost, JVal.serialize, List.length_cons, List.length_append,
      List.length_nil]
    omega
theorem cost_le_list : ∀ (xs : JList), xs.cost ≤ (xs.serialize quoteReplaced).length + 1
  | .nil => by simp [JList.cost]
  | .cons v .nil => by
    have h := cost_le_val v
    simp only [JList.cost, JList.serialize]
    omega
  | .cons v (.cons w more) => by
    have h := cost_le_val v
    have h2 := cost_le_list (.cons w more)
    simp only [JList.cost, JList.serialize, List.length_cons, List.length_append] at h2 ⊢
    omega
theorem cost_le_members : ∀ (ms : JMembers),
    ms.cost ≤ (ms.serialize quoteReplaced).length + 1
  | .nil => by simp [JMembers.cost]
  | .cons k v .nil => by
    have h := cost_le_val v
    simp only [JMembers.cost, JMembers.serialize, List.length_cons, List.length_append]
    omega
  | .cons k v (.cons k2 v2 more) => by
    have h := cost_le_val v
    have h2 := cost_le_members (.cons k2 v2 more)
    simp only [JMembers.cost, JMembers.serialize, List.length_cons,
      List.length_append] at h2 ⊢
    omega
end

/-- The text a handler parses is the JSON text of the value with every string replaced. -/
theorem replace_stringify (v : JVal) :
    replaceOperators v.stringify = v.serialize quoteReplaced := by
  have h := replace_serialize_val v [] rfl
  simpa [JVal.stringify, replaceOperators, replaceFrom] using h

/-- The pipeline `JSON.parse(JSON.stringify(v).replace(...))` never throws, and yields the
rewritten value. -/
theorem jsonParse_replace (v : JVal) :
    jsonParse (replaceOperators v.stringify) = some v.rewrite := by
  rw [replace_stringify]
  have hc := cost_le_val v
  have hp := parse_serialize_val v ((v.serialize quoteReplaced).length + 1) [] (by omega)
  rw [List.append_nil] at hp
  simp [jsonParse, hp, skipWhitespace]

/-- The filter of a list handler always exists. -/
theorem buildFilter_eq (r : Resource) (query : JMembers) (user : ObjectId) :
    buildFilter r query user
      = some (.obj (JMembers.assign .nil (queryObj r query user).rewrite)) := by
  simp [buildFilter, queryStr, jsonParse_replace, JVal.rewrite]

/-! ## Objects -/

theorem lookup_set_self (k : List Char) (v : JVal) :
    ∀ (m : JMembers), (m.set k v).lookup k = some v
  | .nil => by simp [JMembers.set, JMembers.lookup]
  | .cons k2 v2 rest => by
    have ih := lookup_set_self k v rest
    by_cases h : k2 = k
    · simp [JMembers.set, JMembers.lookup, h]
    · simp [JMembers.set, JMembers.lookup, h, ih]

theorem lookup_set_ne (k k0 : List Char) (v : JVal) (h : k0 ≠ k) :
    ∀ (m : JMembers), (m.set k0 v).lookup k = m.lookup k
  | .nil => by simp [JMembers.set, JMembers.lookup, h]
  | .cons k2 v2 rest => by
    have ih := lookup_set_ne k k0 v h rest
    by_cases h2 : k2 = k0
    · subst h2
      simp [JMembers.set, JMembers.lookup, h]
    · by_cases h3 : k2 = k
      · subst h3
        simp [JMembers.set, JMembers.lookup, h2]
      · simp [JMembers.set, JMembers.lookup, h2, h3, ih]

theorem keys_set (k : List Char) (v : JVal) :
    ∀ (m : JMembers), (m.set k v).keys = if k ∈ m.keys then m.keys else m.keys ++ [k]
  | .nil => by simp [JMembers.set, JMembers.keys]
  | .cons k2 v2 rest => by
    have ih := keys_set k v rest
    by_cases h : k2 = k
    · simp [JMembers.set, JMembers.keys, h]
    · have h2 : ¬ k = k2 := fun e => h e.symm
      simp only [JMembers.set, h, if_false, JMembers.keys, ih, List.mem_cons, h2, false_or]
      split <;> simp

theorem nodup_set (k : List Char) (v : JVal) (m : JMembers) (h : m.keys.Nodup) :
    (m.set k v).keys.Nodup := by
  rw [keys_set]
  split
  · exact h
  · next hk =>
    rw [List.nodup_append]
    refine ⟨h, List.nodup_singleton k, ?_⟩
    intro a ha hb
    simp only [List.mem_singleton] at hb
    subst hb
    exact hk ha

theorem nodup_assign : ∀ (ms acc : JMembers), acc.keys.Nodup →
    (JMembers.assign acc ms).keys.Nodup
  | .nil, acc, h => by simpa [JMembers.assign] using h
  | .cons k v rest, acc, h => by
    simp only [JMembers.assign]
    exact nodup_assign rest _ (nodup_set k v acc h)

theorem keys_delete (k : List Char) :
    ∀ (m : JMembers), (m.delete k).keys = m.keys.filter (fun x => decide (x ≠ k))
  | .nil => by simp [JMembers.delete, JMembers.keys]
  | .cons k2 v2 rest => by
    have ih := keys_delete k rest
    by_cases h : k2 = k
    · simp [JMembers.delete, JMembers.keys, h, ih]
    · simp [JMembers.delete, JMembers.keys, h, ih]

theorem nodup_delete (k : List Char) (m : JMembers) (h : m.keys.Nodup) :
    (m.delete k).keys.Nodup := by
  rw [keys_delete]
  exact h.filter _

theorem lookup_eq_none (k : List Char) :
    ∀ (m : JMembers), k ∉ m.keys → m.lookup k = none
  | .nil, _ => rfl
  | .cons k2 v2 rest, h => by
    simp only [JMembers.keys, List.mem_cons, not_or] at h
    have h2 : ¬ k2 = k := fun e => h.1 e.symm
    simp [JMembers.lookup, h2, lookup_eq_none k rest h.2]

theorem last_eq_none (k : List Char) :
    ∀ (m : JMembers), k ∉ m.keys → m.last k = none
  | .nil, _ => rfl
  | .cons k2 v2 rest, h => by
    simp only [JMembers.keys, List.mem_cons, not_or] at h
    have h2 : ¬ k2 = k := fun e => h.1 e.symm
    simp [JMembers.last, h2, last_eq_none k rest h.2]

theorem last_eq_lookup (k : List Char) :
    ∀ (m : JMembers), m.keys.Nodup → m.last k = m.lookup k
  | .nil, _ => rfl
  | .cons k2 v2 rest, h => by
    simp only [JMembers.keys, List.nodup_cons] at h
    have ih := last_eq_lookup k rest h.2
    by_cases h2 : k2 = k
    · subst h2
      simp [JMembers.last, JMembers.lookup, last_eq_none k2 rest h.1]
    · simp only [JMembers.last, JMembers.lookup, h2, if_false, ih]
      cases rest.lookup k <;> rfl

theorem lookup_assign (k : List Char) : ∀ (ms acc : JMembers),
    (JMembers.assign acc ms).lookup k
      = match ms.last k with
        | some v => some v
        | none => acc.lookup k
  | .nil, acc => by simp [JMembers.assign, JMembers.last]
  | .cons k2 v2 rest, acc => by
    simp only [JMembers.assign, JMembers.last]
    rw [lookup_assign k rest]
    cases hl : rest.last k with
    | some w => rfl
    | none =>
      by_cases h2 : k2 = k
      · subst h2
        simp [lookup_set_self]
      · simp [h2, lookup_set_ne k k2 v2 h2 acc]

theorem mem_keys_of_lookup (k : List Char) (v : JVal) (m : JMembers)
    (h : m.lookup k = some v) : k ∈ m.keys := by
  by_contra hk
  rw [lookup_eq_none k m hk] at h
  exact Option.noConfusion h

theorem lookup_delete_self (k : List Char) (m : JMembers) : (m.delete k).lookup k = none := by
  apply lookup_eq_none
  rw [keys_delete]
  simp

theorem lookup_delete_ne (k k0 : List Char) (h : k0 ≠ k) :
    ∀ (m : JMembers), (m.delete k0).lookup k = m.lookup k
  | .nil => rfl
  | .cons k2 v2 rest => by
    have ih := lookup_delete_ne k k0 h rest
    by_cases h2 : k2 = k0
    · subst h2
      simp [JMembers.delete, JMembers.lookup, h, ih]
    · by_cases h3 : k2 = k
      · subst h3
        simp [JMembers.delete, JMembers.lookup, h2]
      · simp [JMembers.delete, JMembers.lookup, h2, h3, ih]

/-! ## The filter of the list handlers -/

theorem rewriteString_inserted (s : List Char) : Inserted s (rewriteString s) :=
  (parse_replaced s).1

theorem inserted_no_dollar (x y : List Char) (h : Inserted x y) (hy : '$' ∉ y) : x = y := by
  induction h with
  | nil => rfl
  | keep c _ ih =>
    rw [ih (fun hm => hy (List.mem_cons_of_mem _ hm))]
  | mark c _ _ _ => exact absurd (List.mem_cons_self _ _) hy

theorem rewriteString_eq_of_no_start (s : List Char)
    (h : ∀ c ∈ s, isOperatorStart c = false) : rewriteString s = s :=
  inserted_eq_of_no_start s _ (rewriteString_inserted s) h

theorem rewriteString_eq_iff (k0 : List Char) (h0 : '$' ∉ k0) (hfix : rewriteString k0 = k0)
    (k : List Char) : rewriteString k = k0 ↔ k = k0 := by
  constructor
  · intro h
    have hi := rewriteString_inserted k
    rw [h] at hi
    exact inserted_no_dollar k k0 hi h0
  · intro h
    rw [h, hfix]

theorem last_rewrite (k0 : List Char) (hiff : ∀ k, rewriteString k = k0 ↔ k = k0) :
    ∀ (ms : JMembers), ms.rewrite.last k0 = (ms.last k0).map JVal.rewrite
  | .nil => rfl
  | .cons k v rest => by
    simp only [JMembers.rewrite, JMembers.last, last_rewrite k0 hiff rest]
    cases rest.last k0 with
    | some w => rfl
    | none =>
      by_cases h : k = k0
      · simp [h, (hiff k0).2 rfl]
      · have h2 : ¬ rewriteString k = k0 := fun e => h ((hiff k).1 e)
        simp [h, h2]

theorem hexDigitValue_hexDigitChar :
    ∀ d : Fin 16, hexDigitValue (hexDigitChar d) = some d := by
  decide

theorem hexDigits_map (ds : List (Fin 16)) : hexDigits (ds.map hexDigitChar) = some ds := by
  induction ds with
  | nil => rfl
  | cons d ds ih => simp [hexDigits, hexDigitValue_hexDigitChar, ih]

/-- The string of an ObjectId casts back to it. -/
theorem castObjectId_toString (o : ObjectId) : castObjectId o.toString = some o := by
  cases o with
  | mk ds h =>
    simp only [castObjectId, ObjectId.toString, hexDigits_map]
    simp [h]

/-- The replacement leaves the string of an ObjectId as it is. -/
theorem rewriteString_toString (o : ObjectId) : rewriteString o.toString = o.toString := by
  apply rewriteString_eq_of_no_start
  intro c hc
  simp only [ObjectId.toString, List.mem_map] at hc
  obtain ⟨d, _, hd⟩ := hc
  rw [← hd]
  exact hexDigitChar_not_start d

theorem nodup_deleteExcluded (m : JMembers) (h : m.keys.Nodup) :
    (deleteExcluded m).keys.Nodup := by
  simp only [deleteExcluded, excludeFields, List.foldl]
  exact nodup_delete _ _ (nodup_delete _ _ (nodup_delete _ _ (nodup_delete _ _ h)))

theorem nodup_queryObj (r : Resource) (query : JMembers) (user : ObjectId) :
    (queryObj r query user).keys.Nodup := by
  have h : (deleteExcluded (JMembers.assign .nil query)).keys.Nodup :=
    nodup_deleteExcluded _ (nodup_assign query .nil (by simp [JMembers.keys]))
  cases r <;> exact nodup_set _ _ _ h

/-- The value the filter holds under a key that the replacement neither changes nor
produces: the rewritten value of the same key of `queryObj`. -/
theorem filter_lookup (r : Resource) (query : JMembers) (user : ObjectId) (k0 : List Char)
    (hiff : ∀ k, rewriteString k = k0 ↔ k = k0) :
    (JMembers.assign .nil (queryObj r query user).rewrite).lookup k0
      = ((queryObj r query user).lookup k0).map JVal.rewrite := by
  rw [lookup_assign, last_rewrite k0 hiff, last_eq_lookup k0 _ (nodup_queryObj r query user)]
  cases (queryObj r query user).lookup k0 <;> rfl

theorem user_key_iff (k : List Char) : rewriteString k = "user".toList ↔ k = "user".toList :=
  rewriteString_eq_iff _ (by decide) (by rfl) k

theorem matchesAll_user {α : Type} (paths : Paths α) (coll : Collection α) (d : α)
    (id : ObjectId) : ∀ (f : JMembers),
    f.lookup "user".toList = some (.str id.toString) → matchesAll paths coll d f = true →
    paths.owner d = some id
  | .nil, h, _ => by simp [JMembers.lookup] at h
  | .cons k v rest, h, hm => by
    simp only [matchesAll, Bool.and_eq_true] at hm
    by_cases hk : k = "user".toList
    · subst hk
      simp only [JMembers.lookup, if_true, Option.some.injEq] at h
      subst h
      have h1 := hm.1
      simp only [clauseHolds] at h1
      simpa [castObjectId_toString] using h1
    · simp only [JMembers.lookup, hk, if_false] at h
      exact matchesAll_user paths coll d id rest h hm.2

/-- C3. For every query object, whatever keys it supplies, and every caller, the filter
that `getWorkouts` and `getProgressEntries` build exists and holds the clause `user` equal
to the string of the caller's id, and every document the database selects with it is owned
by the caller. -/
theorem owner_clause_in_filter (query : JMembers) (user : ObjectId) :
    (∃ f, buildFilter .workouts query user = some (.obj f)
        ∧ f.lookup "user".toList = some (.str user.toString)
        ∧ ∀ (coll : Collection Workout) (d : Workout),
            d ∈ findMatching workoutPaths coll (.obj f) → d.user = user)
      ∧ (∃ f, buildFilter .progress query user = some (.obj f)
        ∧ f.lookup "user".toList = some (.str user.toString)
        ∧ ∀ (coll : Collection Progress) (d : Progress),
            d ∈ findMatching progressPaths coll (.obj f) → d.user = user) := by
  have hw : (JMembers.assign .nil (queryObj .workouts query user).rewrite).lookup "user".toList
      = some (.str user.toString) := by
    rw [filter_lookup _ _ _ _ user_key_iff]
    simp [queryObj, lookup_set_self, JVal.rewrite, rewriteString_toString]
  have hp : (JMembers.assign .nil (queryObj .progress query user).rewrite).lookup "user".toList
      = some (.str user.toString) := by
    rw [filter_lookup _ _ _ _ user_key_iff]
    simp [queryObj, lookup_set_self, JVal.rewrite, rewriteString_toString]
  refine ⟨⟨_, buildFilter_eq _ _ _, hw, ?_⟩, ⟨_, buildFilter_eq _ _ _, hp, ?_⟩⟩
  · intro coll d hd
    simp only [findMatching, List.mem_filter, matchesFilter] at hd
    have h := matchesAll_user workoutPaths coll d user _ hw hd.2
    simpa [workoutPaths] using h
  · intro coll d hd
    simp only [findMatching, List.mem_filter, matchesFilter] at hd
    have h := matchesAll_user progressPaths coll d user _ hp hd.2
    simpa [progressPaths] using h

theorem or_key_iff (k : List Char) : rewriteString k = "$or".toList ↔ k = "$or".toList := by
  constructor
  · intro h
    have hi := rewriteString_inserted k
    rw [h] at hi
    cases hi with
    | keep _ h2 => rw [inserted_no_dollar _ _ h2 (by decide)]; rfl
    | mark _ hc _ => exact absurd hc (by decide)
  · intro h
    rw [h]
    rfl

theorem rewrite_visibleClause (user : ObjectId) :
    (visibleClause user.toString).rewrite = visibleClause user.toString := by
  have h1 : rewriteString "user".toList = "user".toList := by rfl
  have h2 : rewriteString "isCustom".toList = "isCustom".toList := by rfl
  simp only [visibleClause, JVal.rewrite, JList.rewrite, JMembers.rewrite, JMembers.assign,
    JMembers.set, rewriteString_toString, h1, h2]

theorem matchesAll_or {α : Type} (paths : Paths α) (coll : Collection α) (d : α)
    (id : ObjectId) : ∀ (f : JMembers),
    f.lookup "$or".toList = some (visibleClause id.toString) →
    matchesAll paths coll d f = true →
    paths.owner d = some id ∨ paths.isCustom d = some false
  | .nil, h, _ => by simp [JMembers.lookup] at h
  | .cons k v rest, h, hm => by
    simp only [matchesAll, Bool.and_eq_true] at hm
    by_cases hk : k = "$or".toList
    · subst hk
      simp only [JMembers.lookup, if_true, Option.some.injEq] at h
      subst h
      have h1 := hm.1
      simp only [clauseHolds, if_true, matchesOr, visibleClause, matchesAny, matchesFilter,
        matchesAll, Bool.and_true, Bool.or_false, Bool.or_eq_true] at h1
      rcases h1 with h1 | h1
      · left
        simpa [castObjectId_toString] using h1
      · right
        simpa using h1
    · simp only [JMembers.lookup, hk, if_false] at h
      exact matchesAll_or paths coll d id rest h hm.2

/-- C4. For every query object, whatever keys it supplies, and every caller, the filter
that `getExercises` builds exists and holds the clause `$or` with the two filter documents
`{user: caller id}` and `{isCustom: false}`, and every exercise the database selects with it
is owned by the caller or public. -/
theorem visible_clause_in_filter (query : JMembers) (user : ObjectId) :
    ∃ f, buildFilter .exercises query user = some (.obj f)
      ∧ f.lookup "$or".toList = some (visibleClause user.toString)
      ∧ ∀ (coll : Collection Exercise) (d : Exercise),
          d ∈ findMatching exercisePaths coll (.obj f) →
          d.user = some user ∨ d.isCustom = false := by
  have hf : (JMembers.assign .nil (queryObj .exercises query user).rewrite).lookup "$or".toList
      = some (visibleClause user.toString) := by
    rw [filter_lookup _ _ _ _ or_key_iff]
    simp [queryObj, lookup_set_self, rewrite_visibleClause]
  refine ⟨_, buildFilter_eq _ _ _, hf, ?_⟩
  intro coll d hd
  simp only [findMatching, List.mem_filter, matchesFilter] at hd
  have h := matchesAll_or exercisePaths coll d user _ hf hd.2
  simpa [exercisePaths] using h

/-! ## Values without operator words -/

theorem inserted_refl : ∀ (x : List Char), Inserted x x
  | [] => Inserted.nil
  | c :: cs => Inserted.keep c (inserted_refl cs)

theorem parse_escapeChar_self (c : Char) (rest acc : List Char) :
    parseStringBody (escapeChar c ++ rest) acc = parseStringBody rest (c :: acc) := by
  unfold escapeChar
  split
  · next hc => rw [hc]; exact parse_simple _ _ rest acc (by decide) (by decide)
  split
  · next hc => rw [hc]; exact parse_simple _ _ rest acc (by decide) (by decide)
  split
  · next hc =>
    rw [char_eq_ofNat c 8 hc]; exact parse_simple _ _ rest acc (by decide) (by decide)
  split
  · next hc =>
    rw [char_eq_ofNat c 9 hc]; exact parse_simple _ _ rest acc (by decide) (by decide)
  split
  · next hc =>
    rw [char_eq_ofNat c 10 hc]; exact parse_simple _ _ rest acc (by decide) (by decide)
  split
  · next hc =>
    rw [char_eq_ofNat c 12 hc]; exact parse_simple _ _ rest acc (by decide) (by decide)
  split
  · next hc =>
    rw [char_eq_ofNat c 13 hc]; exact parse_simple _ _ rest acc (by decide) (by decide)
  split
  · next hc =>
    have hd := decodeHex4_control ⟨c.toNat, hc⟩
    simp only at hd
    rw [Char.ofNat_toNat] at hd
    exact parse_unicode _ _ _ _ c rest acc hd
  · next h1 h2 _ _ _ _ _ h8 => exact parse_plain c rest acc h1 h2 h8

/-- The parser reads back what `JSON.stringify` wrote for a string. -/
theorem parse_escapeString : ∀ (s rest acc : List Char),
    parseStringBody (escapeString s ++ '"' :: rest) acc = some (acc.reverse ++ s, rest)
  | [], rest, acc => by simp [escapeString, parse_quote]
  | c :: cs, rest, acc => by
    simp only [escapeString, List.append_assoc]
    rw [parse_escapeChar_self, parse_escapeString cs rest (c :: acc)]
    simp

theorem replaceFrom_eq_self : ∀ (x : List Char) (p : Bool),
    operatorWordFrom p x = false → replaceFrom p 0 x = x
  | [], _, _ => rfl
  | c :: cs, p, h => by
    simp only [operatorWordFrom, Bool.or_eq_false_iff] at h
    have hm : matchOperator p (c :: cs) = none := by
      cases hmo : matchOperator p (c :: cs) with
      | none => rfl
      | some len => rw [hmo] at h; simp at h
    simp only [replaceFrom, hm]
    rw [replaceFrom_eq_self cs _ h.2]

/-- A string whose JSON text holds no operator word comes back unchanged. -/
theorem rewriteString_plain (s : List Char) (h : hasOperatorWord s = false) :
    rewriteString s = s := by
  have hr : replaceOperators (escapeString s) = escapeString s :=
    replaceFrom_eq_self _ false h
  have hp := parse_escapeString s [] []
  simp only [List.reverse_nil, List.nil_append] at hp
  simp [rewriteString, hr, hp]

theorem set_fresh (k : List Char) (v : JVal) : ∀ (m : JMembers), k ∉ m.keys →
    m.set k v = m.append (.cons k v .nil)
  | .nil, _ => rfl
  | .cons k2 v2 rest, h => by
    simp only [JMembers.keys, List.mem_cons, not_or] at h
    have h2 : ¬ k2 = k := fun e => h.1 e.symm
    simp [JMembers.set, JMembers.append, h2, set_fresh k v rest h.2]

theorem append_assoc_cons (k : List Char) (v : JVal) : ∀ (a b : JMembers),
    (a.append (.cons k v .nil)).append b = a.append (.cons k v b)
  | .nil, _ => rfl
  | .cons k2 v2 rest, b => by
    simp [JMembers.append, append_assoc_cons k v rest b]

theorem keys_append : ∀ (a b : JMembers), (a.append b).keys = a.keys ++ b.keys
  | .nil, _ => rfl
  | .cons k v rest, b => by simp [JMembers.append, JMembers.keys, keys_append rest b]

theorem append_nil : ∀ (a : JMembers), a.append .nil = a
  | .nil => rfl
  | .cons k v rest => by simp [JMembers.append, append_nil rest]

theorem assign_nodup : ∀ (ms acc : JMembers), (acc.keys ++ ms.keys).Nodup →
    JMembers.assign acc ms = acc.append ms
  | .nil, acc, _ => by simp [JMembers.assign, append_nil]
  | .cons k v rest, acc, h => by
    have hk : k ∉ acc.keys := by
      intro hm
      rw [JMembers.keys, List.nodup_append] at h
      exact h.2.2 hm (List.mem_cons_self _ _)
    have h2 : ((acc.append (.cons k v .nil)).keys ++ rest.keys).Nodup := by
      rw [keys_append]
      simpa [JMembers.keys] using h
    simp only [JMembers.assign]
    rw [set_fresh k v acc hk, assign_nodup rest _ h2, append_assoc_cons]

/-- The spread of an object with distinct keys is the object. -/
theorem assign_nil_nodup (ms : JMembers) (h : ms.keys.Nodup) :
    JMembers.assign .nil ms = ms := by
  rw [assign_nodup ms .nil (by simpa [JMembers.keys] using h)]
  rfl

theorem keys_rewrite_plain : ∀ (ms : JMembers), ms.plain = true → ms.rewrite.keys = ms.keys
  | .nil, _ => rfl
  | .cons k v rest, h => by
    simp only [JMembers.plain, Bool.and_eq_true, Bool.not_eq_true'] at h
    simp [JMembers.rewrite, JMembers.keys, rewriteString_plain k h.1.1,
      keys_rewrite_plain rest h.2]

mutual
theorem rewrite_plain_val : ∀ (v : JVal), v.plain = true → v.rewrite = v
  | .str s, h => by
    simp only [JVal.plain, Bool.not_eq_true'] at h
    simp [JVal.rewrite, rewriteString_plain s h]
  | .bool b, _ => by simp [JVal.rewrite]
  | .arr xs, h => by
    simp only [JVal.plain] at h
    simp [JVal.rewrite, rewrite_plain_list xs h]
  | .obj ms, h => by
    simp only [JVal.plain, Bool.and_eq_true, decide_eq_true_eq] at h
    simp [JVal.rewrite, rewrite_plain_members ms h.1, assign_nil_nodup ms h.2]
theorem rewrite_plain_list : ∀ (xs : JList), xs.plain = true → xs.rewrite = xs
  | .nil, _ => rfl
  | .cons v rest, h => by
    simp only [JList.plain, Bool.and_eq_true] at h
    simp [JList.rewrite, rewrite_plain_val v h.1, rewrite_plain_list rest h.2]
theorem rewrite_plain_members : ∀ (ms : JMembers), ms.plain = true → ms.rewrite = ms
  | .nil, _ => rfl
  | .cons k v rest, h => by
    simp only [JMembers.plain, Bool.and_eq_true, Bool.not_eq_true'] at h
    simp [JMembers.rewrite, rewriteString_plain k h.1.1, rewrite_plain_val v h.1.2,
      rewrite_plain_members rest h.2]
end

theorem plain_delete (k : List Char) : ∀ (m : JMembers), m.plain = true →
    (m.delete k).plain = true
  | .nil, _ => rfl
  | .cons k2 v2 rest, h => by
    simp only [JMembers.plain, Bool.and_eq_true] at h
    by_cases h2 : k2 = k
    · simp [JMembers.delete, h2, plain_delete k rest h.2]
    · simp only [JMembers.delete, h2, if_false, JMembers.plain, Bool.and_eq_true]
      exact ⟨h.1, plain_delete k rest h.2⟩

theorem plain_set (k : List Char) (v : JVal) (hk : hasOperatorWord k = false)
    (hv : v.plain = true) : ∀ (m : JMembers), m.plain = true → (m.set k v).plain = true
  | .nil, _ => by simp [JMembers.set, JMembers.plain, hk, hv]
  | .cons k2 v2 rest, h => by
    simp only [JMembers.plain, Bool.and_eq_true] at h
    by_cases h2 : k2 = k
    · simp only [JMembers.set, h2, if_true, JMembers.plain, Bool.and_eq_true]
      exact ⟨⟨by simp [hk], hv⟩, h.2⟩
    · simp only [JMembers.set, h2, if_false, JMembers.plain, Bool.and_eq_true]
      exact ⟨h.1, plain_set k v hk hv rest h.2⟩

theorem plain_deleteExcluded (m : JMembers) (h : m.plain = true) :
    (deleteExcluded m).plain = true := by
  simp only [deleteExcluded, excludeFields, List.foldl]
  exact plain_delete _ _ (plain_delete _ _ (plain_delete _ _ (plain_delete _ _ h)))

theorem operatorWordFrom_no_start : ∀ (x : List Char) (p : Bool),
    (∀ c ∈ x, isOperatorStart c = false) → operatorWordFrom p x = false
  | [], _, _ => rfl
  | c :: cs, p, h => by
    have hm : matchOperator p (c :: cs) = none := by
      cases hmo : matchOperator p (c :: cs) with
      | none => rfl
      | some len =>
        have := matchOperator_start p c cs len hmo
        rw [h c (List.mem_cons_self _ _)] at this
        exact absurd this (by decide)
    simp only [operatorWordFrom, hm, Option.isSome_none, Bool.false_or]
    exact operatorWordFrom_no_start cs _ (fun d hd => h d (List.mem_cons_of_mem _ hd))

theorem escapeString_hex (ds : List (Fin 16)) :
    escapeString (ds.map hexDigitChar) = ds.map hexDigitChar := by
  have h : ∀ d : Fin 16, escapeChar (hexDigitChar d) = [hexDigitChar d] := by decide
  induction ds with
  | nil => rfl
  | cons d ds ih => simp [escapeString, h, ih]

/-- The string of an ObjectId holds no operator word. -/
theorem hasOperatorWord_toString (o : ObjectId) : hasOperatorWord o.toString = false := by
  simp only [hasOperatorWord, ObjectId.toString, escapeString_hex]
  apply operatorWordFrom_no_start
  intro c hc
  simp only [List.mem_map] at hc
  obtain ⟨d, _, hd⟩ := hc
  rw [← hd]
  exact hexDigitChar_not_start d

theorem plain_visibleClause (user : ObjectId) : (visibleClause user.toString).plain = true := by
  have h1 : hasOperatorWord "user".toList = false := by decide
  have h2 : hasOperatorWord "isCustom".toList = false := by decide
  have h3 : ["user".toList].Nodup := by decide
  have h4 : ["isCustom".toList].Nodup := by decide
  simp only [visibleClause, JVal.plain, JList.plain, JMembers.plain, JMembers.keys, h1, h2,
    hasOperatorWord_toString, h3, h4, Bool.not_false, Bool.and_self, decide_True]

theorem plain_queryObj (r : Resource) (query : JMembers) (user : ObjectId)
    (h : (JVal.obj query).plain = true) : (JVal.obj (queryObj r query user)).plain = true := by
  simp only [JVal.plain, Bool.and_eq_true, decide_eq_true_eq] at h ⊢
  refine ⟨?_, nodup_queryObj r query user⟩
  have hs : (deleteExcluded (JMembers.assign .nil query)).plain = true := by
    rw [assign_nil_nodup query h.2]
    exact plain_deleteExcluded query h.1
  cases r
  · exact plain_set _ _ (by decide) (plain_visibleClause user) _ hs
  · exact plain_set _ _ (by decide) (by simp [JVal.plain, hasOperatorWord_toString]) _ hs
  · exact plain_set _ _ (by decide) (by simp [JVal.plain, hasOperatorWord_toString]) _ hs

theorem lookup_deleteExcluded_ne (k : List Char) (h : k ∉ excludeFields) (m : JMembers) :
    (deleteExcluded m).lookup k = m.lookup k := by
  simp only [excludeFields, List.mem_cons, List.not_mem_nil, or_false, not_or] at h
  simp only [deleteExcluded, excludeFields, List.foldl]
  rw [lookup_delete_ne k _ (Ne.symm h.2.2.2), lookup_delete_ne k _ (Ne.symm h.2.2.1),
    lookup_delete_ne k _ (Ne.symm h.2.1), lookup_delete_ne k _ (Ne.symm h.1)]

theorem lookup_deleteExcluded_self (k : List Char) (h : k ∈ excludeFields) (m : JMembers) :
    (deleteExcluded m).lookup k = none := by
  apply lookup_eq_none
  simp only [deleteExcluded, excludeFields, List.foldl, keys_delete, List.mem_filter,
    decide_eq_true_eq, not_and, ne_eq, Decidable.not_not]
  simp only [excludeFields, List.mem_cons, List.not_mem_nil, or_false] at h
  intro hx
  obtain ⟨⟨⟨_, h1⟩, h2⟩, h3⟩ := hx
  rcases h with h | h | h | h
  · exact absurd h h1
  · exact absurd h h2
  · exact absurd h h3
  · exact h

theorem excluded_key_iff (k0 : List Char) (h : k0 ∈ excludeFields) (k : List Char) :
    rewriteString k = k0 ↔ k = k0 := by
  simp only [excludeFields, List.mem_cons, List.not_mem_nil, or_false] at h
  rcases h with h | h | h | h <;> subst h <;>
    exact rewriteString_eq_iff _ (by decide) (by rfl) k

theorem ownerKey_not_excluded (r : Resource) : ownerKey r ∉ excludeFields := by
  cases r <;> decide

theorem queryObj_lookup_ne (r : Resource) (query : JMembers) (user : ObjectId)
    (k : List Char) (hk : k ≠ ownerKey r) :
    (queryObj r query user).lookup k
      = (deleteExcluded (JMembers.assign .nil query)).lookup k := by
  cases r <;> exact lookup_set_ne k _ _ (Ne.symm hk) _

/-- What the filter of a list handler keeps of a query. For every query object the filter
is the rewritten `queryObj`; the reserved keys `select`, `sort`, `page`, `limit` are no
keys of it; each of the words `gt`, `gte`, `lt`, `lte`, `in` is rewritten to the word with
`$` in front; and when no key and no string of the query holds one of these words, every
other caller-supplied pair under a key other than the one the handler sets reaches the
filter verbatim. -/
theorem filter_keeps_plain_query (r : Resource) (query : JMembers) (user : ObjectId) :
    ∃ f, buildFilter r query user = some (.obj f)
      ∧ JVal.obj f = (JVal.obj (queryObj r query user)).rewrite
      ∧ (∀ k ∈ excludeFields, f.lookup k = none)
      ∧ (∀ w ∈ operatorWords, rewriteString w = '$' :: w)
      ∧ ((JVal.obj query).plain = true →
          ∀ k v, k ∉ excludeFields → k ≠ ownerKey r → query.lookup k = some v →
            f.lookup k = some v) := by
  refine ⟨_, buildFilter_eq r query user, by simp [JVal.rewrite], ?_, by decide, ?_⟩
  · intro k hk
    rw [filter_lookup r query user k (excluded_key_iff k hk)]
    have hne : k ≠ ownerKey r := fun e => ownerKey_not_excluded r (e ▸ hk)
    rw [queryObj_lookup_ne r query user k hne, lookup_deleteExcluded_self k hk]
    rfl
  · intro hplain k v hk hne hq
    have hp := rewrite_plain_val _ (plain_queryObj r query user hplain)
    simp only [JVal.rewrite, JVal.obj.injEq] at hp
    rw [hp, queryObj_lookup_ne r query user k hne, lookup_deleteExcluded_ne k hk]
    simp only [JVal.plain, Bool.and_eq_true, decide_eq_true_eq] at hplain
    rw [assign_nil_nodup query hplain.2, hq]

/-- C9, the code at the failing input `GET /api/workouts?name=in`: the replacement of
line 25 runs over the whole JSON text, so the caller-supplied value `in` reaches the
filter of `getWorkouts` as `$in`, and the filter asks for the workouts of the caller named
`$in`. -/
theorem operator_word_in_value_rewritten :
    buildFilter .workouts (.cons "name".toList (.str "in".toList) .nil) (ObjectId.ofDigit 1)
      = some (.obj (.cons "name".toList (.str "$in".toList)
          (.cons "user".toList (.str (ObjectId.ofDigit 1).toString) .nil))) := by
  rfl
/-! ## The single-resource handlers -/

/-- C1. For every caller, every request body and every stored exercise with
`isCustom = false`, `updateExercise` and `deleteExercise` hand the error with status 401
to the error step and leave the exercise collection as it was. -/
theorem public_exercise_immutable (valid : Exercise → Bool) (store : List Exercise)
    (exercise : Exercise) (user : ObjectId) (paramsId : List Char) (body : ExerciseBody)
    (hid : castObjectId paramsId = some exercise._id)
    (hstored : findById Exercise._id store exercise._id = some exercise)
    (hpublic : exercise.isCustom = false) :
    updateExercise valid store ⟨user, paramsId, body⟩
        = (.error ⟨"Cannot update public exercises", 401⟩, store)
      ∧ deleteExercise store ⟨user, paramsId, ()⟩
        = (.error ⟨"Cannot delete public exercises", 401⟩, store) := by
  constructor
  · simp [updateExercise, hid, hstored, Exercise.customOfOther, hpublic]
  · simp [deleteExercise, hid, hstored, Exercise.customOfOther, hpublic]

/-- The witness of C1: a public exercise, and a caller who sends a body claiming it. -/
theorem public_exercise_immutable_witness :
    updateExercise (fun _ => true)
        [⟨ObjectId.ofDigit 1, "Squat".toList, "strength".toList, false, none⟩]
        ⟨ObjectId.ofDigit 2, List.replicate 24 '1',
          ⟨none, none, some true, some (ObjectId.ofDigit 2)⟩⟩
        = (.error ⟨"Cannot update public exercises", 401⟩,
            [⟨ObjectId.ofDigit 1, "Squat".toList, "strength".toList, false, none⟩])
      ∧ deleteExercise
        [⟨ObjectId.ofDigit 1, "Squat".toList, "strength".toList, false, none⟩]
        ⟨ObjectId.ofDigit 2, List.replicate 24 '1', ()⟩
        = (.error ⟨"Cannot delete public exercises", 401⟩,
            [⟨ObjectId.ofDigit 1, "Squat".toList, "strength".toList, false, none⟩]) :=
  public_exercise_immutable (fun _ => true)
    [⟨ObjectId.ofDigit 1, "Squat".toList, "strength".toList, false, none⟩]
    ⟨ObjectId.ofDigit 1, "Squat".toList, "strength".toList, false, none⟩
    (ObjectId.ofDigit 2) (List.replicate 24 '1')
    ⟨none, none, some true, some (ObjectId.ofDigit 2)⟩
    (by decide) (by decide) rfl

/-- Two ObjectIds with the same hexadecimal string are the same. -/
theorem ObjectId.toString_injective (a b : ObjectId) (h : a.toString = b.toString) :
    a = b := by
  have hinj : Function.Injective hexDigitChar := by
    intro x y
    revert x y
    decide
  cases a with
  | mk da ha =>
    cases b with
    | mk db hb =>
      simp only [ObjectId.toString] at h
      have hd : da = db := List.map_injective_iff.mpr hinj h
      subst hd
      rfl

/-- C2. For every stored workout and every stored progress entry whose `user` is not the
authenticated caller, each single-resource handler (`getWorkout`, `updateWorkout`,
`deleteWorkout`, `toggleWorkoutComplete`, `getProgressEntry`, `updateProgressEntry`,
`deleteProgressEntry`) hands an error with status 401 to the error step, which carries no
record, and leaves the collection as it was. -/
theorem foreign_record_unauthorized (validW : Workout → Bool) (validP : Progress → Bool)
    (exercises : List Exercise) (workouts : List Workout) (entries : List Progress)
    (workout : Workout) (entry : Progress) (caller : ObjectId)
    (wId pId : List Char) (wBody : WorkoutBody) (pBody : ProgressBody)
    (hwid : castObjectId wId = some workout._id)
    (hwstored : findById Workout._id workouts workout._id = some workout)
    (hwother : workout.user ≠ caller)
    (hpid : castObjectId pId = some entry._id)
    (hpstored : findById Progress._id entries entry._id = some entry)
    (hpother : entry.user ≠ caller) :
    getWorkout workouts ⟨caller, wId, ()⟩
        = (.error ⟨"User not authorized to access this workout", 401⟩, workouts)
      ∧ updateWorkout validW exercises workouts ⟨caller, wId, wBody⟩
        = (.error ⟨"User not authorized to update this workout", 401⟩, workouts)
      ∧ deleteWorkout workouts ⟨caller, wId, ()⟩
        = (.error ⟨"User not authorized to delete this workout", 401⟩, workouts)
      ∧ toggleWorkoutComplete validW workouts ⟨caller, wId, ()⟩
        = (.error ⟨"User not authorized to update this workout", 401⟩, workouts)
      ∧ getProgressEntry entries ⟨caller, pId, ()⟩
        = (.error ⟨"User not authorized to access this progress entry", 401⟩, entries)
      ∧ updateProgressEntry validP entries ⟨caller, pId, pBody⟩
        = (.error ⟨"User not authorized to update this progress entry", 401⟩, entries)
      ∧ deleteProgressEntry entries ⟨caller, pId, ()⟩
        = (.error ⟨"User not authorized to delete this progress entry", 401⟩, entries) := by
  have hw : workout.user.toString ≠ caller.toString :=
    fun h => hwother (ObjectId.toString_injective _ _ h)
  have hp : entry.user.toString ≠ caller.toString :=
    fun h => hpother (ObjectId.toString_injective _ _ h)
  refine ⟨?_, ?_, ?_, ?_, ?_, ?_, ?_⟩
  · simp [getWorkout, hwid, hwstored, Request.userId, hw]
  · simp [updateWorkout, hwid, hwstored, Request.userId, hw]
  · simp [deleteWorkout, hwid, hwstored, Request.userId, hw]
  · simp [toggleWorkoutComplete, hwid, hwstored, Request.userId, hw]
  · simp [getProgressEntry, hpid, hpstored, Request.userId, hp]
  · simp [updateProgressEntry, hpid, hpstored, Request.userId, hp]
  · simp [deleteProgressEntry, hpid, hpstored, Request.userId, hp]

/-- The witness of C2: a workout and a progress entry of user `33…3`, requested by user
`22…2`. -/
theorem foreign_record_unauthorized_witness :
    getWorkout [⟨ObjectId.ofDigit 1, "Leg day".toList, [], false, false,
          (ObjectId.ofDigit 3)⟩] ⟨ObjectId.ofDigit 2, List.replicate 24 '1', ()⟩
        = (.error ⟨"User not authorized to access this workout", 401⟩,
            [⟨ObjectId.ofDigit 1, "Leg day".toList, [], false, false,
              (ObjectId.ofDigit 3)⟩])
      ∧ getProgressEntry [⟨ObjectId.ofDigit 4, (ObjectId.ofDigit 3), 0,
          ⟨⟨.num 70, "kg".toList⟩, .undefined,
            ⟨.undefined, .undefined, .undefined, .undefined, .undefined⟩⟩, [], none⟩]
          ⟨ObjectId.ofDigit 2, List.replicate 24 '4', ()⟩
        = (.error ⟨"User not authorized to access this progress entry", 401⟩,
            [⟨ObjectId.ofDigit 4, (ObjectId.ofDigit 3), 0,
              ⟨⟨.num 70, "kg".toList⟩, .undefined,
                ⟨.undefined, .undefined, .undefined, .undefined, .undefined⟩⟩, [], none⟩]) :=
  have h := foreign_record_unauthorized (fun _ => true) (fun _ => true) []
    [⟨ObjectId.ofDigit 1, "Leg day".toList, [], false, false, (ObjectId.ofDigit 3)⟩]
    [⟨ObjectId.ofDigit 4, (ObjectId.ofDigit 3), 0,
      ⟨⟨.num 70, "kg".toList⟩, .undefined,
        ⟨.undefined, .undefined, .undefined, .undefined, .undefined⟩⟩, [], none⟩]
    ⟨ObjectId.ofDigit 1, "Leg day".toList, [], false, false, (ObjectId.ofDigit 3)⟩
    ⟨ObjectId.ofDigit 4, (ObjectId.ofDigit 3), 0,
      ⟨⟨.num 70, "kg".toList⟩, .undefined,
        ⟨.undefined, .undefined, .undefined, .undefined, .undefined⟩⟩, [], none⟩
    (ObjectId.ofDigit 2) (List.replicate 24 '1') (List.replicate 24 '4')
    ⟨none, none, none, none, none⟩ ⟨none, none, none, none, none⟩
    (by decide) (by decide) (by decide) (by decide) (by decide) (by decide)
  ⟨h.1, h.2.2.2.2.1⟩
/-! ## The list handlers: pagination -/

theorem jsInt_mul_finite (x y : Int) :
    JsInt.finite x * JsInt.finite y = JsInt.ofInt (x * y) := rfl

theorem jsInt_sub_finite (x y : Int) :
    JsInt.finite x - JsInt.finite y = JsInt.ofInt (x - y) := rfl

theorem jsInt_add_finite (x y : Int) :
    JsInt.finite x + JsInt.finite y = JsInt.ofInt (x + y) := rfl

theorem jsInt_lt_iff (a b : JsInt) : a < b ↔ JsInt.lt a b = true := Iff.rfl

theorem jsInt_le_iff (a b : JsInt) : a ≤ b ↔ JsInt.le a b = true := Iff.rfl

/-- A number of at least 1 is the positive infinity or a finite number of at least 1. -/
theorem one_le_cases (x : JsInt) (h : 1 ≤ x) :
    x = .posInf ∨ ∃ k, x = .finite k ∧ 1 ≤ k := by
  rw [jsInt_one, jsInt_le_iff] at h
  cases x with
  | nan => simp [JsInt.le] at h
  | negInf => simp [JsInt.le] at h
  | posInf => exact Or.inl rfl
  | finite k => exact Or.inr ⟨k, rfl, by simpa [JsInt.le] using h⟩

/-- A number above 0 is the positive infinity or a finite number of at least 1. -/
theorem zero_lt_cases (x : JsInt) (h : 0 < x) :
    x = .posInf ∨ ∃ k, x = .finite k ∧ 1 ≤ k := by
  rw [jsInt_zero, jsInt_lt_iff] at h
  cases x with
  | nan => simp [JsInt.lt] at h
  | negInf => simp [JsInt.lt] at h
  | posInf => exact Or.inl rfl
  | finite k =>
    refine Or.inr ⟨k, rfl, ?_⟩
    have : 0 < k := by simpa [JsInt.lt] using h
    omega

theorem zero_lt_of_cases (x : JsInt) (h : x = .posInf ∨ ∃ k, x = .finite k ∧ 1 ≤ k) :
    0 < x := by
  rw [jsInt_zero, jsInt_lt_iff]
  rcases h with h | ⟨k, h, hk⟩
  · rw [h]
    rfl
  · rw [h]
    simp only [JsInt.lt, decide_eq_true_eq]
    omega

/-- The product of two numbers of at least 1 is one. -/
theorem mul_pos_cases (x y : JsInt) (hx : x = .posInf ∨ ∃ k, x = .finite k ∧ 1 ≤ k)
    (hy : y = .posInf ∨ ∃ k, y = .finite k ∧ 1 ≤ k) :
    x * y = .posInf ∨ ∃ k, x * y = .finite k ∧ 1 ≤ k := by
  rcases hx with hx | ⟨a, hx, ha⟩ <;> rcases hy with hy | ⟨b, hy, hb⟩ <;> subst hx <;> subst hy
  · exact Or.inl rfl
  · left
    show JsInt.mul .posInf (.finite b) = .posInf
    have h1 : ¬ b = 0 := by omega
    have h2 : ¬ b < 0 := by omega
    simp [JsInt.mul, h1, h2]
  · left
    show JsInt.mul (.finite a) .posInf = .posInf
    have h1 : ¬ a = 0 := by omega
    have h2 : ¬ a < 0 := by omega
    simp [JsInt.mul, h1, h2]
  · rw [jsInt_mul_finite]
    have h1 : (1 : Int) ≤ a * b := one_le_mul_of_one_le_of_one_le ha hb
    exact ofInt_ge 1 (a * b) (ofInt_small 1 (by norm_num)) h1

/-- The product of a number that is not positive and a number of at least 1 is not
positive. -/
theorem mul_nonpos_cases (x y : JsInt) (hx : x = .negInf ∨ ∃ k, x = .finite k ∧ k ≤ 0)
    (hy : y = .posInf ∨ ∃ k, y = .finite k ∧ 1 ≤ k) : ¬ 0 < x * y := by
  rw [jsInt_zero, jsInt_lt_iff]
  rcases hx with hx | ⟨a, hx, ha⟩ <;> rcases hy with hy | ⟨b, hy, hb⟩ <;> subst hx <;> subst hy
  · show ¬ JsInt.lt (.finite 0) (JsInt.mul .negInf .posInf) = true
    simp [JsInt.mul, JsInt.lt]
  · show ¬ JsInt.lt (.finite 0) (JsInt.mul .negInf (.finite b)) = true
    have h1 : ¬ b = 0 := by omega
    have h2 : ¬ b < 0 := by omega
    simp [JsInt.mul, JsInt.lt, h1, h2]
  · show ¬ JsInt.lt (.finite 0) (JsInt.mul (.finite a) .posInf) = true
    by_cases h0 : a = 0
    · simp [JsInt.mul, JsInt.lt, h0]
    · have h2 : a < 0 := by omega
      simp [JsInt.mul, JsInt.lt, h0, h2]
  · rw [jsInt_mul_finite]
    have h1 : a * b ≤ 0 := Int.mul_nonpos_of_nonpos_of_nonneg ha (by omega)
    rcases ofInt_le 0 (a * b) (ofInt_small 0 (by norm_num)) h1 with h | ⟨k, h, hk⟩
    · rw [h]
      simp [JsInt.lt]
    · rw [h]
      simp only [JsInt.lt, decide_eq_true_eq]
      omega

/-- The product of a number that is not negative and a number of at least 1 is not
negative. -/
theorem mul_nonneg_cases (x y : JsInt) (hx : x = .posInf ∨ ∃ k, x = .finite k ∧ 0 ≤ k)
    (hy : y = .posInf ∨ ∃ k, y = .finite k ∧ 1 ≤ k) : ¬ x * y < 0 := by
  rw [jsInt_zero, jsInt_lt_iff]
  rcases hx with hx | ⟨a, hx, ha⟩ <;> rcases hy with hy | ⟨b, hy, hb⟩ <;> subst hx <;> subst hy
  · show ¬ JsInt.lt (JsInt.mul .posInf .posInf) (.finite 0) = true
    simp [JsInt.mul, JsInt.lt]
  · show ¬ JsInt.lt (JsInt.mul .posInf (.finite b)) (.finite 0) = true
    have h1 : ¬ b = 0 := by omega
    have h2 : ¬ b < 0 := by omega
    simp [JsInt.mul, JsInt.lt, h1, h2]
  · show ¬ JsInt.lt (JsInt.mul (.finite a) .posInf) (.finite 0) = true
    by_cases h0 : a = 0
    · simp [JsInt.mul, JsInt.lt, h0]
    · have h2 : ¬ a < 0 := by omega
      simp [JsInt.mul, JsInt.lt, h0, h2]
  · rw [jsInt_mul_finite]
    have h1 : 0 ≤ a * b := Int.mul_nonneg ha (by omega)
    rcases ofInt_ge 0 (a * b) (ofInt_small 0 (by norm_num)) h1 with h | ⟨k, h, hk⟩
    · rw [h]
      simp [JsInt.lt]
    · rw [h]
      simp only [JsInt.lt, decide_eq_true_eq]
      omega

/-- The number before a page: for a page above 1 it is at least 1, and for another page
it is not positive. -/
theorem page_before (p : JsInt) :
    (1 < p → (p - 1 = .posInf ∨ ∃ k, p - 1 = .finite k ∧ 1 ≤ k))
      ∧ (¬ 1 < p → p ≠ .nan → (p - 1 = .negInf ∨ ∃ k, p - 1 = .finite k ∧ k ≤ 0)) := by
  rw [jsInt_one, jsInt_lt_iff]
  cases p with
  | nan => simp [JsInt.lt]
  | negInf =>
    refine ⟨by simp [JsInt.lt], fun _ _ => Or.inl rfl⟩
  | posInf =>
    refine ⟨fun _ => Or.inl rfl, by simp [JsInt.lt]⟩
  | finite a =>
    rw [jsInt_sub_finite]
    simp only [JsInt.lt, decide_eq_true_eq]
    constructor
    · intro h
      exact ofInt_ge 1 (a - 1) (ofInt_small 1 (by norm_num)) (by omega)
    · intro h _
      exact ofInt_le 0 (a - 1) (ofInt_small 0 (by norm_num)) (by omega)

/-- For a positive limit the skip is positive exactly for a page above 1. -/
theorem skip_pos_iff (p l : JsInt) (hl : 0 < l) : 0 < (p - 1) * l ↔ 1 < p := by
  have hlc := zero_lt_cases l hl
  by_cases hp : 1 < p
  · have h1 := mul_pos_cases (p - 1) l ((page_before p).1 hp) hlc
    exact ⟨fun _ => hp, fun _ => zero_lt_of_cases _ h1⟩
  · by_cases hn : p = .nan
    · subst hn
      refine ⟨fun h => ?_, fun h => absurd h hp⟩
      exfalso
      have : (JsInt.nan - 1) * l = JsInt.nan := rfl
      rw [this, jsInt_zero, jsInt_lt_iff] at h
      simp [JsInt.lt] at h
    · have h1 := mul_nonpos_cases (p - 1) l ((page_before p).2 hp hn) hlc
      exact ⟨fun h => absurd h h1, fun h => absurd h hp⟩

/-- What `parseInt` returns is NaN or the rounding of an integer. -/
theorem parseInt_cases (s : List Char) :
    parseInt s = .nan ∨ ∃ n, parseInt s = JsInt.ofInt n := by
  unfold parseInt
  split
  · split
    · exact Or.inr ⟨_, rfl⟩
    · exact Or.inl rfl
  · split
    · exact Or.inr ⟨_, rfl⟩
    · exact Or.inl rfl
  · split
    · exact Or.inr ⟨_, rfl⟩
    · exact Or.inl rfl

/-- A page and a limit are the rounding of an integer, and neither NaN nor zero. -/
theorem intParam_cases (param : Option JVal) (c : Int) (hc : JsInt.ofInt c = .finite c)
    (h0 : c ≠ 0) :
    (∃ n, intParam param (.finite c) = JsInt.ofInt n)
      ∧ intParam param (.finite c) ≠ .nan
      ∧ intParam param (.finite c) ≠ .finite 0 := by
  unfold intParam
  cases param with
  | none =>
    exact ⟨⟨c, hc.symm⟩, fun e => JsInt.noConfusion e,
      fun e => h0 (JsInt.finite.inj e)⟩
  | some v =>
    simp only
    rcases parseInt_cases v.toJsString with hp | ⟨n, hp⟩
    · rw [hp]
      exact ⟨⟨c, hc.symm⟩, fun e => JsInt.noConfusion e,
        fun e => h0 (JsInt.finite.inj e)⟩
    · cases hv : parseInt v.toJsString with
      | nan =>
        exact ⟨⟨c, hc.symm⟩, fun e => JsInt.noConfusion e,
          fun e => h0 (JsInt.finite.inj e)⟩
      | negInf => exact ⟨⟨n, by rw [← hp, hv]⟩, fun e => JsInt.noConfusion e,
          fun e => JsInt.noConfusion e⟩
      | posInf => exact ⟨⟨n, by rw [← hp, hv]⟩, fun e => JsInt.noConfusion e,
          fun e => JsInt.noConfusion e⟩
      | finite k =>
        simp only
        by_cases hk : k = 0
        · rw [if_pos hk]
          exact ⟨⟨c, hc.symm⟩, fun e => JsInt.noConfusion e,
            fun e => h0 (JsInt.finite.inj e)⟩
        · rw [if_neg hk]
          rw [hv] at hp
          exact ⟨⟨k, (ofInt_idem n k hp.symm).symm⟩, fun e => JsInt.noConfusion e,
            fun e => hk (JsInt.finite.inj e)⟩

theorem pageOf_cases (query : JMembers) :
    (∃ n, pageOf query = JsInt.ofInt n) ∧ pageOf query ≠ .nan
      ∧ pageOf query ≠ .finite 0 := by
  unfold pageOf
  rw [jsInt_one]
  exact intParam_cases _ 1 (ofInt_small 1 (by norm_num)) (by norm_num)

theorem limitOf_cases (query : JMembers) :
    (∃ n, limitOf query = JsInt.ofInt n) ∧ limitOf query ≠ .nan
      ∧ limitOf query ≠ .finite 0 := by
  unfold limitOf
  rw [jsInt_ten]
  exact intParam_cases _ 10 (ofInt_small 10 (by norm_num)) (by norm_num)

/-- The database runs `skip` and `limit` exactly when the skip is not negative. -/
theorem skipLimit_isSome {α : Type} (startIndex limit : JsInt) (ordered : List α) :
    (∃ results, skipLimit startIndex limit ordered = some results) ↔ ¬ startIndex < 0 := by
  rw [jsInt_zero, jsInt_lt_iff]
  cases startIndex with
  | nan => simp [skipLimit, JsInt.lt]
  | negInf => simp [skipLimit, JsInt.lt]
  | posInf => simp [skipLimit, JsInt.lt]
  | finite s =>
    by_cases hs : s < 0
    · simp [skipLimit, JsInt.lt, hs]
    · simp [skipLimit, JsInt.lt, hs]

/-- When the statements before the pagination go through, a list handler answers with
the page of the documents its query selects. -/
theorem listHandler_runs {α : Type} (r : Resource) (paths : Paths α) (coll : Collection α)
    (query : JMembers) (user : ObjectId) (h : queryRuns r coll query user = true) :
    listHandler r paths coll query user
      = listPage (pageOf query) (limitOf query) (matchingCount r paths coll query user)
          (matchingDocs r paths coll query user) := by
  simp only [queryRuns, listHandler, matchingCount, matchingDocs, buildFilter_eq] at h ⊢
  cases hs : selectParam query with
  | error t => simp [hs] at h
  | ok fields =>
    cases ht : sortParam query with
    | error t => simp [hs, ht] at h
    | ok sortBy =>
      simp only [hs, ht] at h
      simp [h]

/-- When a statement before the pagination throws, so does the handler. -/
theorem listHandler_fails {α : Type} (r : Resource) (paths : Paths α) (coll : Collection α)
    (query : JMembers) (user : ObjectId) (h : queryRuns r coll query user = false) :
    ∃ t, listHandler r paths coll query user = .thrown t := by
  simp only [queryRuns, listHandler, buildFilter_eq] at h ⊢
  cases hs : selectParam query with
  | error t => exact ⟨t, rfl⟩
  | ok fields =>
    cases ht : sortParam query with
    | error t => exact ⟨t, rfl⟩
    | ok sortBy =>
      simp only [hs, ht] at h
      exact ⟨.castError, by simp [h]⟩

/-- The documents paged through are as many as `countDocuments` counts. -/
theorem matchingDocs_length {α : Type} (r : Resource) (paths : Paths α) (coll : Collection α)
    (query : JMembers) (user : ObjectId) (h : queryRuns r coll query user = true) :
    (matchingDocs r paths coll query user).length = matchingCount r paths coll query user := by
  simp only [queryRuns, matchingCount, matchingDocs, buildFilter_eq] at h ⊢
  cases hs : selectParam query with
  | error t => simp [hs] at h
  | ok fields =>
    cases ht : sortParam query with
    | error t => simp [hs, ht] at h
    | ok sortBy =>
      simp only [orderedDocs]
      cases fields with
      | none => exact (coll.sort_perm _ _).length_eq
      | some f => simpa using (coll.sort_perm _ _).length_eq

/-- The reply of a list handler is a list body exactly when the statements before the
pagination go through and the skip is not negative. -/
theorem listHandler_json_iff {α : Type} (r : Resource) (paths : Paths α) (coll : Collection α)
    (query : JMembers) (user : ObjectId) :
    (∃ body, listHandler r paths coll query user = .json body)
      ↔ queryRuns r coll query user = true ∧ ¬ (pageOf query - 1) * limitOf query < 0 := by
  constructor
  · rintro ⟨body, hb⟩
    cases hq : queryRuns r coll query user with
    | false =>
      obtain ⟨t, ht⟩ := listHandler_fails r paths coll query user hq
      rw [ht] at hb
      exact ListReply.noConfusion hb
    | true =>
      refine ⟨rfl, ?_⟩
      rw [listHandler_runs r paths coll query user hq] at hb
      rw [← skipLimit_isSome _ (limitOf query) (matchingDocs r paths coll query user)]
      unfold listPage at hb
      cases hsk : skipLimit ((pageOf query - 1) * limitOf query) (limitOf query)
          (matchingDocs r paths coll query user) with
      | none =>
        rw [hsk] at hb
        exact ListReply.noConfusion hb
      | some results => exact ⟨results, rfl⟩
  · rintro ⟨hq, hs⟩
    rw [listHandler_runs r paths coll query user hq]
    obtain ⟨results, hr⟩ := (skipLimit_isSome _ (limitOf query)
      (matchingDocs r paths coll query user)).2 hs
    unfold listPage
    rw [hr]
    exact ⟨_, rfl⟩

/-- The body of a list reply, spelled out. -/
theorem listHandler_body {α : Type} (r : Resource) (paths : Paths α) (coll : Collection α)
    (query : JMembers) (user : ObjectId) (body : ListBody α)
    (h : listHandler r paths coll query user = .json body) :
    ∃ results, skipLimit ((pageOf query - 1) * limitOf query) (limitOf query)
        (matchingDocs r paths coll query user) = some results
      ∧ body = { success := true
                 count := results.length
                 pagination := buildPagination (pageOf query) (limitOf query)
                   (matchingCount r paths coll query user)
                 data := results } := by
  obtain ⟨hq, hs⟩ := (listHandler_json_iff r paths coll query user).1 ⟨body, h⟩
  rw [listHandler_runs r paths coll query user hq] at h
  obtain ⟨results, hr⟩ := (skipLimit_isSome _ (limitOf query)
    (matchingDocs r paths coll query user)).2 hs
  unfold listPage at h
  rw [hr] at h
  exact ⟨results, hr, (ListReply.json.inj h).symm⟩

/-- C5. For each of the three list handlers and every request, with `page` and `limit`
the numbers after `parseInt` and the defaults and in the arithmetic of JavaScript, a list
reply has `pagination.next` exactly when `page * limit` is below the count of matching
documents, and then it is `{page + 1, limit}`; the handler sends a list reply whenever
its query runs and the skip is not negative. -/
theorem pagination_next {α : Type} (r : Resource) (paths : Paths α) (coll : Collection α)
    (query : JMembers) (user : ObjectId) :
    (∀ body, listHandler r paths coll query user = .json body →
        body.pagination.next
          = if pageOf query * limitOf query
              < JsInt.ofInt (matchingCount r paths coll query user)
            then some { page := pageOf query + 1, limit := limitOf query } else none)
      ∧ ((∃ body, listHandler r paths coll query user = .json body)
          ↔ queryRuns r coll query user = true
            ∧ ¬ (pageOf query - 1) * limitOf query < 0) := by
  refine ⟨?_, listHandler_json_iff r paths coll query user⟩
  intro body hb
  obtain ⟨results, _, he⟩ := listHandler_body r paths coll query user body hb
  rw [he]
  rfl

/-- C6, the claim as stated fails: for `?page=-1&limit=-1` the skip is 2, `getWorkouts`
answers with a list, and `pagination.prev` is present although the page is not above 1. -/
theorem pagination_prev_counterexample :
    getWorkouts sampleWorkouts (pageQuery "-1" "-1") (ObjectId.ofDigit 1)
        = .json { success := true
                  count := 1
                  pagination := { next := some { page := 0, limit := -1 }
                                  prev := some { page := -2, limit := -1 } }
                  data := [sampleWorkout 4] }
      ∧ ¬ (1 < pageOf (pageQuery "-1" "-1")) := by
  constructor
  · rfl
  · decide

/-- C6, amended. For each of the three list handlers and every request, in the arithmetic
of JavaScript, a list reply has `pagination.prev` exactly when the skip
`(page - 1) * limit` is positive, and then it is `{page - 1, limit}`; for a positive limit
that is exactly when `page` is above 1. -/
theorem pagination_prev {α : Type} (r : Resource) (paths : Paths α) (coll : Collection α)
    (query : JMembers) (user : ObjectId) (body : ListBody α)
    (h : listHandler r paths coll query user = .json body) :
    body.pagination.prev
        = (if 0 < (pageOf query - 1) * limitOf query
          then some { page := pageOf query - 1, limit := limitOf query } else none)
      ∧ (0 < limitOf query → (body.pagination.prev.isSome = true ↔ 1 < pageOf query)) := by
  obtain ⟨results, _, hb⟩ := listHandler_body r paths coll query user body h
  have hprev : body.pagination.prev
      = (if 0 < (pageOf query - 1) * limitOf query
        then some { page := pageOf query - 1, limit := limitOf query } else none) := by
    rw [hb]
    rfl
  refine ⟨hprev, ?_⟩
  intro hl
  rw [hprev]
  have hiff := skip_pos_iff (pageOf query) (limitOf query) hl
  by_cases hp : 1 < pageOf query
  · simp [hiff.2 hp, hp]
  · have hn : ¬ 0 < (pageOf query - 1) * limitOf query := fun e => hp (hiff.1 e)
    simp [hn, hp]

/-- The witness of C6 amended: the second page of one document per page. -/
theorem pagination_prev_witness :
    getWorkouts sampleWorkouts (pageQuery "2" "1") (ObjectId.ofDigit 1)
        = .json { success := true
                  count := 1
                  pagination := { next := some { page := 3, limit := 1 }
                                  prev := some { page := 1, limit := 1 } }
                  data := [sampleWorkout 3] }
      ∧ (some ({ page := 1, limit := 1 } : PageRef)
          = (if 0 < (pageOf (pageQuery "2" "1") - 1) * limitOf (pageQuery "2" "1")
            then some { page := pageOf (pageQuery "2" "1") - 1
                        limit := limitOf (pageQuery "2" "1") } else none)) :=
  ⟨rfl, (pagination_prev .workouts workoutPaths sampleWorkouts (pageQuery "2" "1")
    (ObjectId.ofDigit 1) _ rfl).1⟩

/-- The witness of C5: the second page of one document per page has a next page. -/
theorem pagination_next_witness :
    some ({ page := 3, limit := 1 } : PageRef)
      = (if pageOf (pageQuery "2" "1") * limitOf (pageQuery "2" "1")
            < JsInt.ofInt (matchingCount .workouts workoutPaths sampleWorkouts
                (pageQuery "2" "1") (ObjectId.ofDigit 1))
          then some { page := pageOf (pageQuery "2" "1") + 1
                      limit := limitOf (pageQuery "2" "1") } else none) :=
  (pagination_next .workouts workoutPaths sampleWorkouts (pageQuery "2" "1")
    (ObjectId.ofDigit 1)).1
    { success := true
      count := 1
      pagination := { next := some { page := 3, limit := 1 }
                      prev := some { page := 1, limit := 1 } }
      data := [sampleWorkout 3] } rfl

/-- The numbers of a request beyond 2^53 are rounded as JavaScript rounds them: the limit
`-9007199254740993` is `-9007199254740992`, and before the page `9007199254740994` comes
the page `9007199254740992`. -/
theorem large_numbers_rounded :
    limitOf (pageQuery "1" "-9007199254740993") = .finite (-9007199254740992)
      ∧ pageOf (pageQuery "9007199254740994" "1") = .finite 9007199254740994
      ∧ (buildPagination (pageOf (pageQuery "9007199254740994" "1"))
          (limitOf (pageQuery "9007199254740994" "1")) 3).prev
        = some { page := .finite 9007199254740992, limit := .finite 1 } := by
  refine ⟨by decide, by decide, by decide⟩

/-- A list handler spelled out for a request whose `sort` and `select` are strings or
absent: the documents of the collection that match the filter, in the order the database
gives them for the sort asked for or else the default, projected on the fields asked for,
then paged. -/
theorem listHandler_explicit {α : Type} (r : Resource) (paths : Paths α) (coll : Collection α)
    (query : JMembers) (user : ObjectId) (filter : JVal) (sortBy fields : Option (List Char))
    (key : List Char) (ordered : List α)
    (hfilter : buildFilter r query user = some filter)
    (haccepts : coll.accepts filter = true)
    (hsort : query.lookup "sort".toList = sortBy.map JVal.str)
    (hselect : query.lookup "select".toList = fields.map JVal.str)
    (hkey : key = if sortBy.getD [] = []
      then (if r = .progress then "-date".toList else "-createdAt".toList)
      else (sortBy.getD []).map (fun c => if c = ',' then ' ' else c))
    (hordered : ordered = if fields.getD [] = []
      then coll.sort key (coll.docs.filter (fun d => matchesFilter paths coll d filter))
      else (coll.sort key (coll.docs.filter (fun d => matchesFilter paths coll d filter))).map
        (coll.select ((fields.getD []).map (fun c => if c = ',' then ' ' else c)))) :
    listHandler r paths coll query user
        = listPage (pageOf query) (limitOf query)
            (coll.docs.filter (fun d => matchesFilter paths coll d filter)).length
            ordered := by
  have hsel : selectParam query
      = .ok (if fields.getD [] = [] then none
        else some ((fields.getD []).map (fun c => if c = ',' then ' ' else c))) := by
    unfold selectParam
    rw [hselect]
    cases fields with
    | none => rfl
    | some f =>
      by_cases hf : f = []
      · simp [fieldList, hf]
      · simp [fieldList, hf, commasToSpaces]
  have hso : sortParam query
      = .ok (if sortBy.getD [] = [] then none
        else some ((sortBy.getD []).map (fun c => if c = ',' then ' ' else c))) := by
    unfold sortParam
    rw [hsort]
    cases sortBy with
    | none => rfl
    | some s =>
      by_cases hs : s = []
      · simp [fieldList, hs]
      · simp [fieldList, hs, commasToSpaces]
  have hdefault : defaultSort r
      = if r = .progress then "-date".toList else "-createdAt".toList := by
    cases r <;> rfl
  unfold listHandler
  rw [hfilter]
  simp only [hsel, hso, haccepts, if_true]
  congr 1
  rw [hordered, hkey]
  unfold orderedDocs findMatching
  rw [hdefault]
  by_cases hf : fields.getD [] = [] <;> by_cases hs : sortBy.getD [] = [] <;> simp [hf, hs]

/-- The number before a page of at least 1 is not negative. -/
theorem page_before_nonneg (p : JsInt) (hp : 1 ≤ p) :
    p - 1 = .posInf ∨ ∃ k, p - 1 = .finite k ∧ 0 ≤ k := by
  rcases one_le_cases p hp with h | ⟨a, h, ha⟩
  · subst h
    rw [jsInt_one]
    exact Or.inl rfl
  · subst h
    rw [jsInt_one, jsInt_sub_finite]
    exact ofInt_ge 0 (a - 1) (ofInt_small 0 (by norm_num)) (by omega)

/-- The documents a limit of at least 1 leaves. -/
theorem limitDocs_getElem {α : Type} (l : JsInt) (hl : 1 ≤ l) (docs : List α) (i : Nat) :
    (limitDocs l docs)[i]? = if JsInt.finite i < l then docs[i]? else none := by
  rcases one_le_cases l hl with h | ⟨b, h, hb⟩
  · subst h
    have : JsInt.finite i < JsInt.posInf := rfl
    simp [limitDocs, this]
  · subst h
    have h0 : ¬ b = 0 := by omega
    simp only [limitDocs, h0, if_false, List.getElem?_take]
    by_cases hi : i < b.natAbs
    · have : JsInt.finite i < JsInt.finite b := by
        rw [jsInt_lt_iff]
        simp only [JsInt.lt, decide_eq_true_eq]
        omega
      simp [hi, this]
    · have : ¬ JsInt.finite i < JsInt.finite b := by
        rw [jsInt_lt_iff]
        simp only [JsInt.lt, decide_eq_true_eq]
        omega
      simp [hi, this]

/-- C7. For each of the three list handlers, every page and limit of at least 1 and every
request whose `sort` and `select` are strings or absent and whose filter the database
accepts: the matching documents are ordered by the database for the sort asked for, or
else for `-createdAt` (`-date` for progress entries), and projected on the fields asked
for; the reply is a list whose `data` holds, in this order, the documents at the positions
`(page - 1) * limit + 1` to `page * limit` (fewer where they end), with the skip
`(page - 1) * limit` in the arithmetic of JavaScript; its `count` is the length of `data`,
and its `pagination.prev.page` is 1 for page 2. -/
theorem page_slice {α : Type} (r : Resource) (paths : Paths α) (coll : Collection α)
    (query : JMembers) (user : ObjectId) (filter : JVal) (sortBy fields : Option (List Char))
    (key : List Char) (ordered : List α)
    (hfilter : buildFilter r query user = some filter)
    (haccepts : coll.accepts filter = true)
    (hsort : query.lookup "sort".toList = sortBy.map JVal.str)
    (hselect : query.lookup "select".toList = fields.map JVal.str)
    (hkey : key = if sortBy.getD [] = []
      then (if r = .progress then "-date".toList else "-createdAt".toList)
      else (sortBy.getD []).map (fun c => if c = ',' then ' ' else c))
    (hordered : ordered = if fields.getD [] = []
      then coll.sort key (coll.docs.filter (fun d => matchesFilter paths coll d filter))
      else (coll.sort key (coll.docs.filter (fun d => matchesFilter paths coll d filter))).map
        (coll.select ((fields.getD []).map (fun c => if c = ',' then ' ' else c))))
    (hp : 1 ≤ pageOf query) (hl : 1 ≤ limitOf query) :
    ∃ body, listHandler r paths coll query user = .json body
      ∧ body.success = true
      ∧ (∀ s : Int, (pageOf query - 1) * limitOf query = .finite s →
          0 ≤ s ∧ ∀ i : Nat, body.data[i]?
            = if JsInt.finite i < limitOf query then ordered[s.toNat + i]? else none)
      ∧ ((pageOf query - 1) * limitOf query = .posInf → body.data = [])
      ∧ ((pageOf query - 1) * limitOf query = .nan → ∀ i : Nat, body.data[i]?
            = if JsInt.finite i < limitOf query then ordered[i]? else none)
      ∧ body.count = body.data.length
      ∧ (pageOf query = 2 →
          body.pagination.prev = some { page := 1, limit := limitOf query }) := by
  have hrun := listHandler_explicit r paths coll query user filter sortBy fields key ordered
    hfilter haccepts hsort hselect hkey hordered
  have hnn : ¬ (pageOf query - 1) * limitOf query < 0 :=
    mul_nonneg_cases _ _ (page_before_nonneg _ hp) (one_le_cases _ hl)
  obtain ⟨results, hres⟩ := (skipLimit_isSome _ (limitOf query) ordered).2 hnn
  refine ⟨_, by rw [hrun, listPage, hres], rfl, ?_, ?_, ?_, rfl, ?_⟩
  · intro s hs
    rw [hs] at hres hnn
    have hs0 : ¬ s < 0 := by
      intro hneg
      apply hnn
      rw [jsInt_zero, jsInt_lt_iff]
      simpa [JsInt.lt] using hneg
    refine ⟨by omega, ?_⟩
    intro i
    simp only [skipLimit, hs0, if_false, Option.some.injEq] at hres
    show results[i]? = _
    rw [← hres, limitDocs_getElem _ hl, List.getElem?_drop]
  · intro hs
    rw [hs] at hres
    simp only [skipLimit, Option.some.injEq] at hres
    show results = []
    rw [← hres]
  · intro hs i
    rw [hs] at hres
    simp only [skipLimit, Option.some.injEq] at hres
    show results[i]? = _
    rw [← hres, limitDocs_getElem _ hl]
  · intro h2
    show (buildPagination (pageOf query) (limitOf query) _).prev = _
    have hone : pageOf query - 1 = 1 := by
      rw [h2, jsInt_two, jsInt_one, jsInt_sub_finite]
      exact ofInt_small 1 (by norm_num)
    have hpos : 0 < (pageOf query - 1) * limitOf query := by
      apply zero_lt_of_cases
      apply mul_pos_cases _ _ _ (one_le_cases _ hl)
      rw [hone, jsInt_one]
      exact Or.inr ⟨1, rfl, le_refl 1⟩
    simp only [buildPagination, hpos, if_true]
    rw [hone]

/-- The witness of C7: `?page=2&limit=1` on three workouts returns the second one. -/
theorem page_slice_witness :
    ∃ body, getWorkouts sampleWorkouts (pageQuery "2" "1") (ObjectId.ofDigit 1) = .json body
      ∧ body.success = true
      ∧ (∀ s : Int, (pageOf (pageQuery "2" "1") - 1) * limitOf (pageQuery "2" "1") = .finite s →
          0 ≤ s ∧ ∀ i : Nat, body.data[i]?
            = if JsInt.finite i < limitOf (pageQuery "2" "1")
              then [sampleWorkout 2, sampleWorkout 3, sampleWorkout 4][s.toNat + i]?
              else none)
      ∧ ((pageOf (pageQuery "2" "1") - 1) * limitOf (pageQuery "2" "1") = .posInf →
          body.data = [])
      ∧ ((pageOf (pageQuery "2" "1") - 1) * limitOf (pageQuery "2" "1") = .nan →
          ∀ i : Nat, body.data[i]?
            = if JsInt.finite i < limitOf (pageQuery "2" "1")
              then [sampleWorkout 2, sampleWorkout 3, sampleWorkout 4][i]? else none)
      ∧ body.count = body.data.length
      ∧ (pageOf (pageQuery "2" "1") = 2 →
          body.pagination.prev
            = some { page := 1, limit := limitOf (pageQuery "2" "1") }) :=
  page_slice .workouts workoutPaths sampleWorkouts (pageQuery "2" "1") (ObjectId.ofDigit 1)
    (.obj (.cons "user".toList (.str (ObjectId.ofDigit 1).toString) .nil)) none none
    "-createdAt".toList [sampleWorkout 2, sampleWorkout 3, sampleWorkout 4]
    rfl rfl rfl rfl rfl rfl (by decide) (by decide)

/-- C8. For each of the three list handlers, every page and limit of at least 1 whose skip
`(page - 1) * limit`, in the arithmetic of JavaScript, reaches the count of matching
documents, and every query that runs, the reply is a list with `success` true, no `data`,
`count` 0 and no `pagination.next`: it is no error. -/
theorem page_beyond_last {α : Type} (r : Resource) (paths : Paths α) (coll : Collection α)
    (query : JMembers) (user : ObjectId) (hq : queryRuns r coll query user = true)
    (hp : 1 ≤ pageOf query) (hl : 1 ≤ limitOf query)
    (hbeyond : JsInt.finite (matchingCount r paths coll query user)
      ≤ (pageOf query - 1) * limitOf query) :
    ∃ body, listHandler r paths coll query user = .json body
      ∧ body.success = true ∧ body.data = [] ∧ body.count = 0
      ∧ body.pagination.next = none := by
  have hnn : ¬ (pageOf query - 1) * limitOf query < 0 :=
    mul_nonneg_cases _ _ (page_before_nonneg _ hp) (one_le_cases _ hl)
  obtain ⟨body, hb⟩ := (listHandler_json_iff r paths coll query user).2 ⟨hq, hnn⟩
  obtain ⟨results, hres, he⟩ := listHandler_body r paths coll query user body hb
  have hlen := matchingDocs_length r paths coll query user hq
  have hempty : results = [] := by
    rw [jsInt_le_iff] at hbeyond
    cases hs : (pageOf query - 1) * limitOf query with
    | nan => rw [hs] at hbeyond; simp [JsInt.le] at hbeyond
    | negInf => rw [hs] at hbeyond; simp [JsInt.le] at hbeyond
    | posInf =>
      rw [hs] at hres
      simpa [skipLimit] using hres.symm
    | finite s =>
      rw [hs] at hres hbeyond
      have hge : (matchingCount r paths coll query user : Int) ≤ s := by
        simpa [JsInt.le] using hbeyond
      have hs0 : ¬ s < 0 := by omega
      simp only [skipLimit, hs0, if_false, Option.some.injEq] at hres
      have hdrop : (matchingDocs r paths coll query user).drop s.toNat = [] := by
        apply List.drop_eq_nil_of_le
        omega
      rw [← hres, hdrop]
      cases limitOf query <;> simp [limitDocs]
  have hnext : ¬ pageOf query * limitOf query
      < JsInt.ofInt (matchingCount r paths coll query user) := by
    obtain ⟨⟨a, hpa⟩, _, _⟩ := pageOf_cases query
    rw [jsInt_lt_iff]
    rcases one_le_cases _ hp with hpi | ⟨p, hpf, hp1⟩
    · rcases one_le_cases _ hl with hli | ⟨l, hlf, hl1⟩
      · rw [hpi, hli]
        simp [show JsInt.posInf * JsInt.posInf = JsInt.posInf from rfl, JsInt.lt]
      · rw [hpi, hlf]
        have h1 : ¬ l = 0 := by omega
        have h2 : ¬ l < 0 := by omega
        have : JsInt.posInf * JsInt.finite l = JsInt.posInf := by
          show JsInt.mul .posInf (.finite l) = .posInf
          simp [JsInt.mul, h1, h2]
        simp [this, JsInt.lt]
    · rcases one_le_cases _ hl with hli | ⟨l, hlf, hl1⟩
      · rw [hpf, hli]
        have h1 : ¬ p = 0 := by omega
        have h2 : ¬ p < 0 := by omega
        have : JsInt.finite p * JsInt.posInf = JsInt.posInf := by
          show JsInt.mul (.finite p) .posInf = .posInf
          simp [JsInt.mul, h1, h2]
        simp [this, JsInt.lt]
      · have hrep : JsInt.ofInt p = .finite p := ofInt_idem a p (by rw [← hpa, hpf])
        rw [hpf, hlf, jsInt_mul_finite]
        rw [hpf, hlf, jsInt_one, jsInt_sub_finite, jsInt_le_iff] at hbeyond
        rcases ofInt_le p (p - 1) hrep (by omega) with hc | ⟨c, hc, hcp⟩
        · rw [hc] at hbeyond
          have h1 : ¬ l = 0 := by omega
          have h2 : ¬ l < 0 := by omega
          have : JsInt.negInf * JsInt.finite l = JsInt.negInf := by
            show JsInt.mul .negInf (.finite l) = .negInf
            simp [JsInt.mul, h1, h2]
          rw [this] at hbeyond
          simp [JsInt.le] at hbeyond
        · rw [hc, jsInt_mul_finite] at hbeyond
          have hc0 : 0 ≤ c := by
            rcases ofInt_ge 0 (p - 1) (ofInt_small 0 (by norm_num)) (by omega) with h | ⟨k, h, hk⟩
            · rw [hc] at h
              exact JsInt.noConfusion h
            · rw [hc] at h
              have := JsInt.finite.inj h
              omega
          have hprod : c * l ≤ p * l := Int.mul_le_mul_of_nonneg_right hcp (by omega)
          have hmono := ofInt_mono (c * l) (p * l) hprod
          cases he2 : JsInt.ofInt (p * l) with
          | nan => exact absurd he2 (ofInt_ne_nan _)
          | posInf => simp [JsInt.lt]
          | negInf =>
            rw [he2] at hmono
            cases hs2 : JsInt.ofInt (c * l) with
            | nan => exact absurd hs2 (ofInt_ne_nan _)
            | negInf => rw [hs2] at hbeyond; simp [JsInt.le] at hbeyond
            | posInf => rw [hs2] at hmono; simp [JsInt.le] at hmono
            | finite s => rw [hs2] at hmono; simp [JsInt.le] at hmono
          | finite e =>
            rw [he2] at hmono
            have hte : (matchingCount r paths coll query user : Int) ≤ e := by
              cases hs2 : JsInt.ofInt (c * l) with
              | nan => exact absurd hs2 (ofInt_ne_nan _)
              | negInf => rw [hs2] at hbeyond; simp [JsInt.le] at hbeyond
              | posInf => rw [hs2] at hmono; simp [JsInt.le] at hmono
              | finite s =>
                rw [hs2] at hmono hbeyond
                have h1 : (matchingCount r paths coll query user : Int) ≤ s := by
                  simpa [JsInt.le] using hbeyond
                have h2 : s ≤ e := by simpa [JsInt.le] using hmono
                omega
            have hee : JsInt.ofInt e = .finite e := ofInt_idem _ e he2
            rcases ofInt_le e _ hee hte with ht | ⟨t, ht, hte2⟩
            · rw [ht]
              simp [JsInt.lt]
            · rw [ht]
              simp only [JsInt.lt, decide_eq_true_eq]
              omega
  refine ⟨body, hb, by rw [he], ?_, ?_, ?_⟩
  · rw [he]
    exact hempty
  · rw [he]
    simp [hempty]
  · rw [he]
    simp only [buildPagination]
    rw [if_neg hnext]

/-- The witness of C8: `?page=5&limit=2` on three workouts. -/
theorem page_beyond_last_witness :
    ∃ body, getWorkouts sampleWorkouts (pageQuery "5" "2") (ObjectId.ofDigit 1) = .json body
      ∧ body.success = true ∧ body.data = [] ∧ body.count = 0
      ∧ body.pagination.next = none :=
  page_beyond_last .workouts workoutPaths sampleWorkouts (pageQuery "5" "2")
    (ObjectId.ofDigit 1) rfl (by decide) (by decide) (by decide)
/-! ## The statistics -/

/-- C10, the code at the failing input: of two records of one exercise, the first without
a value and the second with the value 100, the aggregation keeps the first, because
`100 > undefined` is false. -/
theorem record_without_value_kept :
    personalRecords [sampleEntry 2 10 emptyMetrics
      [{ exercise := some (ObjectId.ofDigit 7), value := .undefined, unit := none,
         date := some 10 },
       { exercise := some (ObjectId.ofDigit 7), value := .num 100,
         unit := some "kg".toList, date := some 10 }]]
      = .ok [{ date := 10, exercise := some (ObjectId.ofDigit 7), value := .undefined,
               unit := none }] := by
  rfl

/-- C11, the code at the failing input: the records of values 100 and 100 share the
maximum, and the record kept is neither of them but the earlier record without a value. -/
theorem tie_after_missing_value :
    personalRecords [sampleEntry 2 10 emptyMetrics
      [{ exercise := some (ObjectId.ofDigit 7), value := .undefined, unit := none,
         date := some 1 },
       { exercise := some (ObjectId.ofDigit 7), value := .num 100,
         unit := some "kg".toList, date := some 2 },
       { exercise := some (ObjectId.ofDigit 7), value := .num 100,
         unit := some "lb".toList, date := some 3 }]]
      = .ok [{ date := 1, exercise := some (ObjectId.ofDigit 7), value := .undefined,
               unit := none }] := by
  rfl

/-- C12, the code at the failing input: an entry whose weight holds only the default unit
gets an item in `weightProgress`, with no weight. -/
theorem weight_item_without_value :
    weightProgress [sampleEntry 2 10 emptyMetrics []]
      = [{ date := 10, weight := .undefined, unit := "kg".toList }] := by
  decide

/-- C13, the code at the failing input: a recorded body fat of 0 gets no item in
`bodyFatProgress`, while a recorded weight of 0 gets its item in `weightProgress`. -/
theorem zero_body_fat_dropped :
    bodyFatProgress [sampleEntry 2 10 { emptyMetrics with bodyFat := .num 0 } []] = []
      ∧ weightProgress [sampleEntry 2 10
          { emptyMetrics with weight := { value := .num 0, unit := "kg".toList } } []]
        = [{ date := 10, weight := .num 0, unit := "kg".toList }] := by
  decide

/-- C14, the code at the failing input: a recorded chest measurement of 0 gets no item in
the chest series. -/
theorem zero_measurement_dropped :
    (measurementsProgress [sampleEntry 2 10
      { emptyMetrics with
        measurements := { emptyMetrics.measurements with chest := .num 0, waist := .num 80 } }
      []]).chest = []
      ∧ (measurementsProgress [sampleEntry 2 10
      { emptyMetrics with
        measurements := { emptyMetrics.measurements with chest := .num 0, waist := .num 80 } }
      []]).waist = [{ date := 10, value := .num 80 }] := by
  decide

/-- C15, the code at the failing input: with `endDate = 150` in the query and the current
time 300, the entry dated 200 is aggregated all the same. -/
theorem end_date_ignored :
    statsEntries [sampleEntry 2 100 emptyMetrics [], sampleEntry 3 200 emptyMetrics []]
        (ObjectId.ofDigit 1) { startDate := some 0, endDate := some 150 } 300
      = [sampleEntry 2 100 emptyMetrics [], sampleEntry 3 200 emptyMetrics []] := by
  decide

/-! ## The personal records when every record has an exercise and a finite value -/

theorem get_eq_none (id : ObjectId) : ∀ (m : ExerciseMap),
    ExerciseMap.get m id = none ↔ id ∉ m.map Prod.fst := by
  intro m
  induction m with
  | nil => simp [ExerciseMap.get]
  | cons p rest ih =>
    by_cases h : p.1 = id
    · simp [ExerciseMap.get, List.find?_cons, h]
    · have h2 : ¬ id = p.1 := fun e => h e.symm
      simp only [ExerciseMap.get, List.find?_cons, h, decide_False, List.map_cons,
        List.mem_cons, h2, false_or] at ih ⊢
      exact ih

theorem get_eq_some (id : ObjectId) (best : RecordItem) : ∀ (m : ExerciseMap),
    ExerciseMap.get m id = some best → (id, best) ∈ m := by
  intro m
  induction m with
  | nil => simp [ExerciseMap.get]
  | cons p rest ih =>
    by_cases h : p.1 = id
    · intro hg
      simp only [ExerciseMap.get, List.find?_cons, h, decide_True] at hg
      have hb : p.2 = best := by simpa using hg
      have hp : p = (id, best) := by
        rw [← h, ← hb]
      rw [hp]
      exact List.mem_cons_self _ _
    · intro hg
      simp only [ExerciseMap.get, List.find?_cons, h, decide_False] at hg
      exact List.mem_cons_of_mem _ (ih hg)

theorem put_absent (id : ObjectId) (r : RecordItem) : ∀ (m : ExerciseMap),
    id ∉ m.map Prod.fst → ExerciseMap.put id r m = m ++ [(id, r)] := by
  intro m
  induction m with
  | nil => intro _; rfl
  | cons p rest ih =>
    intro h
    simp only [List.map_cons, List.mem_cons, not_or] at h
    have h1 : ¬ p.1 = id := fun e => h.1 e.symm
    simp [ExerciseMap.put, h1, ih h.2]

theorem put_present_keys (id : ObjectId) (r : RecordItem) : ∀ (m : ExerciseMap),
    id ∈ m.map Prod.fst → (ExerciseMap.put id r m).map Prod.fst = m.map Prod.fst := by
  intro m
  induction m with
  | nil => intro h; simp at h
  | cons p rest ih =>
    intro h
    by_cases h1 : p.1 = id
    · simp [ExerciseMap.put, h1]
    · have h2 : id ∈ rest.map Prod.fst := by
        simp only [List.map_cons, List.mem_cons] at h
        rcases h with h | h
        · exact absurd h.symm h1
        · exact h
      simp [ExerciseMap.put, h1, ih h2]

theorem mem_put_present (id : ObjectId) (r : RecordItem) : ∀ (m : ExerciseMap),
    (m.map Prod.fst).Nodup → id ∈ m.map Prod.fst →
    (id, r) ∈ ExerciseMap.put id r m
      ∧ ∀ p ∈ ExerciseMap.put id r m, p = (id, r) ∨ (p ∈ m ∧ p.1 ≠ id) := by
  intro m
  induction m with
  | nil => intro _ h; simp at h
  | cons q rest ih =>
    intro hn h
    simp only [List.map_cons, List.nodup_cons] at hn
    by_cases h1 : q.1 = id
    · simp only [ExerciseMap.put, h1, if_true]
      refine ⟨List.mem_cons_self _ _, ?_⟩
      intro p hp
      simp only [List.mem_cons] at hp
      rcases hp with hp | hp
      · exact Or.inl hp
      · right
        refine ⟨List.mem_cons_of_mem _ hp, ?_⟩
        intro e
        apply hn.1
        rw [h1, ← e]
        exact List.mem_map_of_mem _ hp
    · have h2 : id ∈ rest.map Prod.fst := by
        simp only [List.map_cons, List.mem_cons] at h
        rcases h with h | h
        · exact absurd h.symm h1
        · exact h
      obtain ⟨ha, hb⟩ := ih hn.2 h2
      simp only [ExerciseMap.put, h1, if_false]
      refine ⟨List.mem_cons_of_mem _ ha, ?_⟩
      intro p hp
      simp only [List.mem_cons] at hp
      rcases hp with hp | hp
      · right
        rw [hp]
        exact ⟨List.mem_cons_self _ _, h1⟩
      · rcases hb p hp with hb2 | hb2
        · exact Or.inl hb2
        · exact Or.inr ⟨List.mem_cons_of_mem _ hb2.1, hb2.2⟩

theorem jsGreater_num (a b : Int) :
    jsGreater (.num (.finite a)) (.num (.finite b)) = decide (b < a) := rfl

theorem firstMaximum_snoc (done : List RecordItem) (id : ObjectId) (best r : RecordItem)
    (h : firstMaximum done id best)
    (hr : r.exercise = some id → jsGreater r.value best.value = false) :
    firstMaximum (done ++ [r]) id best := by
  obtain ⟨he, pre, post, hd, hpre, hpost⟩ := h
  refine ⟨he, pre, post ++ [r], ?_, hpre, ?_⟩
  · rw [hd]
    simp
  · intro x hx hxe
    simp only [List.mem_append, List.mem_singleton] at hx
    rcases hx with hx | hx
    · exact hpost x hx hxe
    · rw [hx] at hxe ⊢
      exact hr hxe

theorem firstMaximum_new (done : List RecordItem) (id : ObjectId) (r : RecordItem)
    (he : r.exercise = some id)
    (hall : ∀ x ∈ done, x.exercise = some id → jsGreater r.value x.value = true) :
    firstMaximum (done ++ [r]) id r :=
  ⟨he, done, [], rfl, hall, by simp⟩

theorem entry_unique (m : ExerciseMap) (hn : (m.map Prod.fst).Nodup)
    (p q : ObjectId × RecordItem) (hp : p ∈ m) (hq : q ∈ m) (h : p.1 = q.1) : p = q :=
  List.inj_on_of_nodup_map hn hp hq h

/-- The loop of `groupRecords` on records that each have an exercise and a finite value: it
ends, and every property of the map is the first maximum of its exercise among the
records seen, each of which has its exercise in the map. -/
theorem groupRecords_valued : ∀ (rest done : List RecordItem) (m : ExerciseMap),
    (∀ r ∈ rest, ∃ id n, r.exercise = some id ∧ r.value = .num (.finite n)) →
    (m.map Prod.fst).Nodup →
    (∀ p ∈ m, (∃ n, p.2.value = .num (.finite n)) ∧ firstMaximum done p.1 p.2) →
    (∀ r ∈ done, ∃ id n, r.exercise = some id ∧ r.value = .num (.finite n)
      ∧ id ∈ m.map Prod.fst) →
    ∃ m2, groupRecords m rest = .ok m2 ∧ (m2.map Prod.fst).Nodup
      ∧ (∀ p ∈ m2, firstMaximum (done ++ rest) p.1 p.2)
      ∧ (∀ r ∈ done ++ rest, ∃ id, r.exercise = some id ∧ id ∈ m2.map Prod.fst)
  | [], done, m, _, hn, hm, hd => by
    refine ⟨m, rfl, hn, ?_, ?_⟩
    · intro p hp
      rw [List.append_nil]
      exact (hm p hp).2
    · intro r hr
      rw [List.append_nil] at hr
      obtain ⟨id, _, he, _, hk⟩ := hd r hr
      exact ⟨id, he, hk⟩
  | r :: rest, done, m, hrest, hn, hm, hd => by
    obtain ⟨id, n, he, hv⟩ := hrest r (List.mem_cons_self _ _)
    have hrest2 : ∀ x ∈ rest, ∃ id n, x.exercise = some id ∧ x.value = .num (.finite n) :=
      fun x hx => hrest x (List.mem_cons_of_mem _ hx)
    have hassoc : done ++ r :: rest = (done ++ [r]) ++ rest := by simp
    rw [hassoc]
    cases hg : ExerciseMap.get m id with
    | none =>
      have hnot : id ∉ m.map Prod.fst := (get_eq_none id m).1 hg
      have hstep : groupRecords m (r :: rest)
          = groupRecords (ExerciseMap.put id r m) rest := by
        simp [groupRecords, groupStep, he, hg]
      rw [hstep, put_absent id r m hnot]
      apply groupRecords_valued rest (done ++ [r]) (m ++ [(id, r)]) hrest2
      · rw [List.map_append, List.nodup_append]
        refine ⟨hn, by simp, ?_⟩
        intro a ha hb
        simp only [List.map_cons, List.map_nil, List.mem_singleton] at hb
        exact hnot (hb ▸ ha)
      · intro p hp
        simp only [List.mem_append, List.mem_singleton] at hp
        rcases hp with hp | hp
        · refine ⟨(hm p hp).1, firstMaximum_snoc done p.1 p.2 r (hm p hp).2 ?_⟩
          intro hre
          exfalso
          rw [he] at hre
          have hid : id = p.1 := Option.some.inj hre
          exact hnot (hid ▸ List.mem_map_of_mem Prod.fst hp)
        · rw [hp]
          refine ⟨⟨n, hv⟩, firstMaximum_new done id r he ?_⟩
          intro x hx hxe
          exfalso
          obtain ⟨id2, _, he2, _, hk⟩ := hd x hx
          rw [hxe] at he2
          exact hnot ((Option.some.inj he2) ▸ hk)
      · intro x hx
        simp only [List.mem_append, List.mem_singleton] at hx
        rcases hx with hx | hx
        · obtain ⟨id2, n2, he2, hv2, hk⟩ := hd x hx
          exact ⟨id2, n2, he2, hv2, by simp [hk]⟩
        · rw [hx]
          exact ⟨id, n, he, hv, by simp⟩
    | some best =>
      have hmem : (id, best) ∈ m := get_eq_some id best m hg
      have hkey : id ∈ m.map Prod.fst := List.mem_map_of_mem Prod.fst hmem
      obtain ⟨⟨nb, hvb0⟩, hbest0⟩ := hm (id, best) hmem
      have hvb : best.value = .num (.finite nb) := hvb0
      have hbest : firstMaximum done id best := hbest0
      have hseen : ∀ x ∈ done ++ [r],
          ∃ id n, x.exercise = some id ∧ x.value = .num (.finite n)
            ∧ id ∈ m.map Prod.fst := by
        intro x hx
        simp only [List.mem_append, List.mem_singleton] at hx
        rcases hx with hx | hx
        · exact hd x hx
        · rw [hx]
          exact ⟨id, n, he, hv, hkey⟩
      by_cases hgt : nb < n
      · have hstep : groupRecords m (r :: rest)
            = groupRecords (ExerciseMap.put id r m) rest := by
          simp [groupRecords, groupStep, he, hg, hv, hvb, jsGreater_num, hgt]
        rw [hstep]
        obtain ⟨hin, hout⟩ := mem_put_present id r m hn hkey
        apply groupRecords_valued rest (done ++ [r]) (ExerciseMap.put id r m) hrest2
        · rw [put_present_keys id r m hkey]
          exact hn
        · intro p hp
          rcases hout p hp with hp2 | hp2
          · rw [hp2]
            refine ⟨⟨n, hv⟩, firstMaximum_new done id r he ?_⟩
            intro x hx hxe
            obtain ⟨_, nx, _, hvx, _⟩ := hd x hx
            obtain ⟨_, pre, post, hdone, hpre, hpost⟩ := hbest
            rw [hdone] at hx
            simp only [List.mem_append, List.mem_cons] at hx
            rw [hv, hvx, jsGreater_num]
            rcases hx with hx | hx | hx
            · have h1 := hpre x hx hxe
              rw [hvb, hvx, jsGreater_num] at h1
              have h2 : nx < nb := of_decide_eq_true h1
              exact decide_eq_true (by omega)
            · rw [hx, hvb] at hvx
              have h2 : nb = nx := by simpa using hvx
              exact decide_eq_true (by omega)
            · have h1 := hpost x hx hxe
              rw [hvb, hvx, jsGreater_num] at h1
              have h2 : ¬ nb < nx := of_decide_eq_false h1
              exact decide_eq_true (by omega)
          · refine ⟨(hm p hp2.1).1, firstMaximum_snoc done p.1 p.2 r (hm p hp2.1).2 ?_⟩
            intro hre
            exfalso
            rw [he] at hre
            exact hp2.2 (Option.some.inj hre).symm
        · rw [put_present_keys id r m hkey]
          exact hseen
      · have hstep : groupRecords m (r :: rest) = groupRecords m rest := by
          simp [groupRecords, groupStep, he, hg, hv, hvb, jsGreater_num, hgt]
        rw [hstep]
        apply groupRecords_valued rest (done ++ [r]) m hrest2 hn
        · intro p hp
          refine ⟨(hm p hp).1, firstMaximum_snoc done p.1 p.2 r (hm p hp).2 ?_⟩
          intro hre
          rw [he] at hre
          have hid : id = p.1 := Option.some.inj hre
          have hpq : p = (id, best) := entry_unique m hn p (id, best) hp hmem hid.symm
          rw [hpq, hv, hvb, jsGreater_num]
          exact decide_eq_false hgt
        · exact hseen

/-- The personal records when every record has an exercise and a finite value: the aggregation
ends with one record for each exercise that occurs, and this record is the first of the
greatest value among the records of its exercise. -/
theorem personalRecords_first_maximum (entries : List Progress)
    (h : ∀ r ∈ allRecords entries,
      ∃ id n, r.exercise = some id ∧ r.value = .num (.finite n)) :
    ∃ out, personalRecords entries = .ok out
      ∧ (out.map RecordItem.exercise).Nodup
      ∧ (∀ best ∈ out, ∃ id, firstMaximum (allRecords entries) id best)
      ∧ (∀ r ∈ allRecords entries, ∃ best ∈ out, best.exercise = r.exercise) := by
  obtain ⟨m, hrun, hn, hm, hall⟩ := groupRecords_valued (allRecords entries) [] []
    h (by simp) (by simp) (by simp)
  simp only [List.nil_append] at hm hall
  have hkeys : m.map (fun p => p.2.exercise) = m.map (fun p => some p.1) := by
    apply List.map_congr_left
    intro p hp
    exact (hm p hp).1
  refine ⟨m.map Prod.snd, by simp [personalRecords, hrun], ?_, ?_, ?_⟩
  · rw [List.map_map]
    have hfun : (RecordItem.exercise ∘ Prod.snd) = fun (p : ObjectId × RecordItem) =>
        p.2.exercise := rfl
    rw [hfun, hkeys]
    have hsome : m.map (fun p => some p.1) = (m.map Prod.fst).map some := by
      rw [List.map_map]
      rfl
    rw [hsome]
    exact hn.map (Option.some_injective _)
  · intro best hb
    simp only [List.mem_map] at hb
    obtain ⟨p, hp, rfl⟩ := hb
    exact ⟨p.1, hm p hp⟩
  · intro r hr
    obtain ⟨id, he, hk⟩ := hall r hr
    simp only [List.mem_map] at hk
    obtain ⟨p, hp, hpid⟩ := hk
    refine ⟨p.2, List.mem_map_of_mem Prod.snd hp, ?_⟩
    rw [(hm p hp).1, he, hpid]

/-! ## The virtuals of a workout -/

theorem double_add_zero (v : Double) : v + .finite 0 = v := by
  cases v with
  | nan => rfl
  | negInf => rfl
  | posInf => rfl
  | finite x =>
    show Double.add (.finite x) (.finite 0) = .finite x
    by_cases hx : x = 0
    · simp [Double.add, hx]
    · simp [Double.add, hx]

theorem shiftLeft_not_le_zero (k : Nat) : ¬ 1 <<< k ≤ 0 := by
  rw [one_shiftLeft]
  exact Nat.not_le.2 (Nat.pos_pow_of_pos k (by norm_num))

theorem double_zero : (0 : Double) = .finite 0 := by decide

theorem double_zero_mul (b : Int) : Double.finite 0 * Double.finite b = .finite 0 := by
  show Double.mul (.finite 0) (.finite b) = .finite 0
  have h : roundBits 0 1074 = 0 := by decide
  have hlt : ¬ 1 <<< 2098 ≤ 0 := shiftLeft_not_le_zero 2098
  simp only [Double.mul, Int.natAbs_zero, Nat.zero_mul, h, Double.ofMagnitude, hlt, if_false]
  cases decide ((0 : Int) < 0) != decide (b < 0) <;> simp

theorem double_mul_zero (a : Int) : Double.finite a * Double.finite 0 = .finite 0 := by
  show Double.mul (.finite a) (.finite 0) = .finite 0
  have h : roundBits 0 1074 = 0 := by decide
  have hlt : ¬ 1 <<< 2098 ≤ 0 := shiftLeft_not_le_zero 2098
  simp only [Double.mul, Int.natAbs_zero, Nat.mul_zero, h, Double.ofMagnitude, hlt, if_false]
  cases decide (a < 0) != decide ((0 : Int) < 0) <;> simp

theorem volumeStep_eq (volume : Double) (set : WorkoutSet) :
    volumeStep volume set = if set.completed then volume + set.volume else volume := by
  unfold volumeStep WorkoutSet.volume
  cases hc : set.completed
  · simp
  · cases hw : set.weight.truthy <;> cases hr : set.reps.truthy <;>
      simp [double_add_zero]

theorem foldl_volumeStep (sets : List WorkoutSet) : ∀ (volume : Double),
    sets.foldl volumeStep volume
      = (sets.filter (fun s => s.completed)).foldl (fun v s => v + s.volume) volume := by
  induction sets with
  | nil => intro volume; rfl
  | cons s rest ih =>
    intro volume
    rw [List.foldl_cons, ih, volumeStep_eq]
    cases hc : s.completed
    · simp [List.filter_cons, hc]
    · simp [List.filter_cons, hc]

theorem foldl_exercises_volume (exercises : List WorkoutExercise) : ∀ (volume : Double),
    exercises.foldl (fun v exercise => exercise.sets.foldl volumeStep v) volume
      = ((exercises.flatMap WorkoutExercise.sets).filter (fun s => s.completed)).foldl
          (fun v s => v + s.volume) volume := by
  induction exercises with
  | nil => intro volume; rfl
  | cons e rest ih =>
    intro volume
    rw [List.foldl_cons, ih, foldl_volumeStep]
    simp only [List.flatMap_cons, List.filter_append, List.foldl_append]

/-- C16. For every workout the virtual `totalVolume` is the sum of weight times reps over
the completed sets of all its exercises, added set after set in the double arithmetic of
JavaScript, a set lacking weight or reps contributing 0: a set whose weight or reps is
undefined or null adds 0, and one whose weight and reps are finite numbers adds their
rounded product. It is 0 when no set is completed, and 500 for one completed set of
10 reps at weight 50. -/
theorem totalVolume_spec (w : Workout) :
    w.totalVolume = w.specVolume
      ∧ (∀ s : WorkoutSet,
          (s.weight = .undefined ∨ s.weight = .null ∨ s.reps = .undefined ∨ s.reps = .null →
            s.volume = 0)
          ∧ (∀ a b : Int, s.weight = .num (.finite a) → s.reps = .num (.finite b) →
            s.volume = Double.finite a * Double.finite b))
      ∧ ((∀ s ∈ w.allSets, s.completed = false) → w.totalVolume = 0)
      ∧ (∀ (d : Fin 16) (completed : Bool),
          ({ sampleWorkout d with
              exercises := [{ exercise := ObjectId.ofDigit 7
                              sets := [{ setNumber := .num 1, reps := .num 10
                                         weight := .num 50, duration := .undefined
                                         distance := .undefined
                                         completed := completed }] }] } : Workout).totalVolume
            = if completed then 500 else 0) := by
  have h : w.totalVolume = w.specVolume := by
    simp only [Workout.totalVolume, Workout.specVolume, Workout.allSets,
      foldl_exercises_volume]
  refine ⟨h, ?_, ?_, ?_⟩
  · intro s
    constructor
    · intro hs
      rw [double_zero]
      rcases hs with hs | hs | hs | hs <;>
        simp [WorkoutSet.volume, hs, JsNumber.truthy]
    · intro a b ha hb
      by_cases ha0 : a = 0
      · subst ha0
        rw [double_zero_mul]
        simp [WorkoutSet.volume, ha, hb, JsNumber.truthy, Double.truthy]
      · by_cases hb0 : b = 0
        · subst hb0
          rw [double_mul_zero]
          simp [WorkoutSet.volume, ha, hb, JsNumber.truthy, Double.truthy]
        · simp [WorkoutSet.volume, ha, hb, JsNumber.truthy, Double.truthy, ha0, hb0,
            JsNumber.toNumber]
  · intro hall
    rw [h, Workout.specVolume, double_zero]
    have : w.allSets.filter (fun s => s.completed) = [] := by
      rw [List.filter_eq_nil_iff]
      intro s hs
      simp [hall s hs]
    rw [this]
    rfl
  · intro d completed
    cases completed <;> rfl

/-- The witness of C16: a workout whose only set is not completed has volume 0. -/
theorem totalVolume_spec_witness :
    ({ sampleWorkout 2 with
        exercises := [{ exercise := ObjectId.ofDigit 7
                        sets := [{ setNumber := .num 1, reps := .num 10, weight := .num 50
                                   duration := .undefined, distance := .undefined
                                   completed := false }] }] } : Workout).totalVolume = 0 :=
  (totalVolume_spec _).2.2.1 (by decide)

/-- The volume is rounded as JavaScript rounds it: one completed set of 94906267 reps at
weight 94906267 has the volume 9007199515875288, the exact product being odd, and one of
4 reps at weight 2.5, which is `5 * 2 ^ 1073` units, has the volume 10. -/
theorem volume_rounded :
    ({ sampleWorkout 2 with
        exercises := [{ exercise := ObjectId.ofDigit 7
                        sets := [{ setNumber := .num 1, reps := .num 94906267
                                   weight := .num 94906267, duration := .undefined
                                   distance := .undefined
                                   completed := true }] }] } : Workout).totalVolume
        = 9007199515875288
      ∧ ({ sampleWorkout 2 with
          exercises := [{ exercise := ObjectId.ofDigit 7
                          sets := [{ setNumber := .num 1, reps := .num 4
                                     weight := .num (.finite (Int.ofNat (5 <<< 1073)))
                                     duration := .undefined, distance := .undefined
                                     completed := true }] }] } : Workout).totalVolume
        = 10 := by
  constructor <;> decide

theorem foldl_completed (sets : List WorkoutSet) : ∀ (c : Nat),
    sets.foldl (fun c set => if set.completed then c + 1 else c) c
      = c + (sets.filter (fun s => s.completed)).length := by
  induction sets with
  | nil => intro c; simp
  | cons s rest ih =>
    intro c
    simp only [List.foldl_cons, ih]
    cases hc : s.completed
    · simp [List.filter_cons, hc]
    · simp [List.filter_cons, hc]
      omega

theorem foldl_exercises_completed (exercises : List WorkoutExercise) : ∀ (c : Nat),
    exercises.foldl (fun completed exercise =>
      exercise.sets.foldl (fun c set => if set.completed then c + 1 else c) completed) c
      = c + ((exercises.flatMap WorkoutExercise.sets).filter (fun s => s.completed)).length := by
  induction exercises with
  | nil => intro c; simp
  | cons e rest ih =>
    intro c
    rw [List.foldl_cons, ih, foldl_completed]
    simp only [List.flatMap_cons, List.filter_append, List.length_append]
    omega

theorem foldl_exercises_total (exercises : List WorkoutExercise) : ∀ (t : Nat),
    exercises.foldl (fun total exercise => total + exercise.sets.length) t
      = t + (exercises.map (fun e => e.sets.length)).sum := by
  induction exercises with
  | nil => intro t; simp
  | cons e rest ih =>
    intro t
    simp only [List.foldl_cons, ih, List.map_cons, List.sum_cons]
    omega

theorem length_flatMap_sets (exercises : List WorkoutExercise) :
    (exercises.flatMap WorkoutExercise.sets).length
      = (exercises.map (fun e => e.sets.length)).sum := by
  induction exercises with
  | nil => rfl
  | cons e rest ih => simp [List.flatMap_cons, ih]

/-- C17. For every workout the virtual `completedSets` is the number of sets, over all
exercises, whose `completed` is true, the virtual `totalSets` is the sum of the lengths of
the set lists, and `completedSets` is at most `totalSets`. -/
theorem set_counts (w : Workout) :
    w.completedSets = (w.allSets.filter (fun s => s.completed)).length
      ∧ w.totalSets = (w.exercises.map (fun e => e.sets.length)).sum
      ∧ w.completedSets ≤ w.totalSets := by
  have h1 : w.completedSets = (w.allSets.filter (fun s => s.completed)).length := by
    simp [Workout.completedSets, Workout.allSets, foldl_exercises_completed]
  have h2 : w.totalSets = (w.exercises.map (fun e => e.sets.length)).sum := by
    simp [Workout.totalSets, foldl_exercises_total]
  refine ⟨h1, h2, ?_⟩
  rw [h1, h2, ← length_flatMap_sets]
  exact List.length_filter_le _ _

/-! ## The required predicates of a set -/

/-- C19, the code on every set: each required function reads `category` of the missing
`this.exercise` and raises a TypeError instead of yielding a Boolean. -/
theorem required_predicates_throw (set : WorkoutSet) :
    repsRequired set = .error .typeError
      ∧ weightRequired set = .error .typeError
      ∧ durationRequired set = .error .typeError
      ∧ distanceRequired set = .error .typeError :=
  ⟨rfl, rfl, rfl, rfl⟩

/-! ## The exercise check of `createWorkout` and `updateWorkout` -/

/-- When the list of the body references an id that no accessible exercise has, the
exercises found are fewer than the ids, and the check rejects. The `_id`s of a collection
are distinct. -/
theorem exercisesRejected_of_inaccessible (exercises : List Exercise)
    (exs : List WorkoutExercise) (user b : ObjectId)
    (hnodup : (exercises.map Exercise._id).Nodup)
    (hb : b ∈ exs.map WorkoutExercise.exercise)
    (hbad : ∀ e ∈ exercises, e._id = b → ¬ (e.user = some user ∨ e.isCustom = false)) :
    exercisesRejected exercises (some exs) user = true := by
  have hpos : exs.length > 0 := by
    cases exs with
    | nil => simp at hb
    | cons x xs => simp
  have hsub : ((accessibleExercises exercises (exs.map WorkoutExercise.exercise) user).map
      Exercise._id).Subperm ((exs.map WorkoutExercise.exercise).erase b) := by
    apply List.subperm_of_subset
    · exact (hnodup.sublist ((List.filter_sublist _).map _))
    · intro x hx
      simp only [accessibleExercises, List.mem_map, List.mem_filter, Bool.and_eq_true,
        Bool.or_eq_true, decide_eq_true_eq] at hx
      obtain ⟨e, ⟨he, hid, hacc⟩, hxe⟩ := hx
      have hne : x ≠ b := by
        intro hxb
        exact hbad e he (hxe.trans hxb) hacc
      rw [← hxe] at hne ⊢
      exact (List.mem_erase_of_ne hne).2 (by simpa using hid)
  have hlen := hsub.length_le
  rw [List.length_erase_of_mem hb] at hlen
  simp only [List.length_map] at hlen
  have hlt : (accessibleExercises exercises (exs.map WorkoutExercise.exercise) user).length
      ≠ exs.length := by
    omega
  simp [exercisesRejected, hpos, hlt]

/-- C18, the claim as stated fails: an update of another user's workout whose body
references an exercise that does not exist is answered with 401, not 404. -/
theorem update_foreign_workout_counterexample :
    updateWorkout (fun _ => true) [] [sampleWorkout 2]
        { user := ObjectId.ofDigit 5
          paramsId := List.replicate 24 '2'
          body := { name := none
                    exercises := some [{ exercise := ObjectId.ofDigit 9, sets := [] }]
                    isTemplate := none, isCompleted := none, user := none } }
      = (.error ⟨"User not authorized to update this workout", 401⟩, [sampleWorkout 2]) := by
  decide

/-- C18, amended. For every `createWorkout` or `updateWorkout` request whose list of
exercises references an id that no exercise owned by the caller or public has, no workout
is inserted or modified and the reply is no success; it is the error 404 of the check once
the request has passed the checks before it: the name check of the route for
`createWorkout`, the lookup and the ownership of the workout for `updateWorkout`. -/
theorem inaccessible_exercise_rejected (valid : Workout → Bool) (newId : ObjectId)
    (exercises : List Exercise) (store : List Workout) (req : Request WorkoutBody)
    (exs : List WorkoutExercise) (b : ObjectId)
    (hbody : req.body.exercises = some exs)
    (hnodup : (exercises.map Exercise._id).Nodup)
    (hb : b ∈ exs.map WorkoutExercise.exercise)
    (hbad : ∀ e ∈ exercises, e._id = b → ¬ (e.user = some req.user ∨ e.isCustom = false)) :
    ((createWorkout valid newId exercises store req).2 = store
        ∧ (createWorkout valid newId exercises store req).1.data? = none
        ∧ (workoutRouteValid req.body = true →
            (createWorkout valid newId exercises store req).1
              = .error ⟨"One or more exercises not found or not accessible", 404⟩))
      ∧ ((updateWorkout valid exercises store req).2 = store
        ∧ (updateWorkout valid exercises store req).1.data? = none
        ∧ (∀ id workout, castObjectId req.paramsId = some id →
            findById Workout._id store id = some workout → workout.user = req.user →
            (updateWorkout valid exercises store req).1
              = .error ⟨"One or more exercises not found or not accessible", 404⟩)) := by
  have hrej : exercisesRejected exercises req.body.exercises req.user = true := by
    rw [hbody]
    exact exercisesRejected_of_inaccessible exercises exs req.user b hnodup hb hbad
  constructor
  · cases hv : workoutRouteValid req.body <;>
      simp [createWorkout, hv, hrej, Reply.data?]
  · have hmain : ∀ id workout, castObjectId req.paramsId = some id →
        findById Workout._id store id = some workout → workout.user = req.user →
        updateWorkout valid exercises store req
          = (.error ⟨"One or more exercises not found or not accessible", 404⟩, store) := by
      intro id workout hid hfind howner
      simp [updateWorkout, hid, hfind, howner, Request.userId, hrej]
    have hthird : ∀ id workout, castObjectId req.paramsId = some id →
        findById Workout._id store id = some workout → workout.user = req.user →
        (updateWorkout valid exercises store req).1
          = .error ⟨"One or more exercises not found or not accessible", 404⟩ := by
      intro id workout hid hfind howner
      rw [hmain id workout hid hfind howner]
    refine ⟨?_, ?_, hthird⟩
    · cases hid : castObjectId req.paramsId with
      | none => simp [updateWorkout, hid]
      | some id =>
        cases hfind : findById Workout._id store id with
        | none => simp [updateWorkout, hid, hfind]
        | some workout =>
          by_cases howner : workout.user = req.user
          · rw [hmain id workout hid hfind howner]
          · have hne : workout.user.toString ≠ req.user.toString :=
              fun e => howner (ObjectId.toString_injective _ _ e)
            simp [updateWorkout, hid, hfind, Request.userId, hne]
    · cases hid : castObjectId req.paramsId with
      | none => simp [updateWorkout, hid, Reply.data?]
      | some id =>
        cases hfind : findById Workout._id store id with
        | none => simp [updateWorkout, hid, hfind, Reply.data?]
        | some workout =>
          by_cases howner : workout.user = req.user
          · rw [hmain id workout hid hfind howner]
            rfl
          · have hne : workout.user.toString ≠ req.user.toString :=
              fun e => howner (ObjectId.toString_injective _ _ e)
            simp [updateWorkout, hid, hfind, Request.userId, hne, Reply.data?]

/-- The witness of C18 amended: the owner of a workout names an exercise that does not
exist. -/
theorem inaccessible_exercise_rejected_witness :
    (updateWorkout (fun _ => true) [] [sampleWorkout 2]
        { user := ObjectId.ofDigit 1
          paramsId := List.replicate 24 '2'
          body := { name := some "Push".toList
                    exercises := some [{ exercise := ObjectId.ofDigit 9, sets := [] }]
                    isTemplate := none, isCompleted := none, user := none } }).1
      = .error ⟨"One or more exercises not found or not accessible", 404⟩ :=
  (inaccessible_exercise_rejected (fun _ => true) (ObjectId.ofDigit 3) [] [sampleWorkout 2]
    { user := ObjectId.ofDigit 1
      paramsId := List.replicate 24 '2'
      body := { name := some "Push".toList
                exercises := some [{ exercise := ObjectId.ofDigit 9, sets := [] }]
                isTemplate := none, isCompleted := none, user := none } }
    [{ exercise := ObjectId.ofDigit 9, sets := [] }] (ObjectId.ofDigit 9) rfl (by decide)
    (by decide) (by decide)).2.2.2 (ObjectId.ofDigit 2) (sampleWorkout 2) (by decide)
    (by decide) (by decide)

/-! ## Progress entries and their dates -/

/-- C20, the claim as stated fails: the same user creates two entries for the date 10 and
both are stored, and an update moves the entry of the date 20 to the date 10 of another
entry of the same user. -/
theorem two_entries_one_date_counterexample :
    (createProgressEntry (fun _ => true) (ObjectId.ofDigit 3) 0
      (createProgressEntry (fun _ => true) (ObjectId.ofDigit 2) 0 []
        { user := ObjectId.ofDigit 1, paramsId := []
          body := { user := none, date := some 10, metrics := none
                    personalRecords := none, notes := none } }).2
      { user := ObjectId.ofDigit 1, paramsId := []
        body := { user := none, date := some 10, metrics := none
                  personalRecords := none, notes := none } })
      = (.json 201 (sampleEntry 3 10 emptyMetrics []),
          [sampleEntry 2 10 emptyMetrics [], sampleEntry 3 10 emptyMetrics []])
    ∧ updateProgressEntry (fun _ => true)
        [sampleEntry 2 10 emptyMetrics [], sampleEntry 3 20 emptyMetrics []]
        { user := ObjectId.ofDigit 1, paramsId := List.replicate 24 '3'
          body := { user := none, date := some 10, metrics := none
                    personalRecords := none, notes := none } }
      = (.json 200 (sampleEntry 3 10 emptyMetrics []),
          [sampleEntry 2 10 emptyMetrics [], sampleEntry 3 10 emptyMetrics []]) := by
  decide

/-- C20, amended. Neither the schema nor the handlers compare dates: for every collection,
whatever entries it holds, `createProgressEntry` with a document the validators accept
stores a new entry of the caller at the date of the body, and `updateProgressEntry` of an
entry of the caller with a document the validators accept writes the date of the body, so
that a user may have several entries for one date. -/
theorem create_ignores_dates (valid : Progress → Bool) (newId : ObjectId) (now : Int)
    (store : List Progress) (req : Request ProgressBody) :
    (valid { _id := newId, user := req.user, date := req.body.date.getD now
             metrics := req.body.metrics.getD emptyMetrics
             personalRecords := req.body.personalRecords.getD []
             notes := req.body.notes } = true →
      ∃ entry, createProgressEntry valid newId now store req
          = (.json 201 entry, store ++ [entry])
        ∧ entry.user = req.user ∧ entry.date = req.body.date.getD now)
    ∧ (∀ id old, castObjectId req.paramsId = some id →
        findById Progress._id store id = some old → old.user = req.user →
        valid (old.applyBody req.body) = true →
        updateProgressEntry valid store req
            = (.json 200 (old.applyBody req.body),
                replaceById Progress._id id (old.applyBody req.body) store)
          ∧ (old.applyBody req.body).date = req.body.date.getD old.date) := by
  constructor
  · intro hvalid
    refine ⟨{ _id := newId, user := req.user, date := req.body.date.getD now
              metrics := req.body.metrics.getD emptyMetrics
              personalRecords := req.body.personalRecords.getD []
              notes := req.body.notes }, ?_, rfl, rfl⟩
    simp [createProgressEntry, hvalid]
  · intro id old hid hfind howner hvalid
    refine ⟨?_, rfl⟩
    simp [updateProgressEntry, hid, hfind, howner, Request.userId, hvalid]

/-- The witness of C20 amended: an entry for the date 10 on top of one. -/
theorem create_ignores_dates_witness :
    ∃ entry, createProgressEntry (fun _ => true) (ObjectId.ofDigit 3) 0
        [sampleEntry 2 10 emptyMetrics []]
        { user := ObjectId.ofDigit 1, paramsId := []
          body := { user := none, date := some 10, metrics := none
                    personalRecords := none, notes := none } }
        = (.json 201 entry, [sampleEntry 2 10 emptyMetrics []] ++ [entry])
      ∧ entry.user = ObjectId.ofDigit 1 ∧ entry.date = (some (10 : Int)).getD 0 :=
  (create_ignores_dates (fun _ => true) (ObjectId.ofDigit 3) 0
    [sampleEntry 2 10 emptyMetrics []]
    { user := ObjectId.ofDigit 1, paramsId := []
      body := { user := none, date := some 10, metrics := none
                personalRecords := none, notes := none } }).1 rfl

/-! ## Reading and creating exercises -/

/-- C21. For every stored exercise and every caller, `getExercise` answers 200 with the
exercise when it is public, and when it is custom and its `user` is the caller, and hands
the error 401, which carries no record, to the error step when it is custom and owned by
another user; the collection stays as it was. -/
theorem getExercise_access (store : List Exercise) (exercise : Exercise)
    (caller : ObjectId) (paramsId : List Char)
    (hid : castObjectId paramsId = some exercise._id)
    (hstored : findById Exercise._id store exercise._id = some exercise) :
    (exercise.isCustom = false →
        getExercise store ⟨caller, paramsId, ()⟩ = (.json 200 exercise, store))
      ∧ (exercise.isCustom = true → exercise.user = some caller →
        getExercise store ⟨caller, paramsId, ()⟩ = (.json 200 exercise, store))
      ∧ (∀ owner, exercise.isCustom = true → exercise.user = some owner → owner ≠ caller →
        getExercise store ⟨caller, paramsId, ()⟩
            = (.error ⟨"Not authorized to access this exercise", 401⟩, store)
          ∧ (getExercise store ⟨caller, paramsId, ()⟩).1.data? = none) := by
  refine ⟨?_, ?_, ?_⟩
  · intro hpublic
    simp [getExercise, hid, hstored, Exercise.customOfOther, hpublic]
  · intro hcustom howner
    simp [getExercise, hid, hstored, Exercise.customOfOther, hcustom, howner, Request.userId]
  · intro owner hcustom howner hne
    have hs : owner.toString ≠ caller.toString :=
      fun h => hne (ObjectId.toString_injective _ _ h)
    simp [getExercise, hid, hstored, Exercise.customOfOther, hcustom, howner, Request.userId,
      hs, Reply.data?]

/-- The witness of C21: the custom exercise of the user `55…5`, read by the user `11…1`. -/
theorem getExercise_access_witness :
    getExercise sampleExercises.docs ⟨ObjectId.ofDigit 1, List.replicate 24 '6', ()⟩
      = (.error ⟨"Not authorized to access this exercise", 401⟩, sampleExercises.docs) :=
  ((getExercise_access sampleExercises.docs
    (sampleExercise 6 true (some (ObjectId.ofDigit 5))) (ObjectId.ofDigit 1)
    (List.replicate 24 '6') (by decide) (by decide)).2.2 (ObjectId.ofDigit 5) rfl rfl
    (by decide)).1

/-- C22. For every request body that passes the checks of the route and the validators of
the schema, whatever `user` and `isCustom` it carries, `createExercise` answers 201 with
an exercise that has `isCustom = true` and the caller as `user`, and stores this exercise;
and no reply of `createExercise` ever carries a public exercise or one of another user. -/
theorem created_exercise_custom (valid : Exercise → Bool) (newId : ObjectId)
    (store : List Exercise) (req : Request ExerciseBody)
    (hroute : exerciseRouteValid req.body = true)
    (hvalid : valid { _id := newId, name := req.body.name.getD []
                      category := req.body.category.getD [], isCustom := true
                      user := some req.user } = true) :
    (∃ exercise, createExercise valid newId store req
          = (.json 201 exercise, store ++ [exercise])
        ∧ exercise.isCustom = true ∧ exercise.user = some req.user)
      ∧ ∀ (valid2 : Exercise → Bool) (id2 : ObjectId) (store2 : List Exercise)
          (req2 : Request ExerciseBody) (status : Nat) (exercise : Exercise),
          (createExercise valid2 id2 store2 req2).1 = .json status exercise →
          exercise.isCustom = true ∧ exercise.user = some req2.user
            ∧ (createExercise valid2 id2 store2 req2).2 = store2 ++ [exercise] := by
  constructor
  · refine ⟨{ _id := newId, name := req.body.name.getD []
              category := req.body.category.getD [], isCustom := true
              user := some req.user }, ?_, rfl, rfl⟩
    simp [createExercise, hroute, hvalid]
  · intro valid2 id2 store2 req2 status exercise h
    unfold createExercise at h ⊢
    cases hr : exerciseRouteValid req2.body
    · simp [hr] at h
    · cases hv : valid2 { _id := id2, name := req2.body.name.getD []
                          category := req2.body.category.getD [], isCustom := true
                          user := some req2.user }
      · simp [hr, hv] at h
      · simp only [hr, hv, Bool.not_true, Bool.false_eq_true, if_false, if_true,
          Reply.json.injEq] at h ⊢
        obtain ⟨_, he⟩ := h
        subst he
        exact ⟨rfl, rfl, rfl⟩

/-- The witness of C22: a body that claims a public exercise of the user `55…5`. -/
theorem created_exercise_custom_witness :
    ∃ exercise, createExercise (fun _ => true) (ObjectId.ofDigit 7) sampleExercises.docs
          ⟨ObjectId.ofDigit 1, [],
            ⟨some "Row".toList, some "strength".toList, some false,
              some (ObjectId.ofDigit 5)⟩⟩
          = (.json 201 exercise, sampleExercises.docs ++ [exercise])
        ∧ exercise.isCustom = true ∧ exercise.user = some (ObjectId.ofDigit 1) :=
  (created_exercise_custom (fun _ => true) (ObjectId.ofDigit 7) sampleExercises.docs
    ⟨ObjectId.ofDigit 1, [],
      ⟨some "Row".toList, some "strength".toList, some false, some (ObjectId.ofDigit 5)⟩⟩
    (by decide) rfl).1

/-! ## The date range of the progress list -/

/-- C23, the code at the failing input: for `?startDate=2024-01-01&endDate=2024-01-31`
the filter of `getProgressEntries` holds the two strings under the keys `startDate` and
`endDate` and no clause on `date`; where such clauses are stripped the entry of 2024-03-01
is listed, and where the database looks for the paths the entry of 2024-01-15 is not. -/
theorem date_range_not_applied :
    buildFilter .progress januaryQuery (ObjectId.ofDigit 1)
        = some (.obj (.cons "startDate".toList (.str "2024-01-01".toList)
            (.cons "endDate".toList (.str "2024-01-31".toList)
              (.cons "user".toList (.str (ObjectId.ofDigit 1).toString) .nil))))
      ∧ getProgressEntries (sampleProgress true) januaryQuery (ObjectId.ofDigit 1)
        = .json { success := true
                  count := 2
                  pagination := { next := none, prev := none }
                  data := [sampleEntry 2 1705276800000 emptyMetrics [],
                    sampleEntry 3 1709251200000 emptyMetrics []] }
      ∧ getProgressEntries (sampleProgress false) januaryQuery (ObjectId.ofDigit 1)
        = .json { success := true
                  count := 0
                  pagination := { next := none, prev := none }
                  data := [] } := by
  refine ⟨rfl, rfl, rfl⟩

/-! ## An exercise listed twice -/

/-- The check on a list without repetition: when the ids listed are distinct and each is
the `_id` of an exercise the caller owns or a public one, the exercises found are as many
as the ids, and the check lets the request through. -/
theorem exercisesRejected_of_distinct (exercises : List Exercise)
    (exs : List WorkoutExercise) (user : ObjectId)
    (hstore : (exercises.map Exercise._id).Nodup)
    (hids : (exs.map WorkoutExercise.exercise).Nodup)
    (hacc : ∀ b ∈ exs.map WorkoutExercise.exercise,
      ∃ e ∈ exercises, e._id = b ∧ (e.user = some user ∨ e.isCustom = false)) :
    exercisesRejected exercises (some exs) user = false := by
  have hfound : ((accessibleExercises exercises (exs.map WorkoutExercise.exercise) user).map
      Exercise._id).Nodup := hstore.sublist ((List.filter_sublist _).map _)
  have hperm : ((accessibleExercises exercises (exs.map WorkoutExercise.exercise) user).map
      Exercise._id).Perm (exs.map WorkoutExercise.exercise) := by
    rw [List.perm_ext_iff_of_nodup hfound hids]
    intro b
    simp only [accessibleExercises, List.mem_map, List.mem_filter, Bool.and_eq_true,
      Bool.or_eq_true, decide_eq_true_eq]
    constructor
    · rintro ⟨e, ⟨_, hin, _⟩, rfl⟩
      simpa using hin
    · intro hb
      obtain ⟨e, he, hid, hok⟩ := hacc b (by simpa using hb)
      exact ⟨e, ⟨he, by simpa [hid] using hb, hok⟩, hid⟩
  have hlen := hperm.length_eq
  simp only [List.length_map] at hlen
  simp [exercisesRejected, hlen]

/-- C24, the code at the failing input: a workout that lists the public exercise `22…2`
twice is answered with the error 404 of the check, by `createWorkout` and by
`updateWorkout` of the owner alike, and nothing is written. -/
theorem repeated_exercise_rejected :
    createWorkout (fun _ => true) (ObjectId.ofDigit 9) sampleExercises.docs []
        { user := ObjectId.ofDigit 1, paramsId := []
          body := bodyListing [{ exercise := ObjectId.ofDigit 2, sets := [] },
            { exercise := ObjectId.ofDigit 2, sets := [] }] }
        = (.error ⟨"One or more exercises not found or not accessible", 404⟩, [])
      ∧ updateWorkout (fun _ => true) sampleExercises.docs [sampleWorkout 2]
        { user := ObjectId.ofDigit 1, paramsId := List.replicate 24 '2'
          body := bodyListing [{ exercise := ObjectId.ofDigit 2, sets := [] },
            { exercise := ObjectId.ofDigit 2, sets := [] }] }
        = (.error ⟨"One or more exercises not found or not accessible", 404⟩,
            [sampleWorkout 2]) := by
  decide

/-! ## The reducers of the resource slices -/

/-- What the filter of a reducer that deletes leaves: a sublist of the list, with the
documents of another `_id` and no other. -/
theorem filter_other_ids {α : Type} (idOf : α → List Char) (list : List α) (id : List Char) :
    (list.filter (fun x => decide (idOf x ≠ id))).Sublist list
      ∧ (∀ x, x ∈ list.filter (fun x => decide (idOf x ≠ id)) ↔ x ∈ list ∧ idOf x ≠ id)
      ∧ (list.filter (fun x => decide (idOf x ≠ id))).length
          + (list.filter (fun x => decide (idOf x = id))).length = list.length := by
  refine ⟨List.filter_sublist _, ?_, ?_⟩
  · intro x
    simp [List.mem_filter]
  · induction list with
    | nil => rfl
    | cons a rest ih =>
      by_cases h : idOf a = id
      · simp only [List.filter_cons, h, ne_eq, not_true_eq_false, decide_False, decide_True,
          if_true, List.length_cons] at ih ⊢
        simp only [Bool.false_eq_true, if_false]
        omega
      · simp only [List.filter_cons, h, ne_eq, not_false_eq_true, decide_False, decide_True,
          if_true, List.length_cons] at ih ⊢
        simp only [Bool.false_eq_true, if_false]
        omega

/-- The selected document after a reducer that deletes: null exactly when it was null or
had the `_id` deleted, and otherwise the one it was. -/
theorem clearIfDeleted_spec {α : Type} (idOf : α → List Char) (selected : Option α)
    (id : List Char) :
    (clearIfDeleted idOf selected id = none
        ↔ selected = none ∨ ∃ x, selected = some x ∧ idOf x = id)
      ∧ (∀ x, selected = some x → idOf x ≠ id → clearIfDeleted idOf selected id = some x) := by
  cases selected with
  | none => simp [clearIfDeleted]
  | some y =>
    by_cases h : idOf y = id
    · simp [clearIfDeleted, h]
    · simp [clearIfDeleted, h]

/-- C25. For every state of the three slices and every id, the fulfilled case of
`deleteWorkout`, `deleteExercise` and `deleteProgressEntry` leaves the list without the
documents of this `_id` and with the others in their order, sets the selected document to
null exactly when it has this `_id` (a selection that was null stays null), and keeps it
otherwise; the fulfilled case of `createWorkout`, `createExercise` and
`createProgressEntry` puts the new document in front of the list as it was. -/
theorem slice_delete_create {α σ : Type} (idOf : α → List Char) (w : WorkoutsState α)
    (e : ExercisesState α) (p : ProgressState α σ) (id : List Char) (data : α) :
    ((workoutSlice.deleteWorkoutFulfilled idOf w id).workouts
          = w.workouts.filter (fun x => decide (idOf x ≠ id))
        ∧ (workoutSlice.deleteWorkoutFulfilled idOf w id).workouts.Sublist w.workouts
        ∧ (∀ x, x ∈ (workoutSlice.deleteWorkoutFulfilled idOf w id).workouts
            ↔ x ∈ w.workouts ∧ idOf x ≠ id)
        ∧ ((workoutSlice.deleteWorkoutFulfilled idOf w id).workout = none
            ↔ w.workout = none ∨ ∃ x, w.workout = some x ∧ idOf x = id)
        ∧ (∀ x, w.workout = some x → idOf x ≠ id →
            (workoutSlice.deleteWorkoutFulfilled idOf w id).workout = some x)
        ∧ (workoutSlice.createWorkoutFulfilled w data).workouts = data :: w.workouts)
      ∧ ((exerciseSlice.deleteExerciseFulfilled idOf e id).exercises
          = e.exercises.filter (fun x => decide (idOf x ≠ id))
        ∧ (exerciseSlice.deleteExerciseFulfilled idOf e id).exercises.Sublist e.exercises
        ∧ (∀ x, x ∈ (exerciseSlice.deleteExerciseFulfilled idOf e id).exercises
            ↔ x ∈ e.exercises ∧ idOf x ≠ id)
        ∧ ((exerciseSlice.deleteExerciseFulfilled idOf e id).exercise = none
            ↔ e.exercise = none ∨ ∃ x, e.exercise = some x ∧ idOf x = id)
        ∧ (∀ x, e.exercise = some x → idOf x ≠ id →
            (exerciseSlice.deleteExerciseFulfilled idOf e id).exercise = some x)
        ∧ (exerciseSlice.createExerciseFulfilled e data).exercises = data :: e.exercises)
      ∧ ((progressSlice.deleteProgressEntryFulfilled idOf p id).progressEntries
          = p.progressEntries.filter (fun x => decide (idOf x ≠ id))
        ∧ (progressSlice.deleteProgressEntryFulfilled idOf p id).progressEntries.Sublist
            p.progressEntries
        ∧ (∀ x, x ∈ (progressSlice.deleteProgressEntryFulfilled idOf p id).progressEntries
            ↔ x ∈ p.progressEntries ∧ idOf x ≠ id)
        ∧ ((progressSlice.deleteProgressEntryFulfilled idOf p id).progressEntry = none
            ↔ p.progressEntry = none ∨ ∃ x, p.progressEntry = some x ∧ idOf x = id)
        ∧ (∀ x, p.progressEntry = some x → idOf x ≠ id →
            (progressSlice.deleteProgressEntryFulfilled idOf p id).progressEntry = some x)
        ∧ (progressSlice.createProgressEntryFulfilled p data).progressEntries
            = data :: p.progressEntries) := by
  refine ⟨⟨rfl, ?_, ?_, ?_, ?_, rfl⟩, ⟨rfl, ?_, ?_, ?_, ?_, rfl⟩, ⟨rfl, ?_, ?_, ?_, ?_, rfl⟩⟩
  · exact (filter_other_ids idOf w.workouts id).1
  · exact (filter_other_ids idOf w.workouts id).2.1
  · exact (clearIfDeleted_spec idOf w.workout id).1
  · exact (clearIfDeleted_spec idOf w.workout id).2
  · exact (filter_other_ids idOf e.exercises id).1
  · exact (filter_other_ids idOf e.exercises id).2.1
  · exact (clearIfDeleted_spec idOf e.exercise id).1
  · exact (clearIfDeleted_spec idOf e.exercise id).2
  · exact (filter_other_ids idOf p.progressEntries id).1
  · exact (filter_other_ids idOf p.progressEntries id).2.1
  · exact (clearIfDeleted_spec idOf p.progressEntry id).1
  · exact (clearIfDeleted_spec idOf p.progressEntry id).2

/-! ## The totals of the Dashboard -/

/-- C26, the code at the failing input: the caller sees three exercises, and after the
fetch with limit 1 the card `Total Exercises` shows 1; the caller owns eleven workouts,
and after the fetch with limit 10 the card `Total Workouts` shows 10. -/
theorem dashboard_shows_page_counts :
    Dashboard.totalExercises
        (Dashboard.loadExercises sampleExercises (ObjectId.ofDigit 1)
          exerciseSlice.initialState) = 1
      ∧ matchingCount .exercises exercisePaths sampleExercises .nil (ObjectId.ofDigit 1) = 3
      ∧ Dashboard.totalWorkouts
        (Dashboard.loadWorkouts (workoutsOf elevenWorkouts) (ObjectId.ofDigit 1)
          workoutSlice.initialState) = 10
      ∧ matchingCount .workouts workoutPaths (workoutsOf elevenWorkouts) .nil
          (ObjectId.ofDigit 1) = 11 := by
  refine ⟨rfl, rfl, rfl, rfl⟩

/-! ## What an update may write -/

/-- C27, the code at the failing input: the owner `11…1` sends `user = 55…5` in the body,
and `updateWorkout` and `updateProgressEntry` answer 200 and store the record under the
user `55…5`. -/
theorem update_reassigns_owner :
    updateWorkout (fun _ => true) [] [sampleWorkout 2]
        { user := ObjectId.ofDigit 1, paramsId := List.replicate 24 '2'
          body := { name := none, exercises := none, isTemplate := none
                    isCompleted := none, user := some (ObjectId.ofDigit 5) } }
        = (.json 200 { sampleWorkout 2 with user := ObjectId.ofDigit 5 },
            [{ sampleWorkout 2 with user := ObjectId.ofDigit 5 }])
      ∧ updateProgressEntry (fun _ => true) [sampleEntry 2 10 emptyMetrics []]
        { user := ObjectId.ofDigit 1, paramsId := List.replicate 24 '2'
          body := { user := some (ObjectId.ofDigit 5), date := none, metrics := none
                    personalRecords := none, notes := none } }
        = (.json 200 { sampleEntry 2 10 emptyMetrics [] with user := ObjectId.ofDigit 5 },
            [{ sampleEntry 2 10 emptyMetrics [] with user := ObjectId.ofDigit 5 }]) := by
  decide

/-- C28, the code at the failing input: the owner `11…1` of the custom exercise `44…4`
sends `isCustom = false` and `user = 55…5` in the body; `updateExercise` answers 200, and
the exercise is stored as a public one of the user `55…5`, one public exercise more than
before. -/
theorem update_makes_exercise_public :
    updateExercise (fun _ => true) sampleExercises.docs
        { user := ObjectId.ofDigit 1, paramsId := List.replicate 24 '4'
          body := { name := none, category := none, isCustom := some false
                    user := some (ObjectId.ofDigit 5) } }
        = (.json 200 (sampleExercise 4 false (some (ObjectId.ofDigit 5))),
            [sampleExercise 2 false none, sampleExercise 3 false none,
              sampleExercise 4 false (some (ObjectId.ofDigit 5)),
              sampleExercise 6 true (some (ObjectId.ofDigit 5))])
      ∧ publicExercises sampleExercises.docs
        = [sampleExercise 2 false none, sampleExercise 3 false none]
      ∧ publicExercises (updateExercise (fun _ => true) sampleExercises.docs
        { user := ObjectId.ofDigit 1, paramsId := List.replicate 24 '4'
          body := { name := none, category := none, isCustom := some false
                    user := some (ObjectId.ofDigit 5) } }).2
        = [sampleExercise 2 false none, sampleExercise 3 false none,
            sampleExercise 4 false (some (ObjectId.ofDigit 5))] := by
  decide

/-! ## Statistics of a record without exercise -/

/-- C29, the code at the failing input: an entry with a personal record that names no
exercise, which the schema accepts, makes the aggregation raise a TypeError, and
`getProgressStats` hands it to the error step instead of a stats object. -/
theorem stats_throw_without_exercise :
    compileStats [sampleEntry 2 10 emptyMetrics
        [{ exercise := none, value := .num 100, unit := some "kg".toList, date := none }]]
        = .error .typeError
      ∧ getProgressStats [sampleEntry 2 10 emptyMetrics
        [{ exercise := none, value := .num 100, unit := some "kg".toList, date := none }]]
        (ObjectId.ofDigit 1) { startDate := some 0, endDate := none } 20
        = .thrown .typeError := by
  constructor
  · rfl
  · rfl

/-! ## The token of the auth slice -/

/-- C30, the code at the failing input: with an expired token in the storage, and with a
token that does not decode, the initial state keeps the token while `isAuthenticated` is
false and `user` is null. -/
theorem expired_token_kept :
    authSlice.initialState (fun _ => some { id := "u1".toList, exp := some 100 })
        (some "expired.jwt".toList) 200000
        = { token := some "expired.jwt".toList, isAuthenticated := false, user := none
            loading := false, error := none }
      ∧ authSlice.initialState (fun _ => none) (some "garbage".toList) 200000
        = { token := some "garbage".toList, isAuthenticated := false, user := none
            loading := false, error := none }
      ∧ (authSlice.initialState (fun _ => some { id := "u1".toList, exp := some 100 })
        (some "expired.jwt".toList) 200000).consistent = false := by
  decide


end WorkoutTracker
